import Mathlib

/-!
# libopenssh: wire buffer primitives, RSA challenge-response, Diffie-Hellman exchange

A shallow embedding of `src/ssh/sshbuf-getput-basic.c`, of `src/ssh/auth-rsa.c` (key
lookup, challenge dialog, response check) and of the server handler `input_kex_dh_init`
of `src/ssh/kexdhs.c`, followed by theorems about them.

Conventions of the embedding:
* a byte (`u_char`) is a `Fin 256`; wider machine integers are `Nat`, reduced explicitly
  where the C type would truncate;
* a function that takes a `struct sshbuf *` returns its result together with the buffer
  after the call;
* a negative return code is an `Except.error`, return code 0 is an `Except.ok` carrying the
  values stored through the output pointers;
* a function that talks to the outside (files, packets, random numbers, allocation)
  returns, next to its result, the list of what it did, in order;
* what the C code gets from headers and files that are not part of `src/` (the buffer
  structure, `sshbuf_consume`, `sshbuf_reserve`, the `PEEK`/`POKE` macros, the error
  constants, the key file reader, the packet layer, the OpenSSL and libc calls) is
  modelled from the specification and marked so, or is a parameter.
-/

namespace OpenSSH

/-! ## Data model -/

/-- One byte, the C type `u_char`. -/
abbrev u_char := Fin 256

/-- Modelled from the spec: the error constants of `err.h`, which is not under `src/`.
Only their names are used, one constructor per constant; `literal` stands for a return
code that the source writes as a number (`return -1` in `sshbuf_get_cstring`). -/
inductive ssh_err where
  | SSH_ERR_INTERNAL_ERROR
  | SSH_ERR_ALLOC_FAIL
  | SSH_ERR_MESSAGE_INCOMPLETE
  | SSH_ERR_INVALID_FORMAT
  | SSH_ERR_NO_BUFFER_SPACE
  | SSH_ERR_INVALID_ARGUMENT
  | SSH_ERR_KEY_TYPE_MISMATCH
  | SSH_ERR_LIBCRYPTO_ERROR
  | literal (code : Int)
  deriving DecidableEq, Repr

open ssh_err

/-- Equality of results is decidable, so that results can be compared by evaluation. -/
instance instDecidableEqExcept {ε α : Type} [DecidableEq ε] [DecidableEq α] :
    DecidableEq (Except ε α)
  | .ok a, .ok b => if h : a = b then isTrue (by rw [h]) else isFalse (by
      intro h2; cases h2; exact h rfl)
  | .error a, .error b => if h : a = b then isTrue (by rw [h]) else isFalse (by
      intro h2; cases h2; exact h rfl)
  | .ok _, .error _ => isFalse (by intro h; cases h)
  | .error _, .ok _ => isFalse (by intro h; cases h)

/-- Modelled from the spec: `struct sshbuf` is declared in `sshbuf.h`, which is not under
`src/`. The spec describes it as a contiguous growable sequence of bytes (`d`) plus a read
offset into it (`off`); the bytes before `off` are consumed. -/
structure sshbuf where
  d : List u_char
  off : Nat
  deriving DecidableEq, Repr

/-- Modelled from the spec: a buffer "created empty". -/
def sshbuf_new : sshbuf := { d := [], off := 0 }

/-- Modelled from the spec: `sshbuf_ptr` (sshbuf.c), the unread bytes, starting at the
read offset. -/
def sshbuf_ptr (buf : sshbuf) : List u_char := buf.d.drop buf.off

/-- Modelled from the spec: `sshbuf_len` (sshbuf.c), the number of unread bytes. -/
def sshbuf_len (buf : sshbuf) : Nat := buf.d.length - buf.off

/-- Modelled from the spec: `sshbuf_consume` (sshbuf.c). "Advances the cursor by `n`,
failing incomplete message if `n` exceeds remaining length." -/
def sshbuf_consume (buf : sshbuf) (len : Nat) : Except ssh_err Unit × sshbuf :=
  if len > sshbuf_len buf then (.error SSH_ERR_MESSAGE_INCOMPLETE, buf)
  else (.ok (), { buf with off := buf.off + len })

/-- Modelled from the spec: `sshbuf_reserve` (sshbuf.c). The buffer is growable and an
append fails only when space cannot be had; whether a request of `len` more bytes is
granted is decided by the parameter `grant` (`none`: granted, `some e`: refused with
error `e`). On success `len` fresh bytes are added at the end and the index of the first
of them is returned (the pointer `*dpp`); on failure the buffer is unchanged. -/
def sshbuf_reserve (grant : sshbuf → Nat → Option ssh_err) (buf : sshbuf) (len : Nat) :
    Except ssh_err Nat × sshbuf :=
  match grant buf len with
  | some e => (.error e, buf)
  | none => (.ok buf.d.length, { buf with d := buf.d ++ List.replicate len 0 })

/-- Width of `size_t` in bits on an LP64 target, where the functions are stated. The sum
that `sshbuf_get_string_direct` takes in `size_t` (line 127) is bounded by the unread
length through the test of line 148, and the one of `sshbuf_put_string` (line 316) by
`2^32 - 1` through the test of line 312, so neither wraps at any width of 32 bits or
more. The sum of line 171 of `sshbuf_get_cstring` has no such bound and wraps at 32
bits: that function is given at every width, see `sshbuf_get_cstring_bits`. -/
def SIZE_T_BITS : Nat := 64

/-- Arithmetic in `size_t` wraps modulo `2 ^ SIZE_T_BITS`. -/
def size_t (n : Nat) : Nat := n % 2 ^ SIZE_T_BITS

/-- Arithmetic in `u_int32_t` wraps modulo `2 ^ 32`. -/
def u_int32_t (n : Nat) : Nat := n % 2 ^ 32

/-- The low eight bits of a number: `(u_char)(n & 0xff)`. -/
def lo8 (n : Nat) : u_char := ⟨n % 256, Nat.mod_lt n (by decide)⟩

/-- Byte `i` of the memory at `p` (0 when the model has no byte there). -/
def byte_at (p : List u_char) (i : Nat) : Nat := (p.getD i 0).val

/-- The effect of `memcpy(d + p, src, |src|)` on the byte sequence `d`. -/
def mem_write (d : List u_char) (p : Nat) (src : List u_char) : List u_char :=
  d.take p ++ src ++ d.drop (p + src.length)

/-- Modelled from the spec: macro `PEEK_U16` of `sshbuf.h` (not under `src/`): the
big-endian value of two bytes. -/
def PEEK_U16 (p : List u_char) : Nat := byte_at p 0 * 2 ^ 8 + byte_at p 1

/-- Modelled from the spec: macro `PEEK_U32` of `sshbuf.h` (not under `src/`): the
big-endian value of four bytes. -/
def PEEK_U32 (p : List u_char) : Nat :=
  byte_at p 0 * 2 ^ 24 + byte_at p 1 * 2 ^ 16 + byte_at p 2 * 2 ^ 8 + byte_at p 3

/-- Modelled from the spec: macro `PEEK_U64` of `sshbuf.h` (not under `src/`): the
big-endian value of eight bytes. -/
def PEEK_U64 (p : List u_char) : Nat :=
  byte_at p 0 * 2 ^ 56 + byte_at p 1 * 2 ^ 48 + byte_at p 2 * 2 ^ 40 + byte_at p 3 * 2 ^ 32 +
  byte_at p 4 * 2 ^ 24 + byte_at p 5 * 2 ^ 16 + byte_at p 6 * 2 ^ 8 + byte_at p 7

/-- The two bytes that `POKE_U16` stores, most significant first. -/
def be16 (v : Nat) : List u_char := [lo8 (v / 2 ^ 8), lo8 v]

/-- The four bytes that `POKE_U32` stores, most significant first. -/
def be32 (v : Nat) : List u_char :=
  [lo8 (v / 2 ^ 24), lo8 (v / 2 ^ 16), lo8 (v / 2 ^ 8), lo8 v]

/-- The eight bytes that `POKE_U64` stores, most significant first. -/
def be64 (v : Nat) : List u_char :=
  [lo8 (v / 2 ^ 56), lo8 (v / 2 ^ 48), lo8 (v / 2 ^ 40), lo8 (v / 2 ^ 32),
   lo8 (v / 2 ^ 24), lo8 (v / 2 ^ 16), lo8 (v / 2 ^ 8), lo8 v]

/-- Modelled from the spec: macro `POKE_U16` of `sshbuf.h` (not under `src/`): stores `v`
as two big-endian bytes at index `p` of `d`. -/
def POKE_U16 (d : List u_char) (p : Nat) (v : Nat) : List u_char := mem_write d p (be16 v)

/-- Modelled from the spec: macro `POKE_U32` of `sshbuf.h` (not under `src/`): stores `v`
as four big-endian bytes at index `p` of `d`. -/
def POKE_U32 (d : List u_char) (p : Nat) (v : Nat) : List u_char := mem_write d p (be32 v)

/-- Modelled from the spec: macro `POKE_U64` of `sshbuf.h` (not under `src/`): stores `v`
as eight big-endian bytes at index `p` of `d`. -/
def POKE_U64 (d : List u_char) (p : Nat) (v : Nat) : List u_char := mem_write d p (be64 v)

/-- The libc function `memchr(s, c, n)`: the index of the first byte equal to `c` among the
first `n` bytes of `s`, or `none` (the NULL pointer) when there is none. -/
def memchr : List u_char → u_char → Nat → Option Nat
  | _, _, 0 => none
  | [], _, _ + 1 => none
  | b :: bs, c, n + 1 => if b = c then some 0 else (memchr bs c n).map (· + 1)

/-- The libc function `strlen`: the number of bytes before the first zero byte. -/
def strlen : List u_char → Nat
  | [] => 0
  | b :: bs => if b = 0 then 0 else strlen bs + 1

/-- The big-endian value of a byte sequence (the specification's notion, used to state
what the decoders return). -/
def be_value (bs : List u_char) : Nat := bs.foldl (fun acc b => acc * 256 + b.val) 0

/-! ## sshbuf-getput-basic.c: decoders -/

/-- `sshbuf_get_u64` (lines 40-51). -/
def sshbuf_get_u64 (buf : sshbuf) : Except ssh_err Nat × sshbuf :=
  let p := sshbuf_ptr buf
  match sshbuf_consume buf 8 with
  | (.error r, b) => (.error r, b)
  | (.ok _, b) => (.ok (PEEK_U64 p), b)

/-- `sshbuf_get_u32` (lines 53-64). -/
def sshbuf_get_u32 (buf : sshbuf) : Except ssh_err Nat × sshbuf :=
  let p := sshbuf_ptr buf
  match sshbuf_consume buf 4 with
  | (.error r, b) => (.error r, b)
  | (.ok _, b) => (.ok (PEEK_U32 p), b)

/-- `sshbuf_get_u16` (lines 66-77). -/
def sshbuf_get_u16 (buf : sshbuf) : Except ssh_err Nat × sshbuf :=
  let p := sshbuf_ptr buf
  match sshbuf_consume buf 2 with
  | (.error r, b) => (.error r, b)
  | (.ok _, b) => (.ok (PEEK_U16 p), b)

/-- `sshbuf_get_u8` (lines 79-90). -/
def sshbuf_get_u8 (buf : sshbuf) : Except ssh_err Nat × sshbuf :=
  let p := sshbuf_ptr buf
  match sshbuf_consume buf 1 with
  | (.error r, b) => (.error r, b)
  | (.ok _, b) => (.ok (byte_at p 0), b)

/-- `sshbuf_peek_string_direct` (lines 136-157). The buffer is `const`; it is returned as
it was received. The view `*valp = p + 4` of `*lenp = len` bytes is returned as the bytes
it covers. -/
def sshbuf_peek_string_direct (buf : sshbuf) :
    Except ssh_err (List u_char × Nat) × sshbuf :=
  let p := sshbuf_ptr buf
  if sshbuf_len buf < 4 then (.error SSH_ERR_MESSAGE_INCOMPLETE, buf)
  else
    let len := PEEK_U32 p
    if sshbuf_len buf - 4 < len then (.error SSH_ERR_MESSAGE_INCOMPLETE, buf)
    else (.ok ((p.drop 4).take len, len), buf)

/-- `sshbuf_get_string_direct` (lines 114-134). -/
def sshbuf_get_string_direct (buf : sshbuf) :
    Except ssh_err (List u_char × Nat) × sshbuf :=
  match sshbuf_peek_string_direct buf with
  | (.error r, b) => (.error r, b)
  | (.ok (p, len), b) =>
    match sshbuf_consume b (size_t (len + 4)) with
    | (.ok _, b2) => (.ok (p, len), b2)
    | (.error _, b2) => (.error SSH_ERR_INTERNAL_ERROR, b2)

/-- `sshbuf_get_string` (lines 92-112). `valp` tells whether the output pointer `valp` is
non-NULL; `malloc n` tells whether an allocation of `n` bytes succeeds. The block stored
in `*valp` is the `len` copied bytes followed by the terminator of line 107. -/
def sshbuf_get_string (malloc : Nat → Bool) (buf : sshbuf) (valp : Bool) :
    Except ssh_err (Option (List u_char) × Nat) × sshbuf :=
  match sshbuf_get_string_direct buf with
  | (.error r, b) => (.error r, b)
  | (.ok (val, len), b) =>
    if valp then
      if malloc (len + 1) then (.ok (some (val.take len ++ [0]), len), b)
      else (.error SSH_ERR_ALLOC_FAIL, b)
    else (.ok (none, len), b)

/-- `sshbuf_get_cstring` (lines 159-193) on a target whose `size_t` has `bits` bits, 32
or more, so that a `u_int32_t` converts to `size_t` unchanged. `valp` and `malloc` as in
`sshbuf_get_string`. The sums `(size_t)len + 4` of line 171 and `4 + (size_t)len` of line
180 are taken in `size_t`, modulo `2 ^ bits`; the sum `len + 1` of line 183 is taken in
`u_int32_t`, the type of `len`. The pointer test `z < p + 4 + len - 1` is written on the
index `i` of `z` from `p + 4`; memory after the unread bytes is not part of the model, so
`memchr` finds nothing there. The block stored in `*valp` is what lines 187-188 write
from its start on, the `len` bytes copied and the terminator; when `len + 1` wraps, at
`len = 0xFFFFFFFF`, the block allocated has no byte and these writes go past it. -/
def sshbuf_get_cstring_bits (bits : Nat) (malloc : Nat → Bool) (buf : sshbuf)
    (valp : Bool) : Except ssh_err (Option (List u_char) × Nat) × sshbuf :=
  let p := sshbuf_ptr buf
  if sshbuf_len buf < 4 then (.error SSH_ERR_MESSAGE_INCOMPLETE, buf)
  else
    let len := PEEK_U32 p
    if sshbuf_len buf < (len + 4) % 2 ^ bits then (.error SSH_ERR_MESSAGE_INCOMPLETE, buf)
    else
      let z := memchr (p.drop 4) 0 len
      if z.any (fun i => decide (4 + i < 4 + len - 1)) then (.error SSH_ERR_INVALID_FORMAT, buf)
      else
        match sshbuf_consume buf ((4 + len) % 2 ^ bits) with
        | (.error _, b) => (.error (literal (-1)), b)
        | (.ok _, b) =>
          if valp then
            if malloc (u_int32_t (len + 1)) then
              (.ok (some ((p.drop 4).take len ++ [0]), len), b)
            else (.error SSH_ERR_ALLOC_FAIL, b)
          else (.ok (none, len), b)

/-- `sshbuf_get_cstring` (lines 159-193) on the LP64 target: `size_t` has `SIZE_T_BITS`
bits. -/
def sshbuf_get_cstring (malloc : Nat → Bool) (buf : sshbuf) (valp : Bool) :
    Except ssh_err (Option (List u_char) × Nat) × sshbuf :=
  sshbuf_get_cstring_bits SIZE_T_BITS malloc buf valp

/-! ## sshbuf-getput-basic.c: encoders -/

/-- `sshbuf_put_u64` (lines 258-268). -/
def sshbuf_put_u64 (grant : sshbuf → Nat → Option ssh_err) (buf : sshbuf) (val : Nat) :
    Except ssh_err Unit × sshbuf :=
  match sshbuf_reserve grant buf 8 with
  | (.error r, b) => (.error r, b)
  | (.ok p, b) => (.ok (), { b with d := POKE_U64 b.d p val })

/-- `sshbuf_put_u32` (lines 270-280). -/
def sshbuf_put_u32 (grant : sshbuf → Nat → Option ssh_err) (buf : sshbuf) (val : Nat) :
    Except ssh_err Unit × sshbuf :=
  match sshbuf_reserve grant buf 4 with
  | (.error r, b) => (.error r, b)
  | (.ok p, b) => (.ok (), { b with d := POKE_U32 b.d p val })

/-- `sshbuf_put_u16` (lines 282-292). -/
def sshbuf_put_u16 (grant : sshbuf → Nat → Option ssh_err) (buf : sshbuf) (val : Nat) :
    Except ssh_err Unit × sshbuf :=
  match sshbuf_reserve grant buf 2 with
  | (.error r, b) => (.error r, b)
  | (.ok p, b) => (.ok (), { b with d := POKE_U16 b.d p val })

/-- `sshbuf_put_u8` (lines 294-304). -/
def sshbuf_put_u8 (grant : sshbuf → Nat → Option ssh_err) (buf : sshbuf) (val : u_char) :
    Except ssh_err Unit × sshbuf :=
  match sshbuf_reserve grant buf 1 with
  | (.error r, b) => (.error r, b)
  | (.ok p, b) => (.ok (), { b with d := mem_write b.d p [val] })

/-- `sshbuf_put_string` (lines 306-321). The pair `(v, len)` of the C function is the byte
sequence `v`, `len` being its length. -/
def sshbuf_put_string (grant : sshbuf → Nat → Option ssh_err) (buf : sshbuf)
    (v : List u_char) : Except ssh_err Unit × sshbuf :=
  let len := v.length
  if len > 0xFFFFFFFF - 4 then (.error SSH_ERR_NO_BUFFER_SPACE, buf)
  else
    match sshbuf_reserve grant buf (size_t (len + 4)) with
    | (.error r, b) => (.error r, b)
    | (.ok p, b) => (.ok (), { b with d := mem_write (POKE_U32 b.d p len) (p + 4) v })

/-- `sshbuf_put_cstring` (lines 323-327). `v` is the memory at the pointer, a C string:
the text, a zero byte, and whatever follows. -/
def sshbuf_put_cstring (grant : sshbuf → Nat → Option ssh_err) (buf : sshbuf)
    (v : List u_char) : Except ssh_err Unit × sshbuf :=
  sshbuf_put_string grant buf (v.take (strlen v))

/-! ## auth-rsa.c: the challenge-response check -/

/-- What a C function that may call `fatal()` does: it ends the process (`fatal`) or
returns a value (`ret`). -/
inductive outcome (α : Type) where
  | fatal
  | ret (a : α)
  deriving DecidableEq, Repr

/-- An OpenSSL `BIGNUM`: an integer, kept as sign and magnitude. -/
abbrev BIGNUM := Int

/-- The part of OpenSSL's `RSA` structure that matters here: the modulus `n`, which the
code reads, and the public exponent `e`, which a key file line carries with it (two keys
may share a modulus and differ in the exponent). -/
structure RSA where
  n : BIGNUM
  e : BIGNUM := 0
  deriving DecidableEq, Repr

/-- The part of `struct sshkey` (key.h, not under `src/`) that the code reads: `rsa`. -/
structure sshkey where
  rsa : RSA
  deriving DecidableEq, Repr

/-- The number of significant bits of `n`, by halving until nothing is left; the first
argument bounds the number of halvings (`n` itself is always enough). -/
def num_bits_aux : Nat → Nat → Nat
  | 0, _ => 0
  | fuel + 1, n => if n = 0 then 0 else num_bits_aux fuel (n / 2) + 1

/-- OpenSSL's `BN_num_bits`: the number of significant bits of the magnitude (0 for 0). -/
def BN_num_bits (a : BIGNUM) : Nat := num_bits_aux a.natAbs a.natAbs

/-- OpenSSL's `BN_num_bytes`: `(BN_num_bits(a) + 7) / 8`. -/
def BN_num_bytes (a : BIGNUM) : Nat := (BN_num_bits a + 7) / 8

/-- OpenSSL's `BN_bn2bin`: the magnitude in big-endian form, `BN_num_bytes(a)` bytes. -/
def BN_bn2bin (a : BIGNUM) : List u_char :=
  (List.range (BN_num_bytes a)).map
    (fun i => lo8 (a.natAbs / 256 ^ (BN_num_bytes a - 1 - i)))

/-- The libc function `timingsafe_bcmp(b1, b2, n)`: the exclusive-or of each of the `n`
byte pairs is accumulated with bitwise or; the result is 0 when the accumulator is 0 and 1
otherwise. Every pair is visited whatever the bytes are. -/
def timingsafe_bcmp (b1 b2 : List u_char) (n : Nat) : Int :=
  if (List.range n).foldl (fun ret i => ret ||| (byte_at b1 i ^^^ byte_at b2 i)) 0 ≠ 0
  then 1 else 0

/-- `auth_rsa_verify_response` (auth-rsa.c, lines 87-120).
Parameters standing for what is not under `src/`: the constant
`SSH_RSA_MINIMUM_MODULUS_SIZE` (ssh.h), the hash MD5 as a function from the hashed bytes to
the digest (`MD5_Init`, the `MD5_Update` calls in order, `MD5_Final`), and the global
16-byte array `session_id`. -/
def auth_rsa_verify_response (SSH_RSA_MINIMUM_MODULUS_SIZE : Nat)
    (MD5 : List u_char → List u_char) (session_id : List u_char)
    (key : sshkey) (challenge : BIGNUM) (response : List u_char) : outcome Int :=
  if BN_num_bits key.rsa.n < SSH_RSA_MINIMUM_MODULUS_SIZE then .ret 0
  else
    let len := BN_num_bytes challenge
    if len ≤ 0 ∨ len > 32 then .fatal
    else
      let buf := mem_write (List.replicate 32 0) (32 - len) (BN_bn2bin challenge)
      let mdbuf := MD5 (buf.take 32 ++ session_id.take 16)
      if timingsafe_bcmp response mdbuf 16 ≠ 0 then .ret 0
      else .ret 1

/-! ## auth-rsa.c: key lookup and the challenge dialog -/

/-- What the authentication code does that can be observed from outside, in the order in
which it happens. -/
inductive auth_event where
  /-- `auth_openkeyfile` is called on a file (line 177). -/
  | auth_openkeyfile (file : String)
  /-- The warning of lines 233-236: announced and actual key size differ. -/
  | keysize_mismatch (file : String) (linenum : Nat) (actual announced : Nat)
  /-- The debug message of line 239. -/
  | matching_key_found (file : String) (linenum : Nat)
  /-- `BN_rand` has drawn a random value (line 76). -/
  | BN_rand (v : BIGNUM)
  /-- `rsa_public_encrypt` is called on a challenge (line 142). -/
  | rsa_public_encrypt (challenge : BIGNUM)
  /-- The packet `SSH_SMSG_AUTH_RSA_CHALLENGE` carrying an encrypted challenge has been
  handed to `sshpkt_send` (lines 147-149). -/
  | sshpkt_send_challenge (encrypted : BIGNUM)
  /-- The response packet has been read (lines 155-157). -/
  | read_response (response : List u_char)
  /-- `auth_clear_options` (line 318). -/
  | auth_clear_options
  /-- `ssh_packet_send_debug` with a message (lines 326, 343). -/
  | send_debug (msg : String)
  deriving DecidableEq, Repr

/-- The functions, globals and outside events that `auth-rsa.c` depends on and that are
not under `src/`, as parameters. The user (`pw`) is fixed. -/
structure auth_env where
  /-- `auth_openkeyfile(file, pw, options.strict_modes)` followed by `read_keyfile_line`
  until it returns -1: the lines of the file in order, or `none` when the file cannot be
  opened. -/
  auth_openkeyfile : String → Option (List (List Char))
  /-- `hostfile_read_key(&cp, &bits, key)`: from the text at `cp`, the announced size
  `bits`, the key and the text after it; `none` when it returns 0. -/
  hostfile_read_key : List Char → Option (Nat × sshkey × List Char)
  /-- `auth_key_is_revoked(key)`. -/
  auth_key_is_revoked : sshkey → Bool
  /-- `auth_parse_options(pw, key_options, file, linenum)`: whether it returns non-zero,
  and the value of the global `key_is_cert_authority` after the call. -/
  auth_parse_options : Option (List Char) → String → Nat → Bool × Bool
  /-- `expand_authorized_keys(name, pw)`. -/
  expand_authorized_keys : String → String
  /-- The constant `SSH_RSA_MINIMUM_MODULUS_SIZE` (ssh.h). -/
  SSH_RSA_MINIMUM_MODULUS_SIZE : Nat
  /-- The hash MD5. -/
  MD5 : List u_char → List u_char
  /-- The global array `session_id`. -/
  session_id : List u_char
  /-- Whether `BN_new` succeeds in `auth_rsa_challenge_dialog` (line 136). -/
  BN_new_encrypted : Bool
  /-- Whether `BN_new` succeeds in `auth_rsa_generate_challenge` (line 73). -/
  BN_new_challenge : Bool
  /-- `BN_rand(challenge, 256, 0, 0)`: the value drawn, `none` when it returns 0. OpenSSL
  draws a number of 256 bits with the top bit set (`top = 0`) and the lowest bit free
  (`bottom = 0`), so `2^255 ≤ v < 2^256`. The parameter is not restricted to this range;
  a property that needs the range states it. -/
  BN_rand : Option BIGNUM
  /-- Whether `BN_CTX_new` succeeds (line 78). -/
  BN_CTX_new : Bool
  /-- `rsa_public_encrypt(out, in, key)` (rsa.c): the encrypted value or an error. -/
  rsa_public_encrypt : BIGNUM → RSA → Except ssh_err BIGNUM
  /-- The return codes of `sshpkt_start`, `sshpkt_put_bignum1` and `sshpkt_send`
  (`none` for 0). -/
  sshpkt_start : Option ssh_err
  sshpkt_put_bignum1 : BIGNUM → Option ssh_err
  sshpkt_send : Option ssh_err
  /-- Whether `ssh_packet_read_expect` returns (it ends the process otherwise). -/
  ssh_packet_read_expect : Bool
  /-- `sshpkt_get(ssh, &response, 16)`: the 16 bytes sent by the client, or an error. -/
  sshpkt_get_response : Except ssh_err (List u_char)
  /-- The return code of `sshpkt_get_end` (`none` for 0). -/
  sshpkt_get_end : Option ssh_err

/-- The libc function `strcasecmp`, as far as the code uses it: 0 when the two strings are
equal up to the case of ASCII letters, non-zero otherwise. -/
def strcasecmp (a b : String) : Int :=
  if a.toList.map Char.toLower = b.toList.map Char.toLower then 0 else 1

/-- The loop of line 193: skip leading blanks and tabs. -/
def skip_blanks : List Char → List Char
  | [] => []
  | c :: cs => if c = ' ' ∨ c = '\t' then skip_blanks cs else c :: cs

/-- The loop of lines 207-212: skip the option part, minding quotes; `quoted` is the
variable of that name, the result is the text at `cp` when the loop ends. -/
def skip_options : Bool → List Char → List Char
  | _, [] => []
  | quoted, '\\' :: '"' :: cs => skip_options quoted cs
  | quoted, c :: cs =>
    if quoted ∨ (c ≠ ' ' ∧ c ≠ '\t') then
      if c = '"' then skip_options (!quoted) cs else skip_options quoted cs
    else c :: cs

/-- The variable `key_options` after lines 204-214, `cp` being the line after its leading
blanks: the text from `cp` on when it does not start with a digit, NULL otherwise. -/
def line_key_options (cp : List Char) : Option (List Char) :=
  match cp with
  | [] => none
  | c :: _ => if c < '0' ∨ c > '9' then some cp else none

/-- The pointer `cp` after lines 204-214: past the option part when there is one. -/
def line_key_text (cp : List Char) : List Char :=
  match cp with
  | [] => []
  | c :: _ => if c < '0' ∨ c > '9' then skip_options false cp else cp

/-- How the body of the loop over the lines (lines 187-259) ends for one line:
`continue`, `break` with `allowed` still 0, or `allowed = 1; break` with the key. -/
inductive line_verdict where
  | continue_
  | break_
  | allowed (key : sshkey)
  deriving DecidableEq, Repr

/-- The body of the `while` loop of `rsa_key_allowed_in_file` (lines 188-258) on one
line. -/
def rsa_key_line (env : auth_env) (file : String) (linenum : Nat) (client_n : BIGNUM)
    (line : List Char) : List auth_event × line_verdict :=
  let cp := skip_blanks line
  match cp with
  | [] => ([], .continue_)
  | c :: _ =>
    if c = '\n' ∨ c = '#' then ([], .continue_)
    else
      let key_options := line_key_options cp
      match env.hostfile_read_key (line_key_text cp) with
      | none => ([], .continue_)
      | some (bits, key, _) =>
        if key.rsa.n ≠ client_n then ([], .continue_)
        else
          let keybits := BN_num_bits key.rsa.n
          let log1 := if bits ≠ keybits then
            [auth_event.keysize_mismatch file linenum keybits bits] else []
          let log := log1 ++ [auth_event.matching_key_found file linenum]
          if env.auth_key_is_revoked key then (log, .break_)
          else
            let opts := env.auth_parse_options key_options file linenum
            if !opts.1 then (log, .continue_)
            else if opts.2 then (log, .continue_)
            else (log, .allowed key)

/-- The `while` loop of `rsa_key_allowed_in_file` (lines 187-259) over the lines that are
left, `linenum` lines having been read. The result is `some key` when `allowed` is 1. -/
def rsa_key_lines (env : auth_env) (file : String) (client_n : BIGNUM) :
    Nat → List (List Char) → List auth_event × Option sshkey
  | _, [] => ([], none)
  | linenum, line :: rest =>
    match rsa_key_line env file (linenum + 1) client_n line with
    | (log, .continue_) =>
      ((log ++ (rsa_key_lines env file client_n (linenum + 1) rest).1),
        (rsa_key_lines env file client_n (linenum + 1) rest).2)
    | (log, .break_) => (log, none)
    | (log, .allowed key) => (log, some key)

/-- `rsa_key_allowed_in_file` (lines 165-271): `some key` stands for the return value 1
with `*rkey = key`, `none` for the return value 0. -/
def rsa_key_allowed_in_file (env : auth_env) (file : String) (client_n : BIGNUM) :
    List auth_event × Option sshkey :=
  match env.auth_openkeyfile file with
  | none => ([auth_event.auth_openkeyfile file], none)
  | some lines =>
    (auth_event.auth_openkeyfile file :: (rsa_key_lines env file client_n 0 lines).1,
      (rsa_key_lines env file client_n 0 lines).2)

/-- `auth_rsa_key_allowed` (lines 278-299) on the list `options.authorized_keys_files`. -/
def auth_rsa_key_allowed (env : auth_env) (client_n : BIGNUM) :
    List String → List auth_event × Option sshkey
  | [] => ([], none)
  | name :: names =>
    if strcasecmp name "none" = 0 then auth_rsa_key_allowed env client_n names
    else
      match rsa_key_allowed_in_file env (env.expand_authorized_keys name) client_n with
      | (log, some key) => (log, some key)
      | (log, none) =>
        (log ++ (auth_rsa_key_allowed env client_n names).1,
          (auth_rsa_key_allowed env client_n names).2)

/-- `auth_rsa_generate_challenge` (lines 67-85). `BN_mod` fails on a zero modulus and
otherwise leaves the remainder of the truncated division. -/
def auth_rsa_generate_challenge (env : auth_env) (key : sshkey) :
    List auth_event × outcome BIGNUM :=
  if !env.BN_new_challenge then ([], .fatal)
  else
    match env.BN_rand with
    | none => ([], .fatal)
    | some v =>
      if !env.BN_CTX_new then ([auth_event.BN_rand v], .fatal)
      else if key.rsa.n = 0 then ([auth_event.BN_rand v], .fatal)
      else ([auth_event.BN_rand v], .ret (Int.tmod v key.rsa.n))

/-- `auth_rsa_challenge_dialog` (lines 128-163). `PRIVSEP(f(...))` is the call `f(...)`,
made in this process or in the monitor. -/
def auth_rsa_challenge_dialog (env : auth_env) (key : sshkey) :
    List auth_event × outcome Int :=
  if !env.BN_new_encrypted then ([], .fatal)
  else
    match auth_rsa_generate_challenge env key with
    | (log, .fatal) => (log, .fatal)
    | (log, .ret challenge) =>
      match env.rsa_public_encrypt challenge key.rsa with
      | .error _ => (log ++ [auth_event.rsa_public_encrypt challenge], .fatal)
      | .ok encrypted_challenge =>
        let log2 := log ++ [auth_event.rsa_public_encrypt challenge]
        if env.sshpkt_start ≠ none ∨ env.sshpkt_put_bignum1 encrypted_challenge ≠ none ∨
            env.sshpkt_send ≠ none then (log2, .fatal)
        else
          let log3 := log2 ++ [auth_event.sshpkt_send_challenge encrypted_challenge]
          if !env.ssh_packet_read_expect then (log3, .fatal)
          else
            match env.sshpkt_get_response with
            | .error _ => (log3, .fatal)
            | .ok response =>
              if env.sshpkt_get_end ≠ none then (log3, .fatal)
              else
                match auth_rsa_verify_response env.SSH_RSA_MINIMUM_MODULUS_SIZE env.MD5
                    env.session_id key challenge response with
                | .fatal => (log3 ++ [auth_event.read_response response], .fatal)
                | .ret success => (log3 ++ [auth_event.read_response response], .ret success)

/-- `auth_rsa` (lines 306-345); `valid` is `authctxt->valid`, `files` the list
`options.authorized_keys_files`. -/
def auth_rsa (env : auth_env) (valid : Bool) (files : List String) (client_n : BIGNUM) :
    List auth_event × outcome Int :=
  if !valid then ([], .ret 0)
  else
    match auth_rsa_key_allowed env client_n files with
    | (log, none) => (log ++ [auth_event.auth_clear_options], .ret 0)
    | (log, some key) =>
      match auth_rsa_challenge_dialog env key with
      | (log2, .fatal) => (log ++ log2, .fatal)
      | (log2, .ret success) =>
        if success = 0 then
          (log ++ log2 ++
            [auth_event.send_debug "Wrong response to RSA authentication challenge."],
            .ret 0)
        else (log ++ log2 ++ [auth_event.send_debug "RSA authentication accepted."], .ret 1)

/-! ## kexdhs.c: the server side of the Diffie-Hellman exchange -/

/-- The part of OpenSSL's `DH` structure that is of interest: the group (`p`, `g`) and the
key pair; the code reads `pub_key`. -/
structure DH where
  p : BIGNUM
  g : BIGNUM
  pub_key : BIGNUM
  priv_key : BIGNUM
  deriving DecidableEq, Repr

/-- The fields of `struct kex` (kex.h, lines 106-134) that `input_kex_dh_init` uses. A
pointer is an `Option`, `none` standing for NULL; `session_id` points to
`session_id_len` bytes. -/
structure kex where
  session_id : Option (List u_char)
  session_id_len : Nat
  hostkey_type : Int
  my : sshbuf
  peer : sshbuf
  client_version_string : List u_char
  server_version_string : List u_char
  load_host_public_key : Option (Int → Option sshkey)
  load_host_private_key : Option (Int → Option sshkey)
  dh : Option DH

/-- The local pointers of `input_kex_dh_init` that the code releases at `out`. -/
inductive kexdh_var where
  | dh_client_pub
  | kbuf
  | shared_secret
  | server_host_key_blob
  | signature
  deriving DecidableEq, Repr

/-- What `input_kex_dh_init` does that can be observed, in the order in which it
happens. -/
inductive kex_event where
  /-- A local pointer has become non-NULL (`BN_new`, `malloc`, `sshkey_to_blob`,
  `sshkey_sign`). -/
  | created (v : kexdh_var)
  /-- `sshpkt_disconnect` with a message (line 131). -/
  | sshpkt_disconnect (msg : String)
  /-- `DH_compute_key` is called on the peer's public value (line 142). -/
  | DH_compute_key (pub : BIGNUM)
  /-- `sshkey_sign` is called on these bytes (line 178). -/
  | sshkey_sign (data : List u_char)
  /-- The calls that build and send the reply (lines 185-189). -/
  | sshpkt_start
  | sshpkt_put_string (v : List u_char)
  | sshpkt_put_bignum2 (v : BIGNUM)
  | sshpkt_send
  /-- `kex_derive_keys` is called with a hash and a shared secret (line 193). -/
  | kex_derive_keys (hash : List u_char) (shared_secret : BIGNUM)
  /-- `kex_finish` (line 194). -/
  | kex_finish
  /-- `DH_free(kex->dh)` (line 197). -/
  | DH_free
  /-- A local is cleared and released: `BN_clear_free`, or `bzero` and `free` (lines
  199-206). -/
  | cleared (v : kexdh_var)
  /-- A local is released with `free` (lines 207-210). -/
  | freed (v : kexdh_var)
  deriving DecidableEq, Repr

/-- The functions and outside events that `input_kex_dh_init` depends on and that are not
under `src/`, as parameters. A return code is `none` for 0 and `some e` for an error. -/
structure kex_env where
  /-- Whether `BN_new` succeeds at line 109. -/
  BN_new_dh_client_pub : Bool
  /-- `sshpkt_get_bignum2(ssh, dh_client_pub)`: the value decoded from the incoming
  packet, or an error. -/
  sshpkt_get_bignum2 : Except ssh_err BIGNUM
  sshpkt_get_end : Option ssh_err
  /-- `dh_pub_is_valid(kex->dh, dh_client_pub)` (dh.c). -/
  dh_pub_is_valid : Option DH → BIGNUM → Bool
  /-- `DH_size(kex->dh)`. -/
  DH_size : Option DH → Nat
  /-- Whether `malloc(klen)` succeeds at line 137. -/
  malloc_kbuf : Nat → Bool
  /-- Whether `BN_new` succeeds at line 138. -/
  BN_new_shared_secret : Bool
  /-- `DH_compute_key(kbuf, dh_client_pub, kex->dh)`: the `kout` bytes written to `kbuf`,
  `none` when `kout < 0`. -/
  DH_compute_key : BIGNUM → Option DH → Option (List u_char)
  /-- `BN_bin2bn(kbuf, kout, shared_secret)`: the number, `none` for NULL. -/
  BN_bin2bn : List u_char → Option BIGNUM
  /-- `sshkey_to_blob(key, &blob, &len)`: the blob or an error. -/
  sshkey_to_blob : sshkey → Except ssh_err (List u_char)
  /-- `kex_dh_hash` (declared in kex.h, lines 160-162), with its arguments in the order
  of the declaration: two strings, three byte sequences with their lengths, three
  numbers; the digest (`hash`, `hashlen` being its length) or an error. -/
  kex_dh_hash : List u_char → List u_char → List u_char → List u_char → List u_char →
    BIGNUM → BIGNUM → BIGNUM → Except ssh_err (List u_char)
  /-- Whether `malloc(kex->session_id_len)` succeeds at line 169. -/
  malloc_session_id : Nat → Bool
  /-- `sshkey_sign(key, &sig, &slen, data, datalen, datafellows)`: the signature or an
  error. -/
  sshkey_sign : sshkey → List u_char → Except ssh_err (List u_char)
  sshpkt_start : Option ssh_err
  sshpkt_put_string : List u_char → Option ssh_err
  sshpkt_put_bignum2 : BIGNUM → Option ssh_err
  sshpkt_send : Option ssh_err

/-- Which of the local pointers are non-NULL. -/
structure kexdh_locals where
  dh_client_pub : Bool := false
  kbuf : Bool := false
  shared_secret : Bool := false
  server_host_key_blob : Bool := false
  signature : Bool := false
  deriving DecidableEq, Repr

/-- Where the body of `input_kex_dh_init` stands when it reaches the label `out`: the
value of `r`, the context, the local pointers, and what has happened so far. -/
structure kexdh_state where
  r : Except ssh_err Unit
  kex : kex
  locals : kexdh_locals
  log : List kex_event

/-- What `input_kex_dh_init` leaves: the return value, the context and what happened. -/
structure kexdh_result where
  r : Except ssh_err Unit
  kex : kex
  log : List kex_event

/-- The chain of calls of lines 185-189: each call is made only when those before it
returned 0; the result is the first non-zero return code. -/
def kexdh_send_reply (env : kex_env) (server_host_key_blob : List u_char) (f : BIGNUM)
    (signature : List u_char) : List kex_event × Option ssh_err :=
  match env.sshpkt_start with
  | some e => ([kex_event.sshpkt_start], some e)
  | none =>
    match env.sshpkt_put_string server_host_key_blob with
    | some e =>
      ([kex_event.sshpkt_start, kex_event.sshpkt_put_string server_host_key_blob], some e)
    | none =>
      match env.sshpkt_put_bignum2 f with
      | some e =>
        ([kex_event.sshpkt_start, kex_event.sshpkt_put_string server_host_key_blob,
          kex_event.sshpkt_put_bignum2 f], some e)
      | none =>
        match env.sshpkt_put_string signature with
        | some e =>
          ([kex_event.sshpkt_start, kex_event.sshpkt_put_string server_host_key_blob,
            kex_event.sshpkt_put_bignum2 f, kex_event.sshpkt_put_string signature], some e)
        | none =>
          ([kex_event.sshpkt_start, kex_event.sshpkt_put_string server_host_key_blob,
            kex_event.sshpkt_put_bignum2 f, kex_event.sshpkt_put_string signature,
            kex_event.sshpkt_send], env.sshpkt_send)

/-- How a stretch of the body of `input_kex_dh_init` ends: with a `goto out`, in the state
reached there, or by going on to the next line with the values computed so far. -/
inductive kexdh_step (α : Type) where
  | goto_out (s : kexdh_state)
  | next (a : α)

/-- Lines 95-134 of `input_kex_dh_init`: the host keys are loaded and the peer's public
value is read from the packet and checked. Going on: the public host key, the private
host key and the peer's public value; `dh_client_pub` is then the only local that is
set. -/
def kexdh_read_init (env : kex_env) (k : kex) : kexdh_step (sshkey × sshkey × BIGNUM) :=
  match k.load_host_public_key, k.load_host_private_key with
  | none, _ =>
    .goto_out { r := .error SSH_ERR_INVALID_ARGUMENT, kex := k, locals := {}, log := [] }
  | some _, none =>
    .goto_out { r := .error SSH_ERR_INVALID_ARGUMENT, kex := k, locals := {}, log := [] }
  | some load_host_public_key, some load_host_private_key =>
    match load_host_public_key k.hostkey_type with
    | none =>
      .goto_out { r := .error SSH_ERR_KEY_TYPE_MISMATCH, kex := k, locals := {}, log := [] }
    | some server_host_public =>
      match load_host_private_key k.hostkey_type with
      | none =>
        .goto_out { r := .error SSH_ERR_KEY_TYPE_MISMATCH, kex := k, locals := {}, log := [] }
      | some server_host_private =>
        if !env.BN_new_dh_client_pub then
          .goto_out { r := .error SSH_ERR_ALLOC_FAIL, kex := k, locals := {}, log := [] }
        else
          match env.sshpkt_get_bignum2 with
          | .error e =>
            .goto_out { r := .error e, kex := k, locals := { dh_client_pub := true },
                        log := [kex_event.created kexdh_var.dh_client_pub] }
          | .ok dh_client_pub =>
            match env.sshpkt_get_end with
            | some e =>
              .goto_out { r := .error e, kex := k, locals := { dh_client_pub := true },
                          log := [kex_event.created kexdh_var.dh_client_pub] }
            | none =>
              if !env.dh_pub_is_valid k.dh dh_client_pub then
                .goto_out { r := .error SSH_ERR_MESSAGE_INCOMPLETE, kex := k,
                            locals := { dh_client_pub := true },
                            log := [kex_event.created kexdh_var.dh_client_pub,
                              kex_event.sshpkt_disconnect "bad client public DH value"] }
              else .next (server_host_public, server_host_private, dh_client_pub)

/-- Lines 136-152 of `input_kex_dh_init`: the shared secret is computed and the public
host key is turned into a blob. Going on: the shared secret and the blob; all locals but
`signature` are then set. -/
def kexdh_shared_secret (env : kex_env) (k : kex) (server_host_public : sshkey)
    (dh_client_pub : BIGNUM) : kexdh_step (BIGNUM × List u_char) :=
  if !env.malloc_kbuf (env.DH_size k.dh) then
    .goto_out { r := .error SSH_ERR_ALLOC_FAIL, kex := k, locals := { dh_client_pub := true },
                log := [kex_event.created kexdh_var.dh_client_pub] }
  else if !env.BN_new_shared_secret then
    .goto_out { r := .error SSH_ERR_ALLOC_FAIL, kex := k,
                locals := { dh_client_pub := true, kbuf := true },
                log := [kex_event.created kexdh_var.dh_client_pub,
                  kex_event.created kexdh_var.kbuf] }
  else
    match env.DH_compute_key dh_client_pub k.dh with
    | none =>
      .goto_out { r := .error SSH_ERR_LIBCRYPTO_ERROR, kex := k,
                  locals := { dh_client_pub := true, kbuf := true, shared_secret := true },
                  log := [kex_event.created kexdh_var.dh_client_pub,
                    kex_event.created kexdh_var.kbuf,
                    kex_event.created kexdh_var.shared_secret,
                    kex_event.DH_compute_key dh_client_pub] }
    | some kbuf =>
      match env.BN_bin2bn kbuf with
      | none =>
        .goto_out { r := .error SSH_ERR_LIBCRYPTO_ERROR, kex := k,
                    locals := { dh_client_pub := true, kbuf := true, shared_secret := true },
                    log := [kex_event.created kexdh_var.dh_client_pub,
                      kex_event.created kexdh_var.kbuf,
                      kex_event.created kexdh_var.shared_secret,
                      kex_event.DH_compute_key dh_client_pub] }
      | some shared_secret =>
        match env.sshkey_to_blob server_host_public with
        | .error e =>
          .goto_out { r := .error e, kex := k,
                      locals := { dh_client_pub := true, kbuf := true, shared_secret := true },
                      log := [kex_event.created kexdh_var.dh_client_pub,
                        kex_event.created kexdh_var.kbuf,
                        kex_event.created kexdh_var.shared_secret,
                        kex_event.DH_compute_key dh_client_pub] }
        | .ok server_host_key_blob => .next (shared_secret, server_host_key_blob)

/-- The locals that are set from line 153 to line 178: all but `signature`. -/
def kexdh_locals_hash : kexdh_locals :=
  { dh_client_pub := true, kbuf := true, shared_secret := true, server_host_key_blob := true }

/-- What has happened when line 153 is reached. -/
def kexdh_log_hash (dh_client_pub : BIGNUM) : List kex_event :=
  [kex_event.created kexdh_var.dh_client_pub, kex_event.created kexdh_var.kbuf,
   kex_event.created kexdh_var.shared_secret, kex_event.DH_compute_key dh_client_pub,
   kex_event.created kexdh_var.server_host_key_blob]

/-- Lines 153-175 of `input_kex_dh_init`: the hash is computed and, when the context has
no session identifier, saved as the session identifier. The process ends (`.fatal`) where
`kex->dh->pub_key` is read at line 161 with `kex->dh` NULL. Going on: `*kex->dh`, the
context, and the hash (`hashlen` is its length). -/
def kexdh_session_id (env : kex_env) (k : kex) (server_host_key_blob : List u_char)
    (dh_client_pub shared_secret : BIGNUM) : outcome (kexdh_step (DH × kex × List u_char)) :=
  match k.dh with
  | none => .fatal
  | some dh =>
    match env.kex_dh_hash k.client_version_string k.server_version_string
        (sshbuf_ptr k.peer) (sshbuf_ptr k.my) server_host_key_blob
        dh_client_pub dh.pub_key shared_secret with
    | .error e =>
      .ret (.goto_out { r := .error e, kex := k, locals := kexdh_locals_hash,
                        log := kexdh_log_hash dh_client_pub })
    | .ok hash =>
      if k.session_id = none then
        if !env.malloc_session_id hash.length then
          .ret (.goto_out { r := .error SSH_ERR_ALLOC_FAIL,
                            kex := { k with session_id_len := hash.length },
                            locals := kexdh_locals_hash, log := kexdh_log_hash dh_client_pub })
        else
          .ret (.next (dh, { k with session_id_len := hash.length,
                                    session_id := some (hash.take hash.length) }, hash))
      else .ret (.next (dh, k, hash))

/-- Lines 177-195 of `input_kex_dh_init`: the hash is signed, the reply is sent and the
keys are derived; `k` is the context after line 175. The calls of `kex_derive_keys` and
`kex_finish` (kex.c, not under `src/`) are recorded in the log; what they do to the
context is outside this model. -/
def kexdh_sign_and_reply (env : kex_env) (k : kex) (dh : DH) (server_host_private : sshkey)
    (server_host_key_blob : List u_char) (dh_client_pub shared_secret : BIGNUM)
    (hash : List u_char) : kexdh_state :=
  match env.sshkey_sign server_host_private (hash.take hash.length) with
  | .error e =>
    { r := .error e, kex := k, locals := kexdh_locals_hash,
      log := kexdh_log_hash dh_client_pub ++
        [kex_event.sshkey_sign (hash.take hash.length)] }
  | .ok signature =>
    match kexdh_send_reply env server_host_key_blob dh.pub_key signature with
    | (sent, some e) =>
      { r := .error e, kex := k, locals := { kexdh_locals_hash with signature := true },
        log := kexdh_log_hash dh_client_pub ++
          [kex_event.sshkey_sign (hash.take hash.length),
           kex_event.created kexdh_var.signature] ++ sent }
    | (sent, none) =>
      { r := .ok (), kex := k, locals := { kexdh_locals_hash with signature := true },
        log := kexdh_log_hash dh_client_pub ++
          [kex_event.sshkey_sign (hash.take hash.length),
           kex_event.created kexdh_var.signature] ++ sent ++
          [kex_event.kex_derive_keys (hash.take hash.length) shared_secret,
           kex_event.kex_finish] }

/-- The body of `input_kex_dh_init` (lines 95-195), up to the label `out`: the four
stretches above, one after the other. -/
def kexdh_body (env : kex_env) (k : kex) : outcome kexdh_state :=
  match kexdh_read_init env k with
  | .goto_out s => .ret s
  | .next (server_host_public, server_host_private, dh_client_pub) =>
    match kexdh_shared_secret env k server_host_public dh_client_pub with
    | .goto_out s => .ret s
    | .next (shared_secret, server_host_key_blob) =>
      match kexdh_session_id env k server_host_key_blob dh_client_pub shared_secret with
      | .fatal => .fatal
      | .ret (.goto_out s) => .ret s
      | .ret (.next (dh, k2, hash)) =>
        .ret (kexdh_sign_and_reply env k2 dh server_host_private server_host_key_blob
          dh_client_pub shared_secret hash)

/-- The code at the label `out` (lines 196-211). -/
def kexdh_out (s : kexdh_state) : kexdh_result :=
  { r := s.r
    kex := { s.kex with dh := none }
    log := s.log ++ [kex_event.DH_free] ++
      (if s.locals.dh_client_pub then [kex_event.cleared kexdh_var.dh_client_pub] else []) ++
      (if s.locals.kbuf then [kex_event.cleared kexdh_var.kbuf] else []) ++
      (if s.locals.shared_secret then [kex_event.cleared kexdh_var.shared_secret] else []) ++
      (if s.locals.server_host_key_blob then
        [kex_event.freed kexdh_var.server_host_key_blob] else []) ++
      (if s.locals.signature then [kex_event.freed kexdh_var.signature] else []) }

/-- `input_kex_dh_init` (kexdhs.c, lines 83-212): the body, then the code at `out`. -/
def input_kex_dh_init (env : kex_env) (k : kex) : outcome kexdh_result :=
  match kexdh_body env k with
  | .fatal => .fatal
  | .ret s => .ret (kexdh_out s)

/-- Modelled from the spec: `kex_dh_hash` is defined in kexdh.c, which is not under
`src/` (kex.h only declares it). The spec: the transcript digest is the hash of the
client version string, the server version string, the client proposal blob, the server
proposal blob, the server host public key blob, the peer's public value, the server's
public value and the shared secret, in this order. `Hash` is the negotiated hash
function and `enc` the wire encoding of a number; the function does not fail. -/
def kex_dh_hash (Hash : List u_char → List u_char) (enc : BIGNUM → List u_char)
    (client_version_string server_version_string ckexinit skexinit
      serverhostkeyblob : List u_char)
    (client_dh_pub server_dh_pub shared_secret : BIGNUM) : Except ssh_err (List u_char) :=
  .ok (Hash (client_version_string ++ server_version_string ++ ckexinit ++ skexinit ++
    serverhostkeyblob ++ enc client_dh_pub ++ enc server_dh_pub ++ enc shared_secret))

/-! ## Notions used to state the properties -/

/-- The buffer with the last byte of its content removed (a message cut short by one
byte). -/
def truncate_last (buf : sshbuf) : sshbuf := { buf with d := buf.d.dropLast }

/-- The declared length of the string at the head of the unread bytes: the big-endian
value of the first four unread bytes. -/
def declared_length (buf : sshbuf) : Nat := be_value ((sshbuf_ptr buf).take 4)

/-- The specification's `pad32`: the 32-byte left-zero-padded big-endian encoding of a
challenge. -/
def pad32 (c : BIGNUM) : List u_char :=
  (List.range 32).map (fun i => lo8 (c.natAbs / 256 ^ (32 - 1 - i)))

/-- A byte sequence with bit `k` of byte `i` inverted. -/
def flip_bit (r : List u_char) (i k : Nat) : List u_char :=
  r.set i (lo8 (byte_at r i ^^^ 2 ^ k))

/-- A stand-in for the hash in concrete instances: a 16-byte digest that depends on the
first 48 bytes of its input. -/
def toy_digest (m : List u_char) : List u_char :=
  (List.range 16).map
    (fun i => lo8 (byte_at m i + 3 * byte_at m (i + 16) + 7 * byte_at m (i + 32)))

/-- The events of a log that are calls of `auth_openkeyfile`: the files in the order in
which the code tried to open them. -/
def opened_files : List auth_event → List String
  | [] => []
  | auth_event.auth_openkeyfile file :: rest => file :: opened_files rest
  | _ :: rest => opened_files rest

/-- Whether an event belongs to the challenge dialog (drawing, encrypting or sending a
challenge, reading the response). -/
def is_dialog_event : auth_event → Bool
  | auth_event.BN_rand _ => true
  | auth_event.rsa_public_encrypt _ => true
  | auth_event.sshpkt_send_challenge _ => true
  | auth_event.read_response _ => true
  | _ => false

/-- The elements of a list up to and including the first one that satisfies `p`. -/
def through_first {α : Type} (p : α → Bool) : List α → List α
  | [] => []
  | x :: xs => if p x then [x] else x :: through_first p xs

/-- A decimal number at the head of a text, after blanks: its value and the text after
it. Used by the stand-in key reader below. -/
def read_number (cp : List Char) : Option (Nat × List Char) :=
  let ds := (skip_blanks cp).takeWhile Char.isDigit
  if ds = [] then none
  else some (ds.foldl (fun a c => 10 * a + (c.toNat - 48)) 0,
    (skip_blanks cp).dropWhile Char.isDigit)

/-- A stand-in for `hostfile_read_key` in concrete instances, after the format that the
comment of lines 57-65 gives: `bits e n comment`, decimal numbers. -/
def example_read_key (cp : List Char) : Option (Nat × sshkey × List Char) :=
  match read_number cp with
  | none => none
  | some (bits, cp1) =>
    match read_number cp1 with
    | none => none
    | some (e, cp2) =>
      match read_number cp2 with
      | none => none
      | some (n, cp3) => some (bits, { rsa := { n := n, e := e } }, skip_blanks cp3)

/-- A stand-in environment for concrete instances. Key files are given by `files`; a key
is revoked when its exponent is 3; an option part is rejected when it starts with `!` and
marks a certificate authority when it starts with `c`; the minimum modulus size is 768;
every allocation and packet call succeeds; `rnd` is the random value drawn, `response`
what the client answers; encryption is `c ^ e mod n`. -/
def example_env (files : String → Option (List (List Char))) (rnd : BIGNUM)
    (response : List u_char) : auth_env :=
  { auth_openkeyfile := files
    hostfile_read_key := example_read_key
    auth_key_is_revoked := fun key => decide (key.rsa.e = 3)
    auth_parse_options := fun opts _ _ =>
      match opts with
      | some ('!' :: _) => (false, false)
      | some ('c' :: _) => (true, true)
      | _ => (true, false)
    expand_authorized_keys := fun name => "/home/u/" ++ name
    SSH_RSA_MINIMUM_MODULUS_SIZE := 768
    MD5 := toy_digest
    session_id := List.replicate 16 7
    BN_new_encrypted := true
    BN_new_challenge := true
    BN_rand := some rnd
    BN_CTX_new := true
    rsa_public_encrypt := fun c k => .ok (Int.emod (c ^ k.e.natAbs) k.n)
    sshpkt_start := none
    sshpkt_put_bignum1 := fun _ => none
    sshpkt_send := none
    ssh_packet_read_expect := true
    sshpkt_get_response := .ok response
    sshpkt_get_end := none }

/-- The key files of the concrete instances. -/
def example_files : String → Option (List (List Char))
  | "/home/u/a" => some ["# keys\n".toList, "8 5 253 u@h\n".toList,
      "!opt 8 7 255 u@h\n".toList, "cert-authority 8 11 255 u@h\n".toList,
      "from=\"a b\" 9 17 255 u@h\n".toList]
  | "/home/u/b" => some ["8 3 255 revoked\n".toList, "8 17 255 u@h\n".toList]
  | "/home/u/c" => some ["8 19 255 u@h\n".toList]
  | _ => none

/-- Whether the flags of the local pointers agree with what has happened: a local is set
exactly when its creation is in the log. -/
def locals_match (l : kexdh_locals) (log : List kex_event) : Prop :=
  (l.dh_client_pub = true ↔ kex_event.created kexdh_var.dh_client_pub ∈ log) ∧
  (l.kbuf = true ↔ kex_event.created kexdh_var.kbuf ∈ log) ∧
  (l.shared_secret = true ↔ kex_event.created kexdh_var.shared_secret ∈ log) ∧
  (l.server_host_key_blob = true ↔ kex_event.created kexdh_var.server_host_key_blob ∈ log) ∧
  (l.signature = true ↔ kex_event.created kexdh_var.signature ∈ log)

/-- Whether an event is a step of the exchange proper: computing the shared secret,
signing, building or sending the reply, deriving keys, finishing. -/
def is_exchange_step : kex_event → Bool
  | kex_event.created kexdh_var.shared_secret => true
  | kex_event.DH_compute_key _ => true
  | kex_event.sshkey_sign _ => true
  | kex_event.sshpkt_start => true
  | kex_event.sshpkt_put_string _ => true
  | kex_event.sshpkt_put_bignum2 _ => true
  | kex_event.sshpkt_send => true
  | kex_event.kex_derive_keys _ _ => true
  | kex_event.kex_finish => true
  | _ => false

/-- A stand-in environment for concrete instances of the exchange: `decoded` is what
`sshpkt_get_bignum2` gives; a public value is valid when it lies strictly between 1 and
`p - 1`; the shared secret is `pub ^ priv mod p`; the hash is `kex_dh_hash` over the
stand-in digest; every allocation and packet call succeeds. -/
def example_kex_env (decoded : Except ssh_err BIGNUM) : kex_env :=
  { BN_new_dh_client_pub := true
    sshpkt_get_bignum2 := decoded
    sshpkt_get_end := none
    dh_pub_is_valid := fun dh v =>
      match dh with
      | some d => decide (1 < v ∧ v < d.p - 1)
      | none => false
    DH_size := fun dh =>
      match dh with
      | some d => BN_num_bytes d.p
      | none => 0
    malloc_kbuf := fun _ => true
    BN_new_shared_secret := true
    DH_compute_key := fun pub dh =>
      match dh with
      | some d => some (BN_bn2bin (Int.emod (pub ^ d.priv_key.natAbs) d.p))
      | none => none
    BN_bin2bn := fun b => some (be_value b)
    sshkey_to_blob := fun key => .ok (BN_bn2bin key.rsa.e ++ BN_bn2bin key.rsa.n)
    kex_dh_hash := kex_dh_hash toy_digest BN_bn2bin
    malloc_session_id := fun _ => true
    sshkey_sign := fun key data => .ok (toy_digest (data ++ BN_bn2bin key.rsa.n))
    sshpkt_start := none
    sshpkt_put_string := fun _ => none
    sshpkt_put_bignum2 := fun _ => none
    sshpkt_send := none }

/-- A stand-in context for concrete instances: the group `p = 23`, `g = 5` with the
private value 6 and the public value 8, and the given session identifier. -/
def example_kex (session_id : Option (List u_char)) : kex :=
  { session_id := session_id
    session_id_len := match session_id with
      | some sid => sid.length
      | none => 0
    hostkey_type := 1
    my := { d := [20, 1, 2], off := 0 }
    peer := { d := [20, 3, 4], off := 0 }
    client_version_string := [67, 49]
    server_version_string := [83, 49]
    load_host_public_key := some (fun _ => some { rsa := { n := 3233, e := 17 } })
    load_host_private_key := some (fun _ => some { rsa := { n := 3233, e := 17 } })
    dh := some { p := 23, g := 5, pub_key := 8, priv_key := 6 } }

/-- The payload of the string at the front of the unread bytes: the `L` bytes that follow
the four-byte length field, `L` being the value of that field. -/
def string_payload (buf : sshbuf) : List u_char :=
  ((sshbuf_ptr buf).drop 4).take (PEEK_U32 (sshbuf_ptr buf))

/-- The terminator rule in the specification's words: the payload "contains an embedded
terminator byte anywhere except as the final byte", that is, a zero byte among the bytes
before its last one. -/
def embedded_terminator (payload : List u_char) : Bool := payload.dropLast.contains 0

/-- The decoder `get_cstring` in the specification's words, to be compared with
`sshbuf_get_cstring`: "as `get_string`, but additionally fails with an invalid format
condition if the payload contains an embedded terminator byte anywhere except as the
final byte". A buffer that does not hold a whole string is refused as `get_string`
refuses it; a payload that breaks the terminator rule is refused with the buffer left as
it was; every other buffer is decoded by `sshbuf_get_string`. -/
def sshbuf_get_cstring_spec (malloc : Nat → Bool) (buf : sshbuf) (valp : Bool) :
    Except ssh_err (Option (List u_char) × Nat) × sshbuf :=
  match sshbuf_peek_string_direct buf with
  | (.error r, b) => (.error r, b)
  | (.ok (payload, _), b) =>
    if embedded_terminator payload then (.error SSH_ERR_INVALID_FORMAT, b)
    else sshbuf_get_string malloc buf valp

/-! ## Helper lemmas -/

theorem size_t_of_lt (n : Nat) (h : n < 2 ^ 64) : size_t n = n := by
  unfold size_t SIZE_T_BITS
  exact Nat.mod_eq_of_lt h

theorem mem_write_mid (d a b src : List u_char) (h : src.length = a.length) :
    mem_write (d ++ a ++ b) d.length src = d ++ src ++ b := by
  simp [mem_write, h]

theorem mem_write_fresh (d src : List u_char) (n : Nat) (h : src.length = n) :
    mem_write (d ++ List.replicate n 0) d.length src = d ++ src := by
  have := mem_write_mid d (List.replicate n 0) [] src (by simp [h])
  simpa using this

theorem PEEK_U16_be16 (x : Nat) (rest : List u_char) :
    PEEK_U16 (be16 x ++ rest) = x % 2 ^ 16 := by
  simp [PEEK_U16, be16, byte_at, lo8]
  omega

theorem PEEK_U32_be32 (x : Nat) (rest : List u_char) :
    PEEK_U32 (be32 x ++ rest) = x % 2 ^ 32 := by
  simp [PEEK_U32, be32, byte_at, lo8]
  omega

theorem PEEK_U64_be64 (x : Nat) (rest : List u_char) :
    PEEK_U64 (be64 x ++ rest) = x % 2 ^ 64 := by
  simp [PEEK_U64, be64, byte_at, lo8]
  omega

theorem PEEK_U32_lt (p : List u_char) : PEEK_U32 p < 2 ^ 32 := by
  simp only [PEEK_U32, byte_at]
  omega

/-- What a granted `sshbuf_put_u8` does: the byte is appended. -/
theorem sshbuf_put_u8_granted (grant : sshbuf → Nat → Option ssh_err) (buf : sshbuf)
    (x : u_char) (hg : grant buf 1 = none) :
    sshbuf_put_u8 grant buf x = (.ok (), { buf with d := buf.d ++ [x] }) := by
  simp only [sshbuf_put_u8, sshbuf_reserve, hg]
  rw [mem_write_fresh buf.d [x] 1 rfl]

/-- What a granted `sshbuf_put_u16` does: two big-endian bytes are appended. -/
theorem sshbuf_put_u16_granted (grant : sshbuf → Nat → Option ssh_err) (buf : sshbuf)
    (x : Nat) (hg : grant buf 2 = none) :
    sshbuf_put_u16 grant buf x = (.ok (), { buf with d := buf.d ++ be16 x }) := by
  simp only [sshbuf_put_u16, sshbuf_reserve, hg, POKE_U16]
  rw [mem_write_fresh buf.d (be16 x) 2 rfl]

/-- What a granted `sshbuf_put_u32` does: four big-endian bytes are appended. -/
theorem sshbuf_put_u32_granted (grant : sshbuf → Nat → Option ssh_err) (buf : sshbuf)
    (x : Nat) (hg : grant buf 4 = none) :
    sshbuf_put_u32 grant buf x = (.ok (), { buf with d := buf.d ++ be32 x }) := by
  simp only [sshbuf_put_u32, sshbuf_reserve, hg, POKE_U32]
  rw [mem_write_fresh buf.d (be32 x) 4 rfl]

/-- What a granted `sshbuf_put_u64` does: eight big-endian bytes are appended. -/
theorem sshbuf_put_u64_granted (grant : sshbuf → Nat → Option ssh_err) (buf : sshbuf)
    (x : Nat) (hg : grant buf 8 = none) :
    sshbuf_put_u64 grant buf x = (.ok (), { buf with d := buf.d ++ be64 x }) := by
  simp only [sshbuf_put_u64, sshbuf_reserve, hg, POKE_U64]
  rw [mem_write_fresh buf.d (be64 x) 8 rfl]

/-- The two stores of `sshbuf_put_string` into a freshly reserved region. -/
theorem put_string_stores (d v : List u_char) :
    mem_write (POKE_U32 (d ++ List.replicate (v.length + 4) 0) d.length v.length)
      (d.length + 4) v = d ++ be32 v.length ++ v := by
  have e : List.replicate (v.length + 4) (0 : u_char)
      = List.replicate 4 0 ++ List.replicate v.length 0 := by
    rw [Nat.add_comm, List.replicate_add]
  have h1 := mem_write_mid d (List.replicate 4 0) (List.replicate v.length 0)
    (be32 v.length) (by simp [be32])
  have h2 := mem_write_fresh (d ++ be32 v.length) v v.length rfl
  have l : (d ++ be32 v.length).length = d.length + 4 := by simp [be32]
  rw [l] at h2
  rw [POKE_U32, e, ← List.append_assoc, h1, h2]

/-- What an accepted and granted `sshbuf_put_string` does. -/
theorem sshbuf_put_string_granted (grant : sshbuf → Nat → Option ssh_err) (buf : sshbuf)
    (v : List u_char) (hl : v.length ≤ 2 ^ 32 - 5) (hg : grant buf (v.length + 4) = none) :
    sshbuf_put_string grant buf v
      = (.ok (), { buf with d := buf.d ++ be32 v.length ++ v }) := by
  have hs : size_t (v.length + 4) = v.length + 4 := size_t_of_lt _ (by omega)
  have hn : ¬ (v.length > 0xFFFFFFFF - 4) := by omega
  simp only [sshbuf_put_string, hn, if_false, hs, sshbuf_reserve, hg]
  rw [put_string_stores]

/-- Unread length and unread bytes agree. -/
theorem sshbuf_ptr_length (buf : sshbuf) : (sshbuf_ptr buf).length = sshbuf_len buf := by
  simp [sshbuf_ptr, sshbuf_len]

/-- Advancing the offset drops bytes from the unread content. -/
theorem sshbuf_ptr_advance (buf : sshbuf) (n : Nat) :
    sshbuf_ptr { buf with off := buf.off + n } = (sshbuf_ptr buf).drop n := by
  simp [sshbuf_ptr, List.drop_drop, Nat.add_comm]

theorem sshbuf_get_u8_short (buf : sshbuf) (h : sshbuf_len buf < 1) :
    sshbuf_get_u8 buf = (.error SSH_ERR_MESSAGE_INCOMPLETE, buf) := by
  simp [sshbuf_get_u8, sshbuf_consume, h]

theorem sshbuf_get_u8_enough (buf : sshbuf) (h : 1 ≤ sshbuf_len buf) :
    sshbuf_get_u8 buf
      = (.ok (byte_at (sshbuf_ptr buf) 0), { buf with off := buf.off + 1 }) := by
  have h2 : ¬ (1 > sshbuf_len buf) := by omega
  simp [sshbuf_get_u8, sshbuf_consume, h2]

theorem sshbuf_get_u16_short (buf : sshbuf) (h : sshbuf_len buf < 2) :
    sshbuf_get_u16 buf = (.error SSH_ERR_MESSAGE_INCOMPLETE, buf) := by
  simp [sshbuf_get_u16, sshbuf_consume, h]

theorem sshbuf_get_u16_enough (buf : sshbuf) (h : 2 ≤ sshbuf_len buf) :
    sshbuf_get_u16 buf
      = (.ok (PEEK_U16 (sshbuf_ptr buf)), { buf with off := buf.off + 2 }) := by
  have h2 : ¬ (2 > sshbuf_len buf) := by omega
  simp [sshbuf_get_u16, sshbuf_consume, h2]

theorem sshbuf_get_u32_short (buf : sshbuf) (h : sshbuf_len buf < 4) :
    sshbuf_get_u32 buf = (.error SSH_ERR_MESSAGE_INCOMPLETE, buf) := by
  simp [sshbuf_get_u32, sshbuf_consume, h]

theorem sshbuf_get_u32_enough (buf : sshbuf) (h : 4 ≤ sshbuf_len buf) :
    sshbuf_get_u32 buf
      = (.ok (PEEK_U32 (sshbuf_ptr buf)), { buf with off := buf.off + 4 }) := by
  have h2 : ¬ (4 > sshbuf_len buf) := by omega
  simp [sshbuf_get_u32, sshbuf_consume, h2]

theorem sshbuf_get_u64_short (buf : sshbuf) (h : sshbuf_len buf < 8) :
    sshbuf_get_u64 buf = (.error SSH_ERR_MESSAGE_INCOMPLETE, buf) := by
  simp [sshbuf_get_u64, sshbuf_consume, h]

theorem sshbuf_get_u64_enough (buf : sshbuf) (h : 8 ≤ sshbuf_len buf) :
    sshbuf_get_u64 buf
      = (.ok (PEEK_U64 (sshbuf_ptr buf)), { buf with off := buf.off + 8 }) := by
  have h2 : ¬ (8 > sshbuf_len buf) := by omega
  simp [sshbuf_get_u64, sshbuf_consume, h2]

/-- `sshbuf_peek_string_direct` on a buffer that does not hold a whole string. -/
theorem sshbuf_peek_string_direct_short (buf : sshbuf)
    (h : sshbuf_len buf < 4 ∨ sshbuf_len buf - 4 < PEEK_U32 (sshbuf_ptr buf)) :
    sshbuf_peek_string_direct buf = (.error SSH_ERR_MESSAGE_INCOMPLETE, buf) := by
  unfold sshbuf_peek_string_direct
  by_cases h4 : sshbuf_len buf < 4
  · simp [h4]
  · have hL : sshbuf_len buf - 4 < PEEK_U32 (sshbuf_ptr buf) := by
      cases h with
      | inl h => exact absurd h h4
      | inr h => exact h
    simp [h4, hL]

/-- `sshbuf_peek_string_direct` on a buffer that holds a whole string. -/
theorem sshbuf_peek_string_direct_whole (buf : sshbuf) (h4 : 4 ≤ sshbuf_len buf)
    (hL : PEEK_U32 (sshbuf_ptr buf) ≤ sshbuf_len buf - 4) :
    sshbuf_peek_string_direct buf
      = (.ok (((sshbuf_ptr buf).drop 4).take (PEEK_U32 (sshbuf_ptr buf)),
          PEEK_U32 (sshbuf_ptr buf)), buf) := by
  have a : ¬ (sshbuf_len buf < 4) := by omega
  have b : ¬ (sshbuf_len buf - 4 < PEEK_U32 (sshbuf_ptr buf)) := by omega
  simp [sshbuf_peek_string_direct, a, b]

/-- `sshbuf_get_string_direct` on a buffer that does not hold a whole string. -/
theorem sshbuf_get_string_direct_short (buf : sshbuf)
    (h : sshbuf_len buf < 4 ∨ sshbuf_len buf - 4 < PEEK_U32 (sshbuf_ptr buf)) :
    sshbuf_get_string_direct buf = (.error SSH_ERR_MESSAGE_INCOMPLETE, buf) := by
  simp [sshbuf_get_string_direct, sshbuf_peek_string_direct_short buf h]

/-- `sshbuf_get_string_direct` on a buffer that holds a whole string. -/
theorem sshbuf_get_string_direct_whole (buf : sshbuf) (h4 : 4 ≤ sshbuf_len buf)
    (hL : PEEK_U32 (sshbuf_ptr buf) ≤ sshbuf_len buf - 4) :
    sshbuf_get_string_direct buf
      = (.ok (((sshbuf_ptr buf).drop 4).take (PEEK_U32 (sshbuf_ptr buf)),
          PEEK_U32 (sshbuf_ptr buf)),
         { buf with off := buf.off + (PEEK_U32 (sshbuf_ptr buf) + 4) }) := by
  have hlt := PEEK_U32_lt (sshbuf_ptr buf)
  have hs : size_t (PEEK_U32 (sshbuf_ptr buf) + 4) = PEEK_U32 (sshbuf_ptr buf) + 4 :=
    size_t_of_lt _ (by omega)
  have hc : ¬ (PEEK_U32 (sshbuf_ptr buf) + 4 > sshbuf_len buf) := by omega
  simp [sshbuf_get_string_direct, sshbuf_peek_string_direct_whole buf h4 hL, hs,
    sshbuf_consume, hc]

/-- `sshbuf_get_string` on a buffer that does not hold a whole string. -/
theorem sshbuf_get_string_short (malloc : Nat → Bool) (buf : sshbuf) (valp : Bool)
    (h : sshbuf_len buf < 4 ∨ sshbuf_len buf - 4 < PEEK_U32 (sshbuf_ptr buf)) :
    sshbuf_get_string malloc buf valp = (.error SSH_ERR_MESSAGE_INCOMPLETE, buf) := by
  simp [sshbuf_get_string, sshbuf_get_string_direct_short buf h]

/-- `sshbuf_get_string` on a buffer that holds a whole string, the copy being allocated. -/
theorem sshbuf_get_string_whole (malloc : Nat → Bool) (buf : sshbuf)
    (h4 : 4 ≤ sshbuf_len buf) (hL : PEEK_U32 (sshbuf_ptr buf) ≤ sshbuf_len buf - 4)
    (hm : malloc (PEEK_U32 (sshbuf_ptr buf) + 1) = true) :
    sshbuf_get_string malloc buf true
      = (.ok (some (((sshbuf_ptr buf).drop 4).take (PEEK_U32 (sshbuf_ptr buf)) ++ [0]),
          PEEK_U32 (sshbuf_ptr buf)),
         { buf with off := buf.off + (PEEK_U32 (sshbuf_ptr buf) + 4) }) := by
  simp [sshbuf_get_string, sshbuf_get_string_direct_whole buf h4 hL, hm, List.take_take]

/-! ## Round trip and truncation -/

/-- C1. Round trip on an initially empty buffer. When the reserve step grants the space,
each of `sshbuf_put_u8/u16/u32/u64` succeeds and the matching `sshbuf_get_*` on the
resulting buffer returns the value that was put (any byte, any `x < 2^16`, `x < 2^32`,
`x < 2^64`), leaving no unread byte. For every byte string `s` of length at most
`2^32 - 5`, `sshbuf_put_string` succeeds and `sshbuf_get_string` (its copy being
allocated) returns the bytes of `s`, followed by the terminator that the copy always gets,
reports length `|s|`, and leaves no unread byte. -/
theorem C1_round_trip (grant : sshbuf → Nat → Option ssh_err) (malloc : Nat → Bool) :
    (∀ x : u_char, grant sshbuf_new 1 = none →
      (sshbuf_put_u8 grant sshbuf_new x).1 = .ok () ∧
      (sshbuf_get_u8 (sshbuf_put_u8 grant sshbuf_new x).2).1 = .ok x.val ∧
      sshbuf_len (sshbuf_get_u8 (sshbuf_put_u8 grant sshbuf_new x).2).2 = 0) ∧
    (∀ x : Nat, x < 2 ^ 16 → grant sshbuf_new 2 = none →
      (sshbuf_put_u16 grant sshbuf_new x).1 = .ok () ∧
      (sshbuf_get_u16 (sshbuf_put_u16 grant sshbuf_new x).2).1 = .ok x ∧
      sshbuf_len (sshbuf_get_u16 (sshbuf_put_u16 grant sshbuf_new x).2).2 = 0) ∧
    (∀ x : Nat, x < 2 ^ 32 → grant sshbuf_new 4 = none →
      (sshbuf_put_u32 grant sshbuf_new x).1 = .ok () ∧
      (sshbuf_get_u32 (sshbuf_put_u32 grant sshbuf_new x).2).1 = .ok x ∧
      sshbuf_len (sshbuf_get_u32 (sshbuf_put_u32 grant sshbuf_new x).2).2 = 0) ∧
    (∀ x : Nat, x < 2 ^ 64 → grant sshbuf_new 8 = none →
      (sshbuf_put_u64 grant sshbuf_new x).1 = .ok () ∧
      (sshbuf_get_u64 (sshbuf_put_u64 grant sshbuf_new x).2).1 = .ok x ∧
      sshbuf_len (sshbuf_get_u64 (sshbuf_put_u64 grant sshbuf_new x).2).2 = 0) ∧
    (∀ s : List u_char, s.length ≤ 2 ^ 32 - 5 → grant sshbuf_new (s.length + 4) = none →
      malloc (s.length + 1) = true →
      (sshbuf_put_string grant sshbuf_new s).1 = .ok () ∧
      (sshbuf_get_string malloc (sshbuf_put_string grant sshbuf_new s).2 true).1
        = .ok (some (s ++ [0]), s.length) ∧
      sshbuf_len (sshbuf_get_string malloc (sshbuf_put_string grant sshbuf_new s).2 true).2
        = 0) := by
  refine ⟨?_, ?_, ?_, ?_, ?_⟩
  · intro x hg
    rw [sshbuf_put_u8_granted grant sshbuf_new x hg]
    have hl : 1 ≤ sshbuf_len { sshbuf_new with d := sshbuf_new.d ++ [x] } := by
      simp [sshbuf_len, sshbuf_new]
    rw [sshbuf_get_u8_enough _ hl]
    simp [sshbuf_new, sshbuf_len, sshbuf_ptr, byte_at]
  · intro x hx hg
    rw [sshbuf_put_u16_granted grant sshbuf_new x hg]
    have hl : 2 ≤ sshbuf_len { sshbuf_new with d := sshbuf_new.d ++ be16 x } := by
      simp [sshbuf_len, sshbuf_new, be16]
    rw [sshbuf_get_u16_enough _ hl]
    have hp := PEEK_U16_be16 x []
    rw [Nat.mod_eq_of_lt hx, List.append_nil] at hp
    have hptr : sshbuf_ptr { sshbuf_new with d := sshbuf_new.d ++ be16 x } = be16 x := by
      simp [sshbuf_ptr, sshbuf_new]
    rw [hptr, hp]
    refine ⟨rfl, rfl, ?_⟩
    simp [sshbuf_len, sshbuf_new, be16]
  · intro x hx hg
    rw [sshbuf_put_u32_granted grant sshbuf_new x hg]
    have hl : 4 ≤ sshbuf_len { sshbuf_new with d := sshbuf_new.d ++ be32 x } := by
      simp [sshbuf_len, sshbuf_new, be32]
    rw [sshbuf_get_u32_enough _ hl]
    have hp := PEEK_U32_be32 x []
    rw [Nat.mod_eq_of_lt hx, List.append_nil] at hp
    have hptr : sshbuf_ptr { sshbuf_new with d := sshbuf_new.d ++ be32 x } = be32 x := by
      simp [sshbuf_ptr, sshbuf_new]
    rw [hptr, hp]
    refine ⟨rfl, rfl, ?_⟩
    simp [sshbuf_len, sshbuf_new, be32]
  · intro x hx hg
    rw [sshbuf_put_u64_granted grant sshbuf_new x hg]
    have hl : 8 ≤ sshbuf_len { sshbuf_new with d := sshbuf_new.d ++ be64 x } := by
      simp [sshbuf_len, sshbuf_new, be64]
    rw [sshbuf_get_u64_enough _ hl]
    have hp := PEEK_U64_be64 x []
    rw [Nat.mod_eq_of_lt hx, List.append_nil] at hp
    have hptr : sshbuf_ptr { sshbuf_new with d := sshbuf_new.d ++ be64 x } = be64 x := by
      simp [sshbuf_ptr, sshbuf_new]
    rw [hptr, hp]
    refine ⟨rfl, rfl, ?_⟩
    simp [sshbuf_len, sshbuf_new, be64]
  · intro s hs hg hm
    rw [sshbuf_put_string_granted grant sshbuf_new s hs hg]
    have hptr : sshbuf_ptr { sshbuf_new with d := sshbuf_new.d ++ be32 s.length ++ s }
        = be32 s.length ++ s := by
      simp [sshbuf_ptr, sshbuf_new]
    have hlen : sshbuf_len { sshbuf_new with d := sshbuf_new.d ++ be32 s.length ++ s }
        = s.length + 4 := by
      simp [sshbuf_len, sshbuf_new, be32]
    have hp : PEEK_U32 (be32 s.length ++ s) = s.length := by
      rw [PEEK_U32_be32]
      exact Nat.mod_eq_of_lt (by omega)
    have h4 : 4 ≤ sshbuf_len { sshbuf_new with d := sshbuf_new.d ++ be32 s.length ++ s } := by
      omega
    have hL : PEEK_U32 (sshbuf_ptr { sshbuf_new with d := sshbuf_new.d ++ be32 s.length ++ s })
        ≤ sshbuf_len { sshbuf_new with d := sshbuf_new.d ++ be32 s.length ++ s } - 4 := by
      rw [hptr, hp, hlen]
      omega
    have hm2 : malloc (PEEK_U32 (sshbuf_ptr
        { sshbuf_new with d := sshbuf_new.d ++ be32 s.length ++ s }) + 1) = true := by
      rw [hptr, hp]
      exact hm
    rw [sshbuf_get_string_whole malloc _ h4 hL hm2, hptr, hp]
    refine ⟨rfl, ?_, ?_⟩
    · simp [be32]
    · simp [sshbuf_len, sshbuf_new, be32]

/-- C1, at concrete inputs: the byte 0x7f, the values 0xbeef, 0x01020304 and
0x0102030405060708, and the string "hi", with every request granted. -/
theorem C1_round_trip_witness :
    (sshbuf_get_u8 (sshbuf_put_u8 (fun _ _ => none) sshbuf_new 0x7f).2).1 = .ok 0x7f ∧
    (sshbuf_get_u16 (sshbuf_put_u16 (fun _ _ => none) sshbuf_new 0xbeef).2).1 = .ok 0xbeef ∧
    (sshbuf_get_u32 (sshbuf_put_u32 (fun _ _ => none) sshbuf_new 0x01020304).2).1
      = .ok 0x01020304 ∧
    (sshbuf_get_u64 (sshbuf_put_u64 (fun _ _ => none) sshbuf_new 0x0102030405060708).2).1
      = .ok 0x0102030405060708 ∧
    (sshbuf_get_string (fun _ => true)
      (sshbuf_put_string (fun _ _ => none) sshbuf_new [104, 105]).2 true).1
      = .ok (some [104, 105, 0], 2) :=
  ⟨((C1_round_trip (fun _ _ => none) (fun _ => true)).1 0x7f rfl).2.1,
   ((C1_round_trip (fun _ _ => none) (fun _ => true)).2.1 0xbeef (by decide) rfl).2.1,
   ((C1_round_trip (fun _ _ => none) (fun _ => true)).2.2.1 0x01020304 (by decide) rfl).2.1,
   ((C1_round_trip (fun _ _ => none) (fun _ => true)).2.2.2.1 0x0102030405060708
      (by decide) rfl).2.1,
   ((C1_round_trip (fun _ _ => none) (fun _ => true)).2.2.2.2 [104, 105]
      (by decide) rfl rfl).2.1⟩

/-- `sshbuf_get_cstring_bits`, with a `size_t` of 33 bits or more, on a buffer that does
not hold a whole string. -/
theorem sshbuf_get_cstring_bits_short (bits : Nat) (hb : 33 ≤ bits) (malloc : Nat → Bool)
    (buf : sshbuf) (valp : Bool)
    (h : sshbuf_len buf < 4 ∨ sshbuf_len buf - 4 < PEEK_U32 (sshbuf_ptr buf)) :
    sshbuf_get_cstring_bits bits malloc buf valp
      = (.error SSH_ERR_MESSAGE_INCOMPLETE, buf) := by
  have hlt := PEEK_U32_lt (sshbuf_ptr buf)
  have hp : 2 ^ 33 ≤ 2 ^ bits := Nat.pow_le_pow_right (by decide) hb
  have hs : (PEEK_U32 (sshbuf_ptr buf) + 4) % 2 ^ bits = PEEK_U32 (sshbuf_ptr buf) + 4 :=
    Nat.mod_eq_of_lt (by omega)
  unfold sshbuf_get_cstring_bits
  by_cases h4 : sshbuf_len buf < 4
  · simp [h4]
  · have hL : sshbuf_len buf < PEEK_U32 (sshbuf_ptr buf) + 4 := by omega
    simp [h4, hs, hL]

/-- `sshbuf_get_cstring` on a buffer that does not hold a whole string. -/
theorem sshbuf_get_cstring_short (malloc : Nat → Bool) (buf : sshbuf) (valp : Bool)
    (h : sshbuf_len buf < 4 ∨ sshbuf_len buf - 4 < PEEK_U32 (sshbuf_ptr buf)) :
    sshbuf_get_cstring malloc buf valp = (.error SSH_ERR_MESSAGE_INCOMPLETE, buf) :=
  sshbuf_get_cstring_bits_short SIZE_T_BITS (by decide) malloc buf valp h

/-- The encoding of a string, cut by one byte, does not hold a whole string. -/
theorem truncated_string_short (s : List u_char) (hs : s.length ≤ 2 ^ 32 - 5) :
    sshbuf_len (truncate_last { d := be32 s.length ++ s, off := 0 }) < 4 ∨
    sshbuf_len (truncate_last { d := be32 s.length ++ s, off := 0 }) - 4
      < PEEK_U32 (sshbuf_ptr (truncate_last { d := be32 s.length ++ s, off := 0 })) := by
  cases s with
  | nil => left; simp [truncate_last, sshbuf_len, be32]
  | cons a t =>
    right
    have hne : a :: t ≠ [] := by simp
    have hp : PEEK_U32 (be32 (a :: t).length ++ (a :: t).dropLast) = (a :: t).length := by
      rw [PEEK_U32_be32]
      exact Nat.mod_eq_of_lt (by omega)
    simp only [truncate_last, sshbuf_ptr, sshbuf_len, List.drop_zero,
      List.dropLast_append_of_ne_nil _ hne, hp]
    simp [be32]

/-- C2. Truncation. Take the buffer that `sshbuf_put_u8/u16/u32/u64` or `sshbuf_put_string`
produces from the empty buffer (the reserve step granting the space) and remove the last
byte of its content. Then the matching decoder, and for a string encoding each of
`sshbuf_get_string`, `sshbuf_get_string_direct` and `sshbuf_get_cstring`, returns
`SSH_ERR_MESSAGE_INCOMPLETE` (so it does not succeed with any value), whatever the
allocator does and whether or not the value is asked for. -/
theorem C2_truncation (grant : sshbuf → Nat → Option ssh_err) (malloc : Nat → Bool)
    (valp : Bool) :
    (∀ x : u_char, grant sshbuf_new 1 = none →
      (sshbuf_get_u8 (truncate_last (sshbuf_put_u8 grant sshbuf_new x).2)).1
        = .error SSH_ERR_MESSAGE_INCOMPLETE) ∧
    (∀ x : Nat, grant sshbuf_new 2 = none →
      (sshbuf_get_u16 (truncate_last (sshbuf_put_u16 grant sshbuf_new x).2)).1
        = .error SSH_ERR_MESSAGE_INCOMPLETE) ∧
    (∀ x : Nat, grant sshbuf_new 4 = none →
      (sshbuf_get_u32 (truncate_last (sshbuf_put_u32 grant sshbuf_new x).2)).1
        = .error SSH_ERR_MESSAGE_INCOMPLETE) ∧
    (∀ x : Nat, grant sshbuf_new 8 = none →
      (sshbuf_get_u64 (truncate_last (sshbuf_put_u64 grant sshbuf_new x).2)).1
        = .error SSH_ERR_MESSAGE_INCOMPLETE) ∧
    (∀ s : List u_char, s.length ≤ 2 ^ 32 - 5 → grant sshbuf_new (s.length + 4) = none →
      (sshbuf_get_string malloc (truncate_last (sshbuf_put_string grant sshbuf_new s).2)
        valp).1 = .error SSH_ERR_MESSAGE_INCOMPLETE ∧
      (sshbuf_get_string_direct (truncate_last (sshbuf_put_string grant sshbuf_new s).2)).1
        = .error SSH_ERR_MESSAGE_INCOMPLETE ∧
      (sshbuf_get_cstring malloc (truncate_last (sshbuf_put_string grant sshbuf_new s).2)
        valp).1 = .error SSH_ERR_MESSAGE_INCOMPLETE) := by
  refine ⟨?_, ?_, ?_, ?_, ?_⟩
  · intro x hg
    rw [sshbuf_put_u8_granted grant sshbuf_new x hg, sshbuf_get_u8_short]
    simp [truncate_last, sshbuf_len, sshbuf_new]
  · intro x hg
    rw [sshbuf_put_u16_granted grant sshbuf_new x hg, sshbuf_get_u16_short]
    simp [truncate_last, sshbuf_len, sshbuf_new, be16]
  · intro x hg
    rw [sshbuf_put_u32_granted grant sshbuf_new x hg, sshbuf_get_u32_short]
    simp [truncate_last, sshbuf_len, sshbuf_new, be32]
  · intro x hg
    rw [sshbuf_put_u64_granted grant sshbuf_new x hg, sshbuf_get_u64_short]
    simp [truncate_last, sshbuf_len, sshbuf_new, be64]
  · intro s hs hg
    rw [sshbuf_put_string_granted grant sshbuf_new s hs hg]
    have h := truncated_string_short s hs
    have e : ({ sshbuf_new with d := sshbuf_new.d ++ be32 s.length ++ s } : sshbuf)
        = { d := be32 s.length ++ s, off := 0 } := by
      simp [sshbuf_new]
    rw [e]
    rw [sshbuf_get_string_short malloc _ valp h, sshbuf_get_string_direct_short _ h,
      sshbuf_get_cstring_short malloc _ valp h]
    exact ⟨rfl, rfl, rfl⟩

/-- C2, at concrete inputs: the encodings of 0x7f, 0xbeef, 0x01020304,
0x0102030405060708 and of the string "hi", each cut by one byte. -/
theorem C2_truncation_witness :
    (sshbuf_get_u8 (truncate_last (sshbuf_put_u8 (fun _ _ => none) sshbuf_new 0x7f).2)).1
      = .error SSH_ERR_MESSAGE_INCOMPLETE ∧
    (sshbuf_get_u16 (truncate_last (sshbuf_put_u16 (fun _ _ => none) sshbuf_new 0xbeef).2)).1
      = .error SSH_ERR_MESSAGE_INCOMPLETE ∧
    (sshbuf_get_u32
      (truncate_last (sshbuf_put_u32 (fun _ _ => none) sshbuf_new 0x01020304).2)).1
      = .error SSH_ERR_MESSAGE_INCOMPLETE ∧
    (sshbuf_get_u64
      (truncate_last (sshbuf_put_u64 (fun _ _ => none) sshbuf_new 0x0102030405060708).2)).1
      = .error SSH_ERR_MESSAGE_INCOMPLETE ∧
    (sshbuf_get_cstring (fun _ => true)
      (truncate_last (sshbuf_put_string (fun _ _ => none) sshbuf_new [104, 105]).2) true).1
      = .error SSH_ERR_MESSAGE_INCOMPLETE :=
  ⟨(C2_truncation (fun _ _ => none) (fun _ => true) true).1 0x7f rfl,
   (C2_truncation (fun _ _ => none) (fun _ => true) true).2.1 0xbeef rfl,
   (C2_truncation (fun _ _ => none) (fun _ => true) true).2.2.1 0x01020304 rfl,
   (C2_truncation (fun _ _ => none) (fun _ => true) true).2.2.2.1 0x0102030405060708 rfl,
   ((C2_truncation (fun _ _ => none) (fun _ => true) true).2.2.2.2 [104, 105]
      (by decide) rfl).2.2⟩

/-! ## Decoders on arbitrary buffers -/

theorem PEEK_U16_eq_be_value (p : List u_char) (h : 2 ≤ p.length) :
    PEEK_U16 p = be_value (p.take 2) := by
  rcases p with _ | ⟨a, _ | ⟨b, r⟩⟩ <;> simp at h
  simp [PEEK_U16, be_value, byte_at]

theorem PEEK_U32_eq_be_value (p : List u_char) (h : 4 ≤ p.length) :
    PEEK_U32 p = be_value (p.take 4) := by
  rcases p with _ | ⟨a, _ | ⟨b, _ | ⟨c, _ | ⟨d, r⟩⟩⟩⟩ <;> simp at h
  simp [PEEK_U32, be_value, byte_at]
  omega

theorem PEEK_U64_eq_be_value (p : List u_char) (h : 8 ≤ p.length) :
    PEEK_U64 p = be_value (p.take 8) := by
  rcases p with _ | ⟨a, _ | ⟨b, _ | ⟨c, _ | ⟨d, _ | ⟨e, _ | ⟨f, _ | ⟨g, _ | ⟨i, r⟩⟩⟩⟩⟩⟩⟩⟩ <;>
    simp at h
  simp [PEEK_U64, be_value, byte_at]
  omega

theorem byte_at_zero_eq_be_value (p : List u_char) (h : 1 ≤ p.length) :
    byte_at p 0 = be_value (p.take 1) := by
  rcases p with _ | ⟨a, r⟩ <;> simp at h
  simp [be_value, byte_at]

/-- A four-byte header in front of other bytes decodes to its big-endian value. -/
theorem PEEK_U32_header (hdr xs : List u_char) (h : hdr.length = 4) :
    PEEK_U32 (hdr ++ xs) = be_value hdr := by
  rw [PEEK_U32_eq_be_value _ (by simp [h])]
  simp [List.take_append_eq_append_take, h]

/-- `memchr` finds a byte at or before any position that holds it. -/
theorem memchr_finds (s : List u_char) (c : u_char) (n i : Nat) (hi : i < n)
    (hs : s[i]? = some c) : ∃ j, j ≤ i ∧ memchr s c n = some j := by
  induction s generalizing n i with
  | nil => simp at hs
  | cons b t ih =>
    cases n with
    | zero => omega
    | succ n =>
      by_cases hb : b = c
      · exact ⟨0, Nat.zero_le _, by simp [memchr, hb]⟩
      · cases i with
        | zero => simp at hs; exact absurd hs hb
        | succ i =>
          have hs2 : t[i]? = some c := by simpa using hs
          obtain ⟨j, hj, hm⟩ := ih n i (by omega) hs2
          exact ⟨j + 1, by omega, by simp [memchr, hb, hm]⟩

/-- What `memchr` returns is a position below the bound that holds the byte. -/
theorem memchr_sound (s : List u_char) (c : u_char) (n j : Nat)
    (h : memchr s c n = some j) : j < n ∧ s[j]? = some c := by
  induction s generalizing n j with
  | nil => cases n <;> simp [memchr] at h
  | cons b t ih =>
    cases n with
    | zero => simp [memchr] at h
    | succ n =>
      by_cases hb : b = c
      · simp [memchr, hb] at h
        subst h
        simp [hb]
      · simp only [memchr, hb, if_false, Option.map_eq_some'] at h
        obtain ⟨k, hk, rfl⟩ := h
        have := ih n k hk
        exact ⟨by omega, by simpa using this.2⟩

/-- `sshbuf_get_cstring_bits`, with a `size_t` of 33 bits or more, on a buffer that holds
a whole string: the terminator test decides between `SSH_ERR_INVALID_FORMAT` and consuming
the string. -/
theorem sshbuf_get_cstring_bits_whole (bits : Nat) (hb : 33 ≤ bits) (malloc : Nat → Bool)
    (buf : sshbuf) (valp : Bool)
    (h4 : 4 ≤ sshbuf_len buf) (hL : PEEK_U32 (sshbuf_ptr buf) ≤ sshbuf_len buf - 4) :
    sshbuf_get_cstring_bits bits malloc buf valp =
      if (memchr ((sshbuf_ptr buf).drop 4) 0 (PEEK_U32 (sshbuf_ptr buf))).any
          (fun i => decide (4 + i < 4 + PEEK_U32 (sshbuf_ptr buf) - 1)) then
        (.error SSH_ERR_INVALID_FORMAT, buf)
      else if valp then
        if malloc (u_int32_t (PEEK_U32 (sshbuf_ptr buf) + 1)) then
          (.ok (some (((sshbuf_ptr buf).drop 4).take (PEEK_U32 (sshbuf_ptr buf)) ++ [0]),
            PEEK_U32 (sshbuf_ptr buf)),
           { buf with off := buf.off + (4 + PEEK_U32 (sshbuf_ptr buf)) })
        else (.error SSH_ERR_ALLOC_FAIL,
           { buf with off := buf.off + (4 + PEEK_U32 (sshbuf_ptr buf)) })
      else (.ok (none, PEEK_U32 (sshbuf_ptr buf)),
           { buf with off := buf.off + (4 + PEEK_U32 (sshbuf_ptr buf)) }) := by
  have hlt := PEEK_U32_lt (sshbuf_ptr buf)
  have hp : 2 ^ 33 ≤ 2 ^ bits := Nat.pow_le_pow_right (by decide) hb
  have hs : (PEEK_U32 (sshbuf_ptr buf) + 4) % 2 ^ bits = PEEK_U32 (sshbuf_ptr buf) + 4 :=
    Nat.mod_eq_of_lt (by omega)
  have hs2 : (4 + PEEK_U32 (sshbuf_ptr buf)) % 2 ^ bits = 4 + PEEK_U32 (sshbuf_ptr buf) :=
    Nat.mod_eq_of_lt (by omega)
  have a : ¬ (sshbuf_len buf < 4) := by omega
  have b : ¬ (sshbuf_len buf < PEEK_U32 (sshbuf_ptr buf) + 4) := by omega
  have c : ¬ (4 + PEEK_U32 (sshbuf_ptr buf) > sshbuf_len buf) := by omega
  simp only [sshbuf_get_cstring_bits, a, b, hs, hs2, sshbuf_consume, c, if_false]

/-- `sshbuf_get_cstring` on a buffer that holds a whole string: the terminator test decides
between `SSH_ERR_INVALID_FORMAT` and consuming the string. -/
theorem sshbuf_get_cstring_whole (malloc : Nat → Bool) (buf : sshbuf) (valp : Bool)
    (h4 : 4 ≤ sshbuf_len buf) (hL : PEEK_U32 (sshbuf_ptr buf) ≤ sshbuf_len buf - 4) :
    sshbuf_get_cstring malloc buf valp =
      if (memchr ((sshbuf_ptr buf).drop 4) 0 (PEEK_U32 (sshbuf_ptr buf))).any
          (fun i => decide (4 + i < 4 + PEEK_U32 (sshbuf_ptr buf) - 1)) then
        (.error SSH_ERR_INVALID_FORMAT, buf)
      else if valp then
        if malloc (u_int32_t (PEEK_U32 (sshbuf_ptr buf) + 1)) then
          (.ok (some (((sshbuf_ptr buf).drop 4).take (PEEK_U32 (sshbuf_ptr buf)) ++ [0]),
            PEEK_U32 (sshbuf_ptr buf)),
           { buf with off := buf.off + (4 + PEEK_U32 (sshbuf_ptr buf)) })
        else (.error SSH_ERR_ALLOC_FAIL,
           { buf with off := buf.off + (4 + PEEK_U32 (sshbuf_ptr buf)) })
      else (.ok (none, PEEK_U32 (sshbuf_ptr buf)),
           { buf with off := buf.off + (4 + PEEK_U32 (sshbuf_ptr buf)) }) :=
  sshbuf_get_cstring_bits_whole SIZE_T_BITS (by decide) malloc buf valp h4 hL

/-- The shape of a buffer whose unread bytes are a four-byte length, a payload of that
length, and further bytes. -/
theorem framed_buffer_facts (buf : sshbuf) (hdr payload rest : List u_char)
    (hp : sshbuf_ptr buf = hdr ++ payload ++ rest) (hh : hdr.length = 4)
    (hv : be_value hdr = payload.length) :
    4 ≤ sshbuf_len buf ∧ PEEK_U32 (sshbuf_ptr buf) = payload.length ∧
    payload.length ≤ sshbuf_len buf - 4 ∧
    (sshbuf_ptr buf).drop 4 = payload ++ rest := by
  have hl := sshbuf_ptr_length buf
  rw [hp] at hl
  simp only [List.length_append, hh] at hl
  refine ⟨by omega, ?_, by omega, ?_⟩
  · rw [hp, List.append_assoc, PEEK_U32_header _ _ hh, hv]
  · rw [hp, List.append_assoc, List.drop_left' hh]

/-- C3. Embedded terminator. If the unread bytes of a buffer are a four-byte header `hdr`
whose big-endian value is `L`, then a payload of `L` bytes, then any further bytes, and
the payload has a zero byte at an index `i` with `i + 1 < L` (strictly before its last
byte, whatever the last byte is), then `sshbuf_get_cstring` returns
`SSH_ERR_INVALID_FORMAT` and leaves the buffer as it was. -/
theorem C3_embedded_terminator_rejected (malloc : Nat → Bool) (buf : sshbuf) (valp : Bool)
    (hdr payload rest : List u_char) (i : Nat)
    (hp : sshbuf_ptr buf = hdr ++ payload ++ rest) (hh : hdr.length = 4)
    (hv : be_value hdr = payload.length)
    (hi : i + 1 < payload.length) (hz : payload[i]? = some 0) :
    sshbuf_get_cstring malloc buf valp = (.error SSH_ERR_INVALID_FORMAT, buf) := by
  obtain ⟨h4, hpk, hL, hd⟩ := framed_buffer_facts buf hdr payload rest hp hh hv
  rw [sshbuf_get_cstring_whole malloc buf valp h4 (by rw [hpk]; exact hL), hpk, hd]
  have hz2 : (payload ++ rest)[i]? = some 0 := by
    rw [List.getElem?_append_left (by omega)]
    exact hz
  obtain ⟨j, hj, hm⟩ := memchr_finds (payload ++ rest) 0 payload.length i (by omega) hz2
  have hc : 4 + j < 4 + payload.length - 1 := by omega
  rw [hm, if_pos]
  exact decide_eq_true hc

/-- C3, at the payloads "a\0b" and "a\0\0" with declared length 3. -/
theorem C3_embedded_terminator_rejected_witness :
    sshbuf_get_cstring (fun _ => true) { d := [0, 0, 0, 3, 97, 0, 98], off := 0 } true
      = (.error SSH_ERR_INVALID_FORMAT, { d := [0, 0, 0, 3, 97, 0, 98], off := 0 }) ∧
    sshbuf_get_cstring (fun _ => true) { d := [0, 0, 0, 3, 97, 0, 0], off := 0 } true
      = (.error SSH_ERR_INVALID_FORMAT, { d := [0, 0, 0, 3, 97, 0, 0], off := 0 }) :=
  ⟨C3_embedded_terminator_rejected (fun _ => true) { d := [0, 0, 0, 3, 97, 0, 98], off := 0 }
      true [0, 0, 0, 3] [97, 0, 98] [] 1 (by decide) (by decide) (by decide) (by decide)
      (by decide),
   C3_embedded_terminator_rejected (fun _ => true) { d := [0, 0, 0, 3, 97, 0, 0], off := 0 }
      true [0, 0, 0, 3] [97, 0, 0] [] 1 (by decide) (by decide) (by decide) (by decide)
      (by decide)⟩

/-- `strlen` of a text without zero bytes that is followed by a zero byte. -/
theorem strlen_text (text more : List u_char) (ht : ∀ b ∈ text, b ≠ 0) :
    strlen (text ++ 0 :: more) = text.length := by
  induction text with
  | nil => simp [strlen]
  | cons a t ih =>
    have ha : a ≠ 0 := ht a (by simp)
    have := ih (fun b hb => ht b (by simp [hb]))
    simp [strlen, ha, this]

/-- In a payload whose only zero byte is the last one, `memchr` does not stop early. -/
theorem memchr_trailing_only (text rest : List u_char) (ht : ∀ b ∈ text, b ≠ 0) :
    (memchr (text ++ [0] ++ rest) 0 (text.length + 1)).any
      (fun i => decide (4 + i < 4 + (text.length + 1) - 1)) = false := by
  cases hm : memchr (text ++ [0] ++ rest) 0 (text.length + 1) with
  | none => rfl
  | some j =>
    obtain ⟨_, hz⟩ := memchr_sound _ _ _ _ hm
    have hj : ¬ (j < text.length) := by
      intro hlt
      rw [List.append_assoc, List.getElem?_append_left hlt] at hz
      have hmem : (0 : u_char) ∈ text := by
        rw [List.getElem?_eq_getElem hlt] at hz
        have e : text[j] = 0 := by simpa using hz
        rw [← e]
        exact List.getElem_mem hlt
      exact ht 0 hmem rfl
    show decide (4 + j < 4 + (text.length + 1) - 1) = false
    exact decide_eq_false (by omega)

/-- C4 as stated fails: for the payload "ab\0" with declared length 3 the reported length
is 3 and the copy holds the three payload bytes (then the added terminator), not the
two-byte text with reported length 2. -/
theorem C4_counterexample_trailing_terminator_counted :
    sshbuf_get_cstring (fun _ => true) { d := [0, 0, 0, 3, 97, 98, 0], off := 0 } true
      = (.ok (some [97, 98, 0, 0], 3), { d := [0, 0, 0, 3, 97, 98, 0], off := 7 }) ∧
    (sshbuf_get_cstring (fun _ => true) { d := [0, 0, 0, 3, 97, 98, 0], off := 0 } true).1
      ≠ .ok (some [97, 98, 0], 2) := by
  decide

/-- C4, amended. If the unread bytes of a buffer are a four-byte header whose big-endian
value is the declared length `L = |text| + 1`, with `L < 2^32 - 1` so that the sum
`len + 1` of line 183 does not wrap, then `text` without any zero byte, then one zero
byte, then any further bytes, and the allocation of `L + 1 = |text| + 2` bytes that line
183 asks for succeeds, then `sshbuf_get_cstring` succeeds and consumes the header and the
payload. The copy holds the whole payload, terminator included, followed by the terminator
that the copy always gets, and the reported length is the declared length `|text| + 1`;
read as a C string (up to its first zero byte) the copy is exactly `text`. -/
theorem C4_trailing_terminator_accepted (malloc : Nat → Bool) (buf : sshbuf)
    (hdr text rest : List u_char)
    (hp : sshbuf_ptr buf = hdr ++ (text ++ [0]) ++ rest) (hh : hdr.length = 4)
    (hv : be_value hdr = text.length + 1) (hL32 : text.length + 1 < 2 ^ 32 - 1)
    (ht : ∀ b ∈ text, b ≠ 0)
    (hm : malloc (text.length + 2) = true) :
    sshbuf_get_cstring malloc buf true
      = (.ok (some (text ++ [0] ++ [0]), text.length + 1),
         { buf with off := buf.off + (4 + (text.length + 1)) }) ∧
    sshbuf_ptr { buf with off := buf.off + (4 + (text.length + 1)) } = rest ∧
    (text ++ [0] ++ [0]).take (strlen (text ++ [0] ++ [0])) = text := by
  have hv2 : be_value hdr = (text ++ [0]).length := by simp [hv]
  obtain ⟨h4, hpk, hL, hd⟩ := framed_buffer_facts buf hdr (text ++ [0]) rest hp hh hv2
  have hlen : (text ++ [0]).length = text.length + 1 := by simp
  rw [hlen] at hpk hL
  refine ⟨?_, ?_, ?_⟩
  · rw [sshbuf_get_cstring_whole malloc buf true h4 (by rw [hpk]; exact hL), hpk, hd,
      memchr_trailing_only text rest ht]
    have e : List.take (text.length + 1) (text ++ [0] ++ rest) = text ++ [0] := by
      rw [← hlen, List.take_left]
    have hreq : u_int32_t (text.length + 1 + 1) = text.length + 2 := by
      unfold u_int32_t
      exact Nat.mod_eq_of_lt (by omega)
    rw [e, hreq]
    simp [hm]
  · rw [sshbuf_ptr_advance, hp, List.append_assoc, List.drop_append_eq_append_drop]
    simp [hh, hlen]
  · have e : text ++ [0] ++ [0] = text ++ 0 :: [0] := by simp
    rw [e, strlen_text text [0] ht, List.take_left]

/-- C4 amended, at the payload "ab\0" with declared length 3. -/
theorem C4_trailing_terminator_accepted_witness :
    sshbuf_get_cstring (fun _ => true) { d := [0, 0, 0, 3, 97, 98, 0], off := 0 } true
      = (.ok (some [97, 98, 0, 0], 3), { d := [0, 0, 0, 3, 97, 98, 0], off := 7 }) ∧
    List.take (strlen [97, 98, 0, 0]) [97, 98, 0, 0] = ([97, 98] : List u_char) :=
  have h := C4_trailing_terminator_accepted (fun _ => true)
    { d := [0, 0, 0, 3, 97, 98, 0], off := 0 } [0, 0, 0, 3] [97, 98] []
    (by decide) (by decide) (by decide) (by decide) (by simp) rfl
  ⟨h.1, h.2.2⟩

/-- C5. Fixed-width decoders. For every buffer and each width `N` in 1, 2, 4, 8, the
decoder `sshbuf_get_u8/u16/u32/u64` returns `SSH_ERR_MESSAGE_INCOMPLETE` exactly when
fewer than `N` unread bytes remain; otherwise it returns the big-endian value of the first
`N` unread bytes, and the unread bytes afterwards are the previous ones without their
first `N`. -/
theorem C5_fixed_width_getters (buf : sshbuf) :
    (((sshbuf_get_u8 buf).1 = .error SSH_ERR_MESSAGE_INCOMPLETE ↔ sshbuf_len buf < 1) ∧
      (¬ sshbuf_len buf < 1 →
        (sshbuf_get_u8 buf).1 = .ok (be_value ((sshbuf_ptr buf).take 1)) ∧
        sshbuf_ptr (sshbuf_get_u8 buf).2 = (sshbuf_ptr buf).drop 1)) ∧
    (((sshbuf_get_u16 buf).1 = .error SSH_ERR_MESSAGE_INCOMPLETE ↔ sshbuf_len buf < 2) ∧
      (¬ sshbuf_len buf < 2 →
        (sshbuf_get_u16 buf).1 = .ok (be_value ((sshbuf_ptr buf).take 2)) ∧
        sshbuf_ptr (sshbuf_get_u16 buf).2 = (sshbuf_ptr buf).drop 2)) ∧
    (((sshbuf_get_u32 buf).1 = .error SSH_ERR_MESSAGE_INCOMPLETE ↔ sshbuf_len buf < 4) ∧
      (¬ sshbuf_len buf < 4 →
        (sshbuf_get_u32 buf).1 = .ok (be_value ((sshbuf_ptr buf).take 4)) ∧
        sshbuf_ptr (sshbuf_get_u32 buf).2 = (sshbuf_ptr buf).drop 4)) ∧
    (((sshbuf_get_u64 buf).1 = .error SSH_ERR_MESSAGE_INCOMPLETE ↔ sshbuf_len buf < 8) ∧
      (¬ sshbuf_len buf < 8 →
        (sshbuf_get_u64 buf).1 = .ok (be_value ((sshbuf_ptr buf).take 8)) ∧
        sshbuf_ptr (sshbuf_get_u64 buf).2 = (sshbuf_ptr buf).drop 8)) := by
  have hl := sshbuf_ptr_length buf
  refine ⟨⟨⟨?_, ?_⟩, ?_⟩, ⟨⟨?_, ?_⟩, ?_⟩, ⟨⟨?_, ?_⟩, ?_⟩, ⟨⟨?_, ?_⟩, ?_⟩⟩
  · intro h
    by_contra hn
    rw [sshbuf_get_u8_enough buf (by omega)] at h
    cases h
  · intro h
    rw [sshbuf_get_u8_short buf h]
  · intro h
    rw [sshbuf_get_u8_enough buf (by omega), sshbuf_ptr_advance,
      byte_at_zero_eq_be_value _ (by omega)]
    exact ⟨rfl, rfl⟩
  · intro h
    by_contra hn
    rw [sshbuf_get_u16_enough buf (by omega)] at h
    cases h
  · intro h
    rw [sshbuf_get_u16_short buf h]
  · intro h
    rw [sshbuf_get_u16_enough buf (by omega), sshbuf_ptr_advance,
      PEEK_U16_eq_be_value _ (by omega)]
    exact ⟨rfl, rfl⟩
  · intro h
    by_contra hn
    rw [sshbuf_get_u32_enough buf (by omega)] at h
    cases h
  · intro h
    rw [sshbuf_get_u32_short buf h]
  · intro h
    rw [sshbuf_get_u32_enough buf (by omega), sshbuf_ptr_advance,
      PEEK_U32_eq_be_value _ (by omega)]
    exact ⟨rfl, rfl⟩
  · intro h
    by_contra hn
    rw [sshbuf_get_u64_enough buf (by omega)] at h
    cases h
  · intro h
    rw [sshbuf_get_u64_short buf h]
  · intro h
    rw [sshbuf_get_u64_enough buf (by omega), sshbuf_ptr_advance,
      PEEK_U64_eq_be_value _ (by omega)]
    exact ⟨rfl, rfl⟩

/-- C5, on a partly consumed buffer: three bytes consumed, five unread. The 8-byte decoder
fails, the 4-byte decoder returns 0x01020304 and leaves one byte. -/
theorem C5_fixed_width_getters_witness :
    (sshbuf_get_u64 { d := [9, 9, 9, 1, 2, 3, 4, 5], off := 3 }).1
      = .error SSH_ERR_MESSAGE_INCOMPLETE ∧
    (sshbuf_get_u32 { d := [9, 9, 9, 1, 2, 3, 4, 5], off := 3 }).1
      = .ok (be_value [1, 2, 3, 4]) ∧
    sshbuf_ptr (sshbuf_get_u32 { d := [9, 9, 9, 1, 2, 3, 4, 5], off := 3 }).2 = [5] :=
  ⟨(C5_fixed_width_getters { d := [9, 9, 9, 1, 2, 3, 4, 5], off := 3 }).2.2.2.1.2
      (by decide),
   ((C5_fixed_width_getters { d := [9, 9, 9, 1, 2, 3, 4, 5], off := 3 }).2.2.1.2
      (by decide)).1,
   ((C5_fixed_width_getters { d := [9, 9, 9, 1, 2, 3, 4, 5], off := 3 }).2.2.1.2
      (by decide)).2⟩

/-- On a buffer with at least four unread bytes the length field read by the code is the
declared length. -/
theorem PEEK_U32_eq_declared_length (buf : sshbuf) (h4 : 4 ≤ sshbuf_len buf) :
    PEEK_U32 (sshbuf_ptr buf) = declared_length buf := by
  rw [declared_length, PEEK_U32_eq_be_value _ (by rw [sshbuf_ptr_length]; exact h4)]

/-- C6. `sshbuf_get_string`. For every buffer, allocator and choice of asking for the
value, the call returns `SSH_ERR_MESSAGE_INCOMPLETE` exactly when fewer than four unread
bytes remain or the declared length `L` (big-endian value of the first four unread bytes)
exceeds the unread length minus four. Otherwise, the copy being allocated, it succeeds,
reports length `L`, returns a copy made of `L` bytes `payload` and the added terminator,
and the unread bytes before the call are the four-byte length field, then `payload`, then
the unread bytes after the call: the payload is the `L` bytes that follow the length
field, it lies within the unread region, and exactly `4 + L` bytes are consumed. -/
theorem C6_get_string (malloc : Nat → Bool) (buf : sshbuf) :
    (∀ valp : Bool,
      (sshbuf_get_string malloc buf valp).1 = .error SSH_ERR_MESSAGE_INCOMPLETE ↔
        (sshbuf_len buf < 4 ∨ declared_length buf > sshbuf_len buf - 4)) ∧
    (¬ (sshbuf_len buf < 4 ∨ declared_length buf > sshbuf_len buf - 4) →
      malloc (declared_length buf + 1) = true →
      ∃ payload : List u_char,
        (sshbuf_get_string malloc buf true).1
          = .ok (some (payload ++ [0]), declared_length buf) ∧
        payload.length = declared_length buf ∧
        payload = ((sshbuf_ptr buf).drop 4).take (declared_length buf) ∧
        sshbuf_ptr buf
          = (sshbuf_ptr buf).take 4 ++ payload
            ++ sshbuf_ptr (sshbuf_get_string malloc buf true).2 ∧
        sshbuf_ptr (sshbuf_get_string malloc buf true).2
          = (sshbuf_ptr buf).drop (4 + declared_length buf)) := by
  have hl := sshbuf_ptr_length buf
  constructor
  · intro valp
    constructor
    · intro h
      by_contra hn
      have h4 : 4 ≤ sshbuf_len buf := by omega
      have hpk := PEEK_U32_eq_declared_length buf h4
      have hL : PEEK_U32 (sshbuf_ptr buf) ≤ sshbuf_len buf - 4 := by omega
      rw [sshbuf_get_string, sshbuf_get_string_direct_whole buf h4 hL] at h
      cases valp with
      | false => simp at h
      | true =>
        cases hm : malloc (PEEK_U32 (sshbuf_ptr buf) + 1) <;> simp [hm] at h
    · intro h
      have h2 : sshbuf_len buf < 4 ∨ sshbuf_len buf - 4 < PEEK_U32 (sshbuf_ptr buf) := by
        by_cases h4 : sshbuf_len buf < 4
        · exact Or.inl h4
        · right
          rw [PEEK_U32_eq_declared_length buf (by omega)]
          omega
      rw [sshbuf_get_string_short malloc buf valp h2]
  · intro hn hm
    have h4 : 4 ≤ sshbuf_len buf := by omega
    have hpk := PEEK_U32_eq_declared_length buf h4
    have hL : PEEK_U32 (sshbuf_ptr buf) ≤ sshbuf_len buf - 4 := by omega
    rw [sshbuf_get_string_whole malloc buf h4 hL (by rw [hpk]; exact hm), hpk]
    refine ⟨((sshbuf_ptr buf).drop 4).take (declared_length buf), rfl, ?_, rfl, ?_, ?_⟩
    · rw [List.length_take, List.length_drop, hl]
      omega
    · show sshbuf_ptr buf = _ ++ _ ++ sshbuf_ptr { buf with off := _ }
      rw [sshbuf_ptr_advance, List.append_assoc, Nat.add_comm (declared_length buf) 4,
        ← List.drop_drop, List.take_append_drop, List.take_append_drop]
    · show sshbuf_ptr { buf with off := _ } = _
      rw [sshbuf_ptr_advance, Nat.add_comm]

/-- C6, at concrete buffers: a declared length of 3 with only two payload bytes is
incomplete; a declared length of 2 followed by three bytes yields the first two and leaves
the third. -/
theorem C6_get_string_witness :
    (sshbuf_get_string (fun _ => true) { d := [0, 0, 0, 3, 1, 2], off := 0 } true).1
      = .error SSH_ERR_MESSAGE_INCOMPLETE ∧
    (∃ payload : List u_char,
      (sshbuf_get_string (fun _ => true) { d := [7, 0, 0, 0, 2, 104, 105, 33], off := 1 }
        true).1 = .ok (some (payload ++ [0]), 2) ∧
      payload = [104, 105] ∧
      sshbuf_ptr (sshbuf_get_string (fun _ => true)
        { d := [7, 0, 0, 0, 2, 104, 105, 33], off := 1 } true).2 = [33]) :=
  ⟨((C6_get_string (fun _ => true) { d := [0, 0, 0, 3, 1, 2], off := 0 }).1 true).2
      (by decide),
   by
    obtain ⟨payload, h1, _, h3, _, h5⟩ :=
      (C6_get_string (fun _ => true) { d := [7, 0, 0, 0, 2, 104, 105, 33], off := 1 }).2
        (by decide) rfl
    exact ⟨payload, h1, h3, h5⟩⟩

/-- C7. `sshbuf_peek_string_direct` leaves the buffer as it was, whether it succeeds or
fails (so the unread bytes are the same before and after), and when it succeeds with a
view `p` of `len` bytes, `sshbuf_get_string_direct` on the same buffer succeeds with the
same view and the same length. -/
theorem C7_peek_string_direct (buf : sshbuf) :
    (sshbuf_peek_string_direct buf).2 = buf ∧
    sshbuf_ptr (sshbuf_peek_string_direct buf).2 = sshbuf_ptr buf ∧
    (∀ (p : List u_char) (len : Nat),
      (sshbuf_peek_string_direct buf).1 = .ok (p, len) →
      (sshbuf_get_string_direct buf).1 = .ok (p, len)) := by
  have hb : (sshbuf_peek_string_direct buf).2 = buf := by
    unfold sshbuf_peek_string_direct
    simp only []
    split
    · rfl
    · split <;> rfl
  refine ⟨hb, by rw [hb], ?_⟩
  intro p len h
  by_cases hs : sshbuf_len buf < 4 ∨ sshbuf_len buf - 4 < PEEK_U32 (sshbuf_ptr buf)
  · rw [sshbuf_peek_string_direct_short buf hs] at h
    cases h
  · have h4 : 4 ≤ sshbuf_len buf := by omega
    have hL : PEEK_U32 (sshbuf_ptr buf) ≤ sshbuf_len buf - 4 := by omega
    rw [sshbuf_peek_string_direct_whole buf h4 hL] at h
    rw [sshbuf_get_string_direct_whole buf h4 hL]
    exact h

/-- C7, at a concrete buffer: the view of the string "hi" is the same through both calls,
and only `sshbuf_get_string_direct` moves the read offset. -/
theorem C7_peek_string_direct_witness :
    (sshbuf_get_string_direct { d := [0, 0, 0, 2, 104, 105, 33], off := 0 }).1
      = .ok ([104, 105], 2) ∧
    (sshbuf_peek_string_direct { d := [0, 0, 0, 2, 104, 105, 33], off := 0 }).2
      = { d := [0, 0, 0, 2, 104, 105, 33], off := 0 } :=
  ⟨(C7_peek_string_direct { d := [0, 0, 0, 2, 104, 105, 33], off := 0 }).2.2
      [104, 105] 2 (by decide),
   (C7_peek_string_direct { d := [0, 0, 0, 2, 104, 105, 33], off := 0 }).1⟩

/-- The four bytes stored for a length below 2^32 are its big-endian encoding. -/
theorem be32_spec (n : Nat) (h : n < 2 ^ 32) :
    (be32 n).length = 4 ∧ be_value (be32 n) = n := by
  refine ⟨rfl, ?_⟩
  simp [be32, be_value, lo8]
  omega

/-- C8. `sshbuf_put_string` and `sshbuf_put_cstring`.
A string longer than `2^32 - 5` is refused with `SSH_ERR_NO_BUFFER_SPACE` and the buffer is
unchanged. For a string `s` of at most `2^32 - 5` bytes, the reserve step granting
`|s| + 4` bytes, the call succeeds; the content becomes the previous content followed by
four bytes whose big-endian value is `|s|` and by the bytes of `s`; the read offset is
unchanged; on a buffer whose read offset is within its content the unread bytes get the
same bytes appended and the unread length grows by `|s| + 4`.
`sshbuf_put_cstring` on a text without zero bytes, stored in memory with its terminator
(and whatever follows it), does what `sshbuf_put_string` does on the text alone. -/
theorem C8_put_string (grant : sshbuf → Nat → Option ssh_err) (buf : sshbuf) :
    (∀ s : List u_char, s.length > 2 ^ 32 - 5 →
      sshbuf_put_string grant buf s = (.error SSH_ERR_NO_BUFFER_SPACE, buf)) ∧
    (∀ s : List u_char, s.length ≤ 2 ^ 32 - 5 → grant buf (s.length + 4) = none →
      (sshbuf_put_string grant buf s).1 = .ok () ∧
      (sshbuf_put_string grant buf s).2.d = buf.d ++ be32 s.length ++ s ∧
      (be32 s.length).length = 4 ∧ be_value (be32 s.length) = s.length ∧
      (sshbuf_put_string grant buf s).2.off = buf.off ∧
      (buf.off ≤ buf.d.length →
        sshbuf_ptr (sshbuf_put_string grant buf s).2
          = sshbuf_ptr buf ++ be32 s.length ++ s ∧
        sshbuf_len (sshbuf_put_string grant buf s).2 = sshbuf_len buf + (s.length + 4))) ∧
    (∀ text more : List u_char, (∀ b ∈ text, b ≠ 0) →
      sshbuf_put_cstring grant buf (text ++ 0 :: more) = sshbuf_put_string grant buf text) := by
  refine ⟨?_, ?_, ?_⟩
  · intro s hs
    have h : s.length > 0xFFFFFFFF - 4 := by omega
    simp [sshbuf_put_string, h]
  · intro s hs hg
    rw [sshbuf_put_string_granted grant buf s hs hg]
    obtain ⟨e1, e2⟩ := be32_spec s.length (by omega)
    refine ⟨rfl, rfl, e1, e2, rfl, ?_⟩
    intro hoff
    constructor
    · simp only [sshbuf_ptr]
      rw [List.append_assoc, List.drop_append_of_le_length hoff, List.append_assoc]
    · simp only [sshbuf_len, List.length_append, e1]
      omega
  · intro text more ht
    rw [sshbuf_put_cstring, strlen_text text more ht, List.take_left]

/-- C8, at concrete inputs: a string of `2^32 - 4` bytes is refused, and the text "hi" is
appended with its length to a buffer that already holds one consumed and one unread
byte. -/
theorem C8_put_string_witness :
    sshbuf_put_string (fun _ _ => none) { d := [7, 8], off := 1 }
        (List.replicate (2 ^ 32 - 4) 0)
      = (.error SSH_ERR_NO_BUFFER_SPACE, { d := [7, 8], off := 1 }) ∧
    (sshbuf_put_string (fun _ _ => none) { d := [7, 8], off := 1 } [104, 105]).2.d
      = [7, 8] ++ be32 2 ++ [104, 105] ∧
    sshbuf_ptr (sshbuf_put_string (fun _ _ => none) { d := [7, 8], off := 1 } [104, 105]).2
      = [8] ++ be32 2 ++ [104, 105] ∧
    sshbuf_put_cstring (fun _ _ => none) { d := [7, 8], off := 1 } ([104, 105] ++ [0, 33])
      = sshbuf_put_string (fun _ _ => none) { d := [7, 8], off := 1 } [104, 105] :=
  ⟨(C8_put_string (fun _ _ => none) { d := [7, 8], off := 1 }).1
      (List.replicate (2 ^ 32 - 4) 0) (by rw [List.length_replicate]; decide),
   ((C8_put_string (fun _ _ => none) { d := [7, 8], off := 1 }).2.1 [104, 105]
      (by decide) rfl).2.1,
   (((C8_put_string (fun _ _ => none) { d := [7, 8], off := 1 }).2.1 [104, 105]
      (by decide) rfl).2.2.2.2.2 (by decide)).1,
   (C8_put_string (fun _ _ => none) { d := [7, 8], off := 1 }).2.2 [104, 105] [33]
      (by simp)⟩

/-! ## The challenge-response check -/

/-- The bit count is exact: `n` fits in that many bits and, when positive, in no fewer. -/
theorem num_bits_aux_spec (fuel n : Nat) (h : n ≤ fuel) :
    n < 2 ^ num_bits_aux fuel n ∧ (n ≠ 0 → 2 ^ (num_bits_aux fuel n - 1) ≤ n) := by
  induction fuel generalizing n with
  | zero =>
    have : n = 0 := by omega
    subst this
    simp [num_bits_aux]
  | succ f ih =>
    by_cases hn : n = 0
    · subst hn
      simp [num_bits_aux]
    · obtain ⟨h1, h2⟩ := ih (n / 2) (by omega)
      simp only [num_bits_aux, hn, if_false, Nat.add_sub_cancel]
      refine ⟨?_, fun _ => ?_⟩
      · rw [Nat.pow_succ]
        omega
      · by_cases hh : n / 2 = 0
        · rw [hh]
          cases f <;> simp [num_bits_aux] <;> omega
        · have h3 := h2 hh
          have hpos : 0 < num_bits_aux f (n / 2) := by
            cases f with
            | zero => omega
            | succ g => simp [num_bits_aux, hh]
          have e : num_bits_aux f (n / 2) = (num_bits_aux f (n / 2) - 1) + 1 := by omega
          rw [e, Nat.pow_succ]
          omega

/-- A challenge fits in `BN_num_bytes` bytes. -/
theorem BN_lt_pow_num_bytes (a : BIGNUM) : a.natAbs < 256 ^ BN_num_bytes a := by
  have h := (num_bits_aux_spec a.natAbs a.natAbs (Nat.le_refl _)).1
  have hb : BN_num_bits a ≤ 8 * BN_num_bytes a := by
    unfold BN_num_bytes
    omega
  have e : (256 : Nat) ^ BN_num_bytes a = 2 ^ (8 * BN_num_bytes a) := by
    rw [Nat.pow_mul]
  rw [e]
  exact Nat.lt_of_lt_of_le h (Nat.pow_le_pow_right (by decide) hb)

/-- The big-endian bytes of a number, padded on the left with zero bytes. -/
theorem left_padded_bytes (m len a : Nat) (hm : m < 256 ^ len) :
    (List.range (a + len)).map (fun i => lo8 (m / 256 ^ (a + len - 1 - i)))
      = List.replicate a 0 ++ (List.range len).map (fun i => lo8 (m / 256 ^ (len - 1 - i))) := by
  rw [List.range_add, List.map_append, List.map_map]
  congr 1
  · rw [List.eq_replicate_iff]
    refine ⟨by simp, ?_⟩
    intro b hb
    rw [List.mem_map] at hb
    obtain ⟨i, hi, rfl⟩ := hb
    rw [List.mem_range] at hi
    have hle : 256 ^ len ≤ 256 ^ (a + len - 1 - i) :=
      Nat.pow_le_pow_right (by decide) (by omega)
    have : m / 256 ^ (a + len - 1 - i) = 0 :=
      Nat.div_eq_of_lt (Nat.lt_of_lt_of_le hm hle)
    rw [this]
    rfl
  · apply List.map_congr_left
    intro i hi
    rw [List.mem_range] at hi
    have e : a + len - 1 - (a + i) = len - 1 - i := by omega
    simp only [Function.comp, e]

/-- The buffer that the code hashes is the specification's `pad32` of the challenge. -/
theorem padded_challenge (c : BIGNUM) (h32 : BN_num_bytes c ≤ 32) :
    (mem_write (List.replicate 32 0) (32 - BN_num_bytes c) (BN_bn2bin c)).take 32
      = pad32 c := by
  have hlen : (BN_bn2bin c).length = BN_num_bytes c := by simp [BN_bn2bin]
  have h := left_padded_bytes c.natAbs (BN_num_bytes c) (32 - BN_num_bytes c)
    (BN_lt_pow_num_bytes c)
  have e32 : 32 - BN_num_bytes c + BN_num_bytes c = 32 := by omega
  rw [e32] at h
  have hw : mem_write (List.replicate 32 0) (32 - BN_num_bytes c) (BN_bn2bin c)
      = List.replicate (32 - BN_num_bytes c) 0 ++ BN_bn2bin c := by
    unfold mem_write
    rw [hlen, e32, List.take_replicate, List.drop_replicate,
      Nat.min_eq_left (Nat.sub_le _ _), Nat.sub_self, List.replicate_zero, List.append_nil]
  rw [hw, pad32, h, BN_bn2bin]
  apply List.take_of_length_le
  simp
  omega

theorem lor_eq_zero_iff (a b : Nat) : a ||| b = 0 ↔ a = 0 ∧ b = 0 := by
  constructor
  · intro h
    have hbit : ∀ i, (a.testBit i || b.testBit i) = false := by
      intro i
      rw [← Nat.testBit_or, h, Nat.zero_testBit]
    constructor
    · apply Nat.eq_of_testBit_eq
      intro i
      have := hbit i
      rw [Bool.or_eq_false_iff] at this
      rw [this.1, Nat.zero_testBit]
    · apply Nat.eq_of_testBit_eq
      intro i
      have := hbit i
      rw [Bool.or_eq_false_iff] at this
      rw [this.2, Nat.zero_testBit]
  · rintro ⟨rfl, rfl⟩
    rfl

/-- The accumulator of `timingsafe_bcmp` is zero exactly when every byte pair is equal. -/
theorem timingsafe_accumulator_zero_iff (b1 b2 : List u_char) (n : Nat) :
    (List.range n).foldl (fun ret i => ret ||| (byte_at b1 i ^^^ byte_at b2 i)) 0 = 0 ↔
      ∀ i, i < n → byte_at b1 i = byte_at b2 i := by
  induction n with
  | zero => simp
  | succ n ih =>
    rw [List.range_succ, List.foldl_append, List.foldl_cons, List.foldl_nil, lor_eq_zero_iff,
      ih, Nat.xor_eq_zero]
    constructor
    · rintro ⟨h1, h2⟩ i hi
      by_cases hin : i = n
      · rw [hin]
        exact h2
      · exact h1 i (by omega)
    · intro h
      exact ⟨fun i hi => h i (by omega), h n (by omega)⟩

/-- On two sequences of `n` bytes `timingsafe_bcmp` returns 0 exactly when they are
equal, and 1 otherwise. -/
theorem timingsafe_bcmp_eq_zero_iff (b1 b2 : List u_char) (n : Nat) (h1 : b1.length = n)
    (h2 : b2.length = n) : timingsafe_bcmp b1 b2 n = 0 ↔ b1 = b2 := by
  unfold timingsafe_bcmp
  have key := timingsafe_accumulator_zero_iff b1 b2 n
  constructor
  · intro h
    have hz : (List.range n).foldl
        (fun ret i => ret ||| (byte_at b1 i ^^^ byte_at b2 i)) 0 = 0 := by
      by_contra hne
      rw [if_pos hne] at h
      exact absurd h (by decide)
    have hall := key.mp hz
    apply List.ext_getElem (by rw [h1, h2])
    intro i hi1 hi2
    have := hall i (by omega)
    simp only [byte_at, List.getD_eq_getElem _ _ hi1, List.getD_eq_getElem _ _ hi2] at this
    exact Fin.ext this
  · intro h
    subst h
    have hz := key.mpr (fun _ _ => rfl)
    rw [if_neg (by rw [hz]; exact fun h => h rfl)]

/-- Inverting one bit of one byte changes the byte sequence. -/
theorem flip_bit_ne (r : List u_char) (i k : Nat) (hi : i < r.length) (hk : k < 8) :
    flip_bit r i k ≠ r := by
  intro h
  have hg : (flip_bit r i k)[i]? = r[i]? := by rw [h]
  rw [flip_bit, List.getElem?_set_self hi, List.getElem?_eq_getElem hi] at hg
  have hv : byte_at r i = (r[i]).val := by
    rw [byte_at, List.getD_eq_getElem _ _ hi]
  have hb : (r[i]).val < 2 ^ 8 := (r[i]).isLt
  have hp : 2 ^ k < 2 ^ 8 := Nat.pow_lt_pow_right (by decide) hk
  have hx : (r[i]).val ^^^ 2 ^ k < 256 := Nat.xor_lt_two_pow hb hp
  have hval : (lo8 (byte_at r i ^^^ 2 ^ k)).val = (r[i]).val := by
    rw [Option.some.inj hg]
  rw [hv] at hval
  simp only [lo8] at hval
  rw [Nat.mod_eq_of_lt hx] at hval
  have h0 : (r[i]).val ^^^ 2 ^ k = (r[i]).val ^^^ 0 := by rw [hval, Nat.xor_zero]
  have := Nat.xor_right_injective h0
  have hpos : 0 < 2 ^ k := Nat.pos_pow_of_pos k (by decide)
  omega

/-- A challenge between 1 and 2^256 - 1 needs between 1 and 32 bytes. -/
theorem BN_num_bytes_range (c : BIGNUM) (h0 : 0 < c) (h256 : c < 2 ^ 256) :
    1 ≤ BN_num_bytes c ∧ BN_num_bytes c ≤ 32 := by
  obtain ⟨h1, h2⟩ := num_bits_aux_spec c.natAbs c.natAbs (Nat.le_refl _)
  have hne : c.natAbs ≠ 0 := Int.natAbs_ne_zero.mpr (ne_of_gt h0)
  have hlt : c.natAbs < 2 ^ 256 := by
    have e : (c.natAbs : Int) = c := Int.natAbs_of_nonneg (le_of_lt h0)
    have h : (c.natAbs : Int) < 2 ^ 256 := by
      rw [e]
      exact h256
    exact_mod_cast h
  have hb1 : 1 ≤ BN_num_bits c := by
    by_contra hn
    have hz : num_bits_aux c.natAbs c.natAbs = 0 := by
      unfold BN_num_bits at hn
      omega
    rw [hz] at h1
    omega
  have hb2 : BN_num_bits c ≤ 256 := by
    by_contra hn
    have hge : 256 ≤ num_bits_aux c.natAbs c.natAbs - 1 := by
      unfold BN_num_bits at hn
      omega
    have := Nat.pow_le_pow_right (show 0 < 2 by decide) hge
    have := h2 hne
    omega
  unfold BN_num_bytes
  omega

/-- What `auth_rsa_verify_response` returns for a key that is not too short and a
challenge of 1 to 32 bytes: 1 when the response is the digest of the padded challenge and
the session identifier, 0 otherwise. -/
theorem auth_rsa_verify_response_eq (minbits : Nat) (MD5 : List u_char → List u_char)
    (S : List u_char) (key : sshkey) (c : BIGNUM) (r : List u_char)
    (hk : minbits ≤ BN_num_bits key.rsa.n) (h1 : 1 ≤ BN_num_bytes c)
    (h32 : BN_num_bytes c ≤ 32) (hS : S.length = 16) :
    auth_rsa_verify_response minbits MD5 S key c r
      = if timingsafe_bcmp r (MD5 (pad32 c ++ S)) 16 ≠ 0 then .ret 0 else .ret 1 := by
  have a : ¬ (BN_num_bits key.rsa.n < minbits) := by omega
  have b : ¬ (BN_num_bytes c ≤ 0 ∨ BN_num_bytes c > 32) := by omega
  have hS2 : S.take 16 = S := List.take_of_length_le (by omega)
  simp only [auth_rsa_verify_response, a, b, if_false, padded_challenge c h32, hS2]

/-- C9 as stated fails: with the minimum modulus size 768 and the 768-bit modulus 2^767,
the challenges 0 and 2^256 are both below the modulus, and on the response computed from
them the call ends in `fatal` instead of returning 1. -/
theorem C9_counterexample_fatal_challenges :
    768 ≤ BN_num_bits (2 ^ 767) ∧ (0 : BIGNUM) ≤ 0 ∧ (0 : BIGNUM) < 2 ^ 767 ∧
    auth_rsa_verify_response 768 toy_digest (List.replicate 16 7) { rsa := { n := 2 ^ 767 } }
      0 (toy_digest (pad32 0 ++ List.replicate 16 7)) = .fatal ∧
    (0 : BIGNUM) ≤ 2 ^ 256 ∧ (2 ^ 256 : BIGNUM) < 2 ^ 767 ∧
    auth_rsa_verify_response 768 toy_digest (List.replicate 16 7) { rsa := { n := 2 ^ 767 } }
      (2 ^ 256) (toy_digest (pad32 (2 ^ 256) ++ List.replicate 16 7)) = .fatal := by
  set_option maxRecDepth 100000 in decide

/-- C9, amended. For every key whose modulus has at least the minimum bit length, every
challenge `c` with `0 < c < 2^256` (the challenges whose encoding needs 1 to 32 bytes),
every 16-byte session identifier `S` and every hash function,
`auth_rsa_verify_response` on the response `Hash(pad32(c) ++ S)` returns 1. -/
theorem C9_correct_response_accepted (minbits : Nat) (MD5 : List u_char → List u_char)
    (S : List u_char) (key : sshkey) (c : BIGNUM)
    (hk : minbits ≤ BN_num_bits key.rsa.n) (h0 : 0 < c) (h256 : c < 2 ^ 256)
    (hS : S.length = 16) :
    auth_rsa_verify_response minbits MD5 S key c (MD5 (pad32 c ++ S)) = .ret 1 := by
  obtain ⟨h1, h32⟩ := BN_num_bytes_range c h0 h256
  rw [auth_rsa_verify_response_eq minbits MD5 S key c _ hk h1 h32 hS]
  have hz := (timingsafe_accumulator_zero_iff (MD5 (pad32 c ++ S)) (MD5 (pad32 c ++ S)) 16).mpr
    (fun _ _ => rfl)
  have : timingsafe_bcmp (MD5 (pad32 c ++ S)) (MD5 (pad32 c ++ S)) 16 = 0 := by
    unfold timingsafe_bcmp
    rw [if_neg (by rw [hz]; exact fun h => h rfl)]
  rw [this]
  rfl

/-- C9 amended, at the 768-bit modulus 2^767 with minimum size 768 and the challenge
0x0102030405. -/
theorem C9_correct_response_accepted_witness :
    auth_rsa_verify_response 768 toy_digest (List.replicate 16 7) { rsa := { n := 2 ^ 767 } }
      0x0102030405 (toy_digest (pad32 0x0102030405 ++ List.replicate 16 7)) = .ret 1 :=
  C9_correct_response_accepted 768 toy_digest (List.replicate 16 7)
    { rsa := { n := 2 ^ 767 } } 0x0102030405
    (by set_option maxRecDepth 100000 in decide) (by decide) (by decide) (by decide)

/-- C10. For every key, every challenge of 1 to 32 bytes, every 16-byte session
identifier, every hash with 16-byte digests and every 16-byte response `r`: if `r` is not
`Hash(pad32(challenge) ++ session_id)`, in particular if some bit of some byte differs,
`auth_rsa_verify_response` returns 0; inverting any single bit of the correct response
gives a response for which it returns 0; and if it returns 1 then `r` is the correct
response, all 16 bytes equal. -/
theorem C10_wrong_response_rejected (minbits : Nat) (MD5 : List u_char → List u_char)
    (S : List u_char) (key : sshkey) (c : BIGNUM) (r : List u_char)
    (h1 : 1 ≤ BN_num_bytes c) (h32 : BN_num_bytes c ≤ 32) (hS : S.length = 16)
    (hmd : ∀ m, (MD5 m).length = 16) (hr : r.length = 16) :
    (r ≠ MD5 (pad32 c ++ S) → auth_rsa_verify_response minbits MD5 S key c r = .ret 0) ∧
    ((∃ i k, i < 16 ∧ k < 8 ∧
        (byte_at r i).testBit k ≠ (byte_at (MD5 (pad32 c ++ S)) i).testBit k) →
      auth_rsa_verify_response minbits MD5 S key c r = .ret 0) ∧
    (∀ i k, i < 16 → k < 8 →
      auth_rsa_verify_response minbits MD5 S key c (flip_bit (MD5 (pad32 c ++ S)) i k)
        = .ret 0) ∧
    (auth_rsa_verify_response minbits MD5 S key c r = .ret 1 →
      r = MD5 (pad32 c ++ S) ∧
      ∀ i, i < 16 → byte_at r i = byte_at (MD5 (pad32 c ++ S)) i) := by
  have main : ∀ r' : List u_char, r'.length = 16 → r' ≠ MD5 (pad32 c ++ S) →
      auth_rsa_verify_response minbits MD5 S key c r' = .ret 0 := by
    intro r' hr' hne
    by_cases hk : BN_num_bits key.rsa.n < minbits
    · simp [auth_rsa_verify_response, hk]
    · rw [auth_rsa_verify_response_eq minbits MD5 S key c r' (by omega) h1 h32 hS]
      have hnz : timingsafe_bcmp r' (MD5 (pad32 c ++ S)) 16 ≠ 0 := fun h0 =>
        hne ((timingsafe_bcmp_eq_zero_iff r' _ 16 hr' (hmd _)).mp h0)
      rw [if_pos hnz]
  refine ⟨main r hr, ?_, ?_, ?_⟩
  · rintro ⟨i, k, _, _, hbit⟩
    apply main r hr
    intro heq
    rw [heq] at hbit
    exact hbit rfl
  · intro i k hi hk
    apply main
    · simp [flip_bit, hmd]
    · exact flip_bit_ne _ i k (by rw [hmd]; exact hi) hk
  · intro hacc
    have heq : r = MD5 (pad32 c ++ S) := by
      by_contra hne
      rw [main r hr hne] at hacc
      cases hacc
    exact ⟨heq, fun i _ => by rw [heq]⟩

/-- C10, at the modulus 2^767 with minimum size 768 and the challenge 0x0102030405: the
correct response with bit 2 of byte 3 inverted is rejected. -/
theorem C10_wrong_response_rejected_witness :
    auth_rsa_verify_response 768 toy_digest (List.replicate 16 7) { rsa := { n := 2 ^ 767 } }
      0x0102030405
      (flip_bit (toy_digest (pad32 0x0102030405 ++ List.replicate 16 7)) 3 2) = .ret 0 :=
  (C10_wrong_response_rejected 768 toy_digest (List.replicate 16 7)
    { rsa := { n := 2 ^ 767 } } 0x0102030405
    (toy_digest (pad32 0x0102030405 ++ List.replicate 16 7))
    (by decide) (by decide) (by decide) (fun m => by simp [toy_digest])
    (by simp [toy_digest])).2.2.1 3 2 (by decide) (by decide)

/-! ## The challenge dialog and short keys -/

/-- A key below the minimum modulus size is rejected by `auth_rsa_verify_response`,
whatever the challenge and the response. -/
theorem auth_rsa_verify_response_short_key (minbits : Nat) (MD5 : List u_char → List u_char)
    (S : List u_char) (key : sshkey) (c : BIGNUM) (r : List u_char)
    (hk : BN_num_bits key.rsa.n < minbits) :
    auth_rsa_verify_response minbits MD5 S key c r = .ret 0 := by
  simp [auth_rsa_verify_response, hk]

/-- C11 as stated fails: with the minimum modulus size 768 and a key of 8 bits,
`auth_rsa_generate_challenge` draws the random value 1003 and returns the challenge 238
instead of a rejection, and `auth_rsa_challenge_dialog` encrypts that challenge, sends the
result 187 and reads the response before it returns 0. -/
theorem C11_counterexample_short_key_challenged :
    BN_num_bits (255 : BIGNUM)
      < (example_env example_files 1003 (List.replicate 16 0)).SSH_RSA_MINIMUM_MODULUS_SIZE ∧
    auth_rsa_generate_challenge (example_env example_files 1003 (List.replicate 16 0))
        { rsa := { n := 255, e := 7 } }
      = ([auth_event.BN_rand 1003], .ret 238) ∧
    auth_rsa_challenge_dialog (example_env example_files 1003 (List.replicate 16 0))
        { rsa := { n := 255, e := 7 } }
      = ([auth_event.BN_rand 1003, auth_event.rsa_public_encrypt 238,
          auth_event.sshpkt_send_challenge 187,
          auth_event.read_response (List.replicate 16 0)], .ret 0) := by
  decide

/-- C11, amended. For every key whose modulus has fewer bits than
`SSH_RSA_MINIMUM_MODULUS_SIZE`: `auth_rsa_verify_response` returns 0 for every challenge
and response; `auth_rsa_challenge_dialog` never returns anything but 0; and the rejection
is made only at the end of the dialog, since whenever the dialog returns it has drawn a
random value, reduced it to a challenge without looking at the size of the modulus,
encrypted the challenge, sent the result and read the response. -/
theorem C11_short_key_rejected_after_dialog (env : auth_env) (key : sshkey)
    (hk : BN_num_bits key.rsa.n < env.SSH_RSA_MINIMUM_MODULUS_SIZE) :
    (∀ (c : BIGNUM) (r : List u_char),
      auth_rsa_verify_response env.SSH_RSA_MINIMUM_MODULUS_SIZE env.MD5 env.session_id
        key c r = .ret 0) ∧
    (∀ success : Int, (auth_rsa_challenge_dialog env key).2 = .ret success →
      success = 0 ∧
      ∃ (v encrypted : BIGNUM) (response : List u_char),
        env.BN_rand = some v ∧
        auth_rsa_generate_challenge env key
          = ([auth_event.BN_rand v], .ret (Int.tmod v key.rsa.n)) ∧
        env.rsa_public_encrypt (Int.tmod v key.rsa.n) key.rsa = .ok encrypted ∧
        (auth_rsa_challenge_dialog env key).1
          = [auth_event.BN_rand v, auth_event.rsa_public_encrypt (Int.tmod v key.rsa.n),
              auth_event.sshpkt_send_challenge encrypted,
              auth_event.read_response response]) := by
  refine ⟨fun c r => auth_rsa_verify_response_short_key _ _ _ key c r hk, ?_⟩
  intro success h
  unfold auth_rsa_challenge_dialog at h ⊢
  cases h1 : env.BN_new_encrypted
  · simp [h1] at h
  · simp only [h1, Bool.not_true, Bool.false_eq_true, if_false] at h ⊢
    unfold auth_rsa_generate_challenge at h ⊢
    cases h2 : env.BN_new_challenge
    · simp [h2] at h
    · simp only [h2, Bool.not_true, Bool.false_eq_true, if_false] at h ⊢
      cases h3 : env.BN_rand with
      | none => simp [h3] at h
      | some v =>
        simp only [h3] at h ⊢
        cases h4 : env.BN_CTX_new
        · simp [h4] at h
        · simp only [h4, Bool.not_true, Bool.false_eq_true, if_false] at h ⊢
          by_cases h5 : key.rsa.n = 0
          · simp [h5] at h
          · simp only [h5, if_false] at h ⊢
            cases h6 : env.rsa_public_encrypt (Int.tmod v key.rsa.n) key.rsa with
            | error e => simp [h6] at h
            | ok encrypted =>
              simp only [h6] at h ⊢
              by_cases h7 : env.sshpkt_start ≠ none ∨
                  env.sshpkt_put_bignum1 encrypted ≠ none ∨ env.sshpkt_send ≠ none
              · simp [h7] at h
              · simp only [h7, if_false] at h ⊢
                cases h8 : env.ssh_packet_read_expect
                · simp [h8] at h
                · simp only [h8, Bool.not_true, Bool.false_eq_true, if_false] at h ⊢
                  cases h9 : env.sshpkt_get_response with
                  | error e => simp [h9] at h
                  | ok response =>
                    simp only [h9] at h ⊢
                    by_cases h10 : env.sshpkt_get_end ≠ none
                    · simp [h10] at h
                    · simp only [h10, if_false] at h ⊢
                      rw [auth_rsa_verify_response_short_key _ _ _ key _ response hk] at h ⊢
                      simp only [outcome.ret.injEq] at h
                      exact ⟨h.symm, v, encrypted, response, rfl, rfl, h6, rfl⟩

/-- C11 amended, at the key of 8 bits and the stand-in environment with minimum size
768: the response is rejected, and the dialog returns 0 after the challenge has gone
out. -/
theorem C11_short_key_rejected_after_dialog_witness :
    auth_rsa_verify_response 768 toy_digest (List.replicate 16 7)
      { rsa := { n := 255, e := 7 } } 238 (List.replicate 16 0) = .ret 0 ∧
    ∃ (v encrypted : BIGNUM) (response : List u_char),
      (auth_rsa_challenge_dialog (example_env example_files 1003 (List.replicate 16 0))
        { rsa := { n := 255, e := 7 } }).1
        = [auth_event.BN_rand v, auth_event.rsa_public_encrypt (Int.tmod v 255),
            auth_event.sshpkt_send_challenge encrypted,
            auth_event.read_response response] :=
  ⟨(C11_short_key_rejected_after_dialog
      (example_env example_files 1003 (List.replicate 16 0))
      { rsa := { n := 255, e := 7 } } (by decide)).1 238 (List.replicate 16 0),
   by
    obtain ⟨_, v, encrypted, response, _, _, _, h⟩ :=
      (C11_short_key_rejected_after_dialog
        (example_env example_files 1003 (List.replicate 16 0))
        { rsa := { n := 255, e := 7 } } (by decide)).2 0 (by decide)
    exact ⟨v, encrypted, response, h⟩⟩

/-! ## Key lookup -/

/-- When the loop body accepts a line, the line is a record whose key has the candidate
modulus and is not revoked, and whose options are accepted and do not mark a certificate
authority. -/
theorem rsa_key_line_allowed (env : auth_env) (file : String) (linenum : Nat)
    (client_n : BIGNUM) (line : List Char) (key : sshkey)
    (h : (rsa_key_line env file linenum client_n line).2 = .allowed key) :
    (∃ bits rest, env.hostfile_read_key (line_key_text (skip_blanks line))
        = some (bits, key, rest)) ∧
    key.rsa.n = client_n ∧ env.auth_key_is_revoked key = false ∧
    env.auth_parse_options (line_key_options (skip_blanks line)) file linenum
      = (true, false) := by
  unfold rsa_key_line at h
  cases hcp : skip_blanks line with
  | nil => simp [hcp] at h
  | cons c cs =>
    simp only [hcp] at h
    by_cases hc : c = '\n' ∨ c = '#'
    · simp [hc] at h
    · simp only [hc, if_false] at h
      cases hr : env.hostfile_read_key (line_key_text (c :: cs)) with
      | none => simp [hr] at h
      | some r =>
        obtain ⟨bits, k, rest⟩ := r
        simp only [hr] at h
        by_cases hn : k.rsa.n ≠ client_n
        · simp [hn] at h
        · simp only [hn, if_false] at h
          cases hrev : env.auth_key_is_revoked k
          · simp only [hrev, Bool.false_eq_true, if_false] at h
            cases ho : env.auth_parse_options (line_key_options (c :: cs)) file linenum with
            | mk ok ca =>
              simp only [ho] at h
              cases ok
              · simp at h
              · cases ca
                · simp only [Bool.not_true, Bool.false_eq_true, if_false,
                    line_verdict.allowed.injEq] at h
                  subst h
                  exact ⟨⟨bits, rest, rfl⟩, not_not.mp hn, hrev, rfl⟩
                · simp at h
          · simp [hrev] at h

/-- When the loop over the lines ends with `allowed` set, some line of the file was
accepted by the loop body, under its line number. -/
theorem rsa_key_lines_allowed (env : auth_env) (file : String) (client_n : BIGNUM)
    (start : Nat) (lines : List (List Char)) (key : sshkey)
    (h : (rsa_key_lines env file client_n start lines).2 = some key) :
    ∃ (i : Nat) (line : List Char), lines[i]? = some line ∧
      (rsa_key_line env file (start + i + 1) client_n line).2 = .allowed key := by
  induction lines generalizing start with
  | nil => simp [rsa_key_lines] at h
  | cons line rest ih =>
    unfold rsa_key_lines at h
    cases hv : rsa_key_line env file (start + 1) client_n line with
    | mk log verdict =>
      cases verdict with
      | continue_ =>
        simp only [hv] at h
        obtain ⟨i, l, hl, ha⟩ := ih (start + 1) h
        refine ⟨i + 1, l, by simpa using hl, ?_⟩
        have e : start + (i + 1) + 1 = start + 1 + i + 1 := by omega
        rw [e]
        exact ha
      | break_ => simp [hv] at h
      | allowed k =>
        simp only [hv, Option.some.injEq] at h
        subst h
        exact ⟨0, line, by simp, by simp [hv]⟩

/-- When `auth_rsa_key_allowed` returns a key, some line of some file of the list, opened
under its expanded name, was accepted by the loop body. -/
theorem auth_rsa_key_allowed_provenance (env : auth_env) (client_n : BIGNUM)
    (files : List String) (key : sshkey)
    (h : (auth_rsa_key_allowed env client_n files).2 = some key) :
    ∃ (name : String) (lines : List (List Char)) (i : Nat) (line : List Char),
      name ∈ files ∧ strcasecmp name "none" ≠ 0 ∧
      env.auth_openkeyfile (env.expand_authorized_keys name) = some lines ∧
      lines[i]? = some line ∧
      (rsa_key_line env (env.expand_authorized_keys name) (i + 1) client_n line).2
        = .allowed key := by
  induction files with
  | nil => simp [auth_rsa_key_allowed] at h
  | cons name names ih =>
    unfold auth_rsa_key_allowed at h
    by_cases hs : strcasecmp name "none" = 0
    · simp only [hs, if_true] at h
      obtain ⟨n, ls, i, l, hm, rest⟩ := ih h
      exact ⟨n, ls, i, l, List.mem_cons_of_mem _ hm, rest⟩
    · simp only [hs, if_false] at h
      cases hf : rsa_key_allowed_in_file env (env.expand_authorized_keys name) client_n with
      | mk log res =>
        cases res with
        | some k =>
          simp only [hf, Option.some.injEq] at h
          subst h
          unfold rsa_key_allowed_in_file at hf
          cases ho : env.auth_openkeyfile (env.expand_authorized_keys name) with
          | none => simp [ho] at hf
          | some lines =>
            simp only [ho, Prod.mk.injEq] at hf
            obtain ⟨i, l, hl, ha⟩ := rsa_key_lines_allowed env _ client_n 0 lines k hf.2
            rw [Nat.zero_add] at ha
            exact ⟨name, lines, i, l, List.mem_cons_self _ _, hs, ho, hl, ha⟩
        | none =>
          simp only [hf] at h
          obtain ⟨n, ls, i, l, hm, rest⟩ := ih h
          exact ⟨n, ls, i, l, List.mem_cons_of_mem _ hm, rest⟩

/-- C12. Revoked-key exclusion. For every environment (key files, key reader, revocation
check, option parser), every list of key sources and every candidate modulus: a key that
`auth_rsa_key_allowed` returns is reported as not revoked by the revocation check; and a
line that holds a key reported as revoked is never the line the loop of
`rsa_key_allowed_in_file` accepts, whatever its modulus and options. -/
theorem C12_revoked_key_never_returned (env : auth_env) (client_n : BIGNUM)
    (files : List String) :
    (∀ key : sshkey, (auth_rsa_key_allowed env client_n files).2 = some key →
      env.auth_key_is_revoked key = false) ∧
    (∀ (file : String) (linenum : Nat) (line : List Char) (bits : Nat) (key : sshkey)
        (rest : List Char),
      env.hostfile_read_key (line_key_text (skip_blanks line)) = some (bits, key, rest) →
      env.auth_key_is_revoked key = true →
      ∀ k : sshkey, (rsa_key_line env file linenum client_n line).2 ≠ .allowed k) := by
  constructor
  · intro key h
    obtain ⟨name, lines, i, line, _, _, _, _, ha⟩ :=
      auth_rsa_key_allowed_provenance env client_n files key h
    exact (rsa_key_line_allowed env _ _ client_n line key ha).2.2.1
  · intro file linenum line bits key rest hp hrev k ha
    obtain ⟨⟨b, r, hp2⟩, _, hnr, _⟩ := rsa_key_line_allowed env file linenum client_n line k ha
    rw [hp] at hp2
    simp only [Option.some.injEq, Prod.mk.injEq] at hp2
    rw [hp2.2.1, hnr] at hrev
    cases hrev

/-- C12, at the stand-in key files: file `b` holds the candidate modulus 255 first with
the revoked exponent 3, file `c` with exponent 19; the key of `c` is returned and it is
not revoked, and the revoked line of `b` is not accepted. -/
theorem C12_revoked_key_never_returned_witness :
    (auth_rsa_key_allowed (example_env example_files 1003 []) 255 ["b", "c"]).2
      = some { rsa := { n := 255, e := 19 } } ∧
    (example_env example_files 1003 []).auth_key_is_revoked { rsa := { n := 255, e := 19 } }
      = false ∧
    (rsa_key_line (example_env example_files 1003 []) "/home/u/b" 1 255
      "8 3 255 revoked\n".toList).2 ≠ .allowed { rsa := { n := 255, e := 3 } } :=
  ⟨by decide,
   (C12_revoked_key_never_returned (example_env example_files 1003 []) 255 ["b", "c"]).1
      { rsa := { n := 255, e := 19 } } (by decide),
   (C12_revoked_key_never_returned (example_env example_files 1003 []) 255 ["b", "c"]).2
      "/home/u/b" 1 "8 3 255 revoked\n".toList 8 { rsa := { n := 255, e := 3 } }
      "revoked\n".toList (by decide) (by decide) { rsa := { n := 255, e := 3 } }⟩

/-- The opened files of two logs, one after the other. -/
theorem opened_files_append (a b : List auth_event) :
    opened_files (a ++ b) = opened_files a ++ opened_files b := by
  induction a with
  | nil => rfl
  | cons ev rest ih =>
    cases ev <;> simp [opened_files, ih]

/-- The loop body opens no file and takes no part in the dialog. -/
theorem rsa_key_line_log (env : auth_env) (file : String) (linenum : Nat)
    (client_n : BIGNUM) (line : List Char) :
    opened_files (rsa_key_line env file linenum client_n line).1 = [] ∧
    ∀ ev ∈ (rsa_key_line env file linenum client_n line).1, is_dialog_event ev = false := by
  unfold rsa_key_line
  cases skip_blanks line with
  | nil => exact ⟨rfl, by simp⟩
  | cons c cs =>
    simp only []
    split
    · exact ⟨rfl, by simp⟩
    · split
      · exact ⟨rfl, by simp⟩
      · split
        · exact ⟨rfl, by simp⟩
        · have hlog : ∀ (bits : Nat) (k : sshkey),
              opened_files ((if bits ≠ BN_num_bits k.rsa.n then
                  [auth_event.keysize_mismatch file linenum (BN_num_bits k.rsa.n) bits]
                else []) ++ [auth_event.matching_key_found file linenum]) = [] ∧
              ∀ ev ∈ (if bits ≠ BN_num_bits k.rsa.n then
                  [auth_event.keysize_mismatch file linenum (BN_num_bits k.rsa.n) bits]
                else []) ++ [auth_event.matching_key_found file linenum],
                is_dialog_event ev = false := by
            intro bits k
            by_cases hb : bits ≠ BN_num_bits k.rsa.n
            · simp [hb, opened_files, is_dialog_event]
            · simp [hb, opened_files, is_dialog_event]
          split
          · exact hlog _ _
          · split
            · exact hlog _ _
            · split
              · exact hlog _ _
              · exact hlog _ _

/-- The loop over the lines opens no file and takes no part in the dialog. -/
theorem rsa_key_lines_log (env : auth_env) (file : String) (client_n : BIGNUM)
    (start : Nat) (lines : List (List Char)) :
    opened_files (rsa_key_lines env file client_n start lines).1 = [] ∧
    ∀ ev ∈ (rsa_key_lines env file client_n start lines).1, is_dialog_event ev = false := by
  induction lines generalizing start with
  | nil => exact ⟨rfl, by simp [rsa_key_lines]⟩
  | cons line rest ih =>
    have hl := rsa_key_line_log env file (start + 1) client_n line
    unfold rsa_key_lines
    cases hv : rsa_key_line env file (start + 1) client_n line with
    | mk log verdict =>
      rw [hv] at hl
      cases verdict with
      | continue_ =>
        simp only []
        refine ⟨by rw [opened_files_append, hl.1, (ih (start + 1)).1]; rfl, ?_⟩
        intro ev hev
        rw [List.mem_append] at hev
        cases hev with
        | inl h => exact hl.2 ev h
        | inr h => exact (ih (start + 1)).2 ev h
      | break_ => exact hl
      | allowed k => exact hl

/-- `rsa_key_allowed_in_file` tries to open its file, and no other, and takes no part in
the dialog. -/
theorem rsa_key_allowed_in_file_log (env : auth_env) (file : String) (client_n : BIGNUM) :
    opened_files (rsa_key_allowed_in_file env file client_n).1 = [file] ∧
    ∀ ev ∈ (rsa_key_allowed_in_file env file client_n).1, is_dialog_event ev = false := by
  unfold rsa_key_allowed_in_file
  cases env.auth_openkeyfile file with
  | none => exact ⟨rfl, by simp [is_dialog_event]⟩
  | some lines =>
    have hl := rsa_key_lines_log env file client_n 0 lines
    refine ⟨by simp [opened_files, hl.1], ?_⟩
    intro ev hev
    simp only [List.mem_cons] at hev
    cases hev with
    | inl h => rw [h]; rfl
    | inr h => exact hl.2 ev h

/-- C19. Order of the key sources. For every environment, candidate modulus and ordered
list of sources: the result of `auth_rsa_key_allowed` is the result of
`rsa_key_allowed_in_file` for the first source, among those whose name is not "none" up to
letter case, for which that result is a key, and it is not-found exactly when no such
source gives a key; the files that the code tries to open are, in order, the expanded
names of the sources that are not named "none", up to and including the first one that
gives a key, so that a source named "none" is never opened and no source after the
accepting one is consulted. A name is skipped exactly when its letters, lowered, are
`none`. -/
theorem C19_first_accepting_source (env : auth_env) (client_n : BIGNUM)
    (files : List String) :
    (auth_rsa_key_allowed env client_n files).2
      = (files.filter (fun name => decide (strcasecmp name "none" ≠ 0))).findSome?
          (fun name =>
            (rsa_key_allowed_in_file env (env.expand_authorized_keys name) client_n).2) ∧
    ((auth_rsa_key_allowed env client_n files).2 = none ↔
      ∀ name ∈ files, strcasecmp name "none" ≠ 0 →
        (rsa_key_allowed_in_file env (env.expand_authorized_keys name) client_n).2 = none) ∧
    opened_files (auth_rsa_key_allowed env client_n files).1
      = (through_first
          (fun name =>
            (rsa_key_allowed_in_file env (env.expand_authorized_keys name) client_n).2.isSome)
          (files.filter (fun name => decide (strcasecmp name "none" ≠ 0)))).map
          env.expand_authorized_keys ∧
    (∀ name : String, strcasecmp name "none" = 0 ↔
      name.toList.map Char.toLower = ['n', 'o', 'n', 'e']) := by
  refine ⟨?_, ?_, ?_, ?_⟩
  · induction files with
    | nil => rfl
    | cons name names ih =>
      unfold auth_rsa_key_allowed
      by_cases hs : strcasecmp name "none" = 0
      · simp only [hs, if_true]
        rw [List.filter_cons_of_neg (by simp [hs])]
        exact ih
      · simp only [hs, if_false]
        rw [List.filter_cons_of_pos (by simp [hs]), List.findSome?_cons]
        cases hf : rsa_key_allowed_in_file env (env.expand_authorized_keys name)
            client_n with
        | mk log res =>
          cases res with
          | none => exact ih
          | some k => rfl
  · induction files with
    | nil => simp [auth_rsa_key_allowed]
    | cons name names ih =>
      unfold auth_rsa_key_allowed
      by_cases hs : strcasecmp name "none" = 0
      · simp only [hs, if_true]
        rw [ih]
        constructor
        · intro h n hn hne
          rw [List.mem_cons] at hn
          cases hn with
          | inl e => rw [e] at hne; exact absurd hs hne
          | inr hm => exact h n hm hne
        · intro h n hn hne
          exact h n (List.mem_cons_of_mem _ hn) hne
      · simp only [hs, if_false]
        cases hf : rsa_key_allowed_in_file env (env.expand_authorized_keys name)
            client_n with
        | mk log res =>
          cases res with
          | none =>
            simp only []
            rw [ih]
            constructor
            · intro h n hn hne
              rw [List.mem_cons] at hn
              cases hn with
              | inl e => rw [e, hf]
              | inr hm => exact h n hm hne
            · intro h n hn hne
              exact h n (List.mem_cons_of_mem _ hn) hne
          | some k =>
            simp only []
            constructor
            · intro h
              cases h
            · intro h
              have := h name (List.mem_cons_self _ _) hs
              rw [hf] at this
              cases this
  · induction files with
    | nil => rfl
    | cons name names ih =>
      unfold auth_rsa_key_allowed
      by_cases hs : strcasecmp name "none" = 0
      · simp only [hs, if_true]
        rw [List.filter_cons_of_neg (by simp [hs])]
        exact ih
      · simp only [hs, if_false]
        rw [List.filter_cons_of_pos (by simp [hs])]
        have hlog := (rsa_key_allowed_in_file_log env (env.expand_authorized_keys name)
          client_n).1
        cases hf : rsa_key_allowed_in_file env (env.expand_authorized_keys name)
            client_n with
        | mk log res =>
          rw [hf] at hlog
          simp only at hlog
          cases res with
          | none =>
            simp only [through_first, hf, Option.isSome_none, Bool.false_eq_true, if_false,
              List.map_cons]
            rw [opened_files_append, hlog, ih]
            rfl
          | some k =>
            simp only [through_first, hf, Option.isSome_some, if_true, List.map_cons,
              List.map_nil]
            exact hlog
  · intro name
    unfold strcasecmp
    constructor
    · intro h
      by_contra hne
      have hne2 : ¬ (name.toList.map Char.toLower = "none".toList.map Char.toLower) := hne
      rw [if_neg hne2] at h
      cases h
    · intro h
      have h2 : name.toList.map Char.toLower = "none".toList.map Char.toLower := h
      rw [if_pos h2]

/-- C19, at the stand-in key files with the sources `NoNe`, `x` (no such file), `b` (its
matching key is revoked), `c`, `a`: the key of `c` is returned; `x`, `b` and `c` are
opened in this order, `NoNe` and `a` are not. -/
theorem C19_first_accepting_source_witness :
    (auth_rsa_key_allowed (example_env example_files 1003 []) 255
        ["NoNe", "x", "b", "c", "a"]).2 = some { rsa := { n := 255, e := 19 } } ∧
    opened_files (auth_rsa_key_allowed (example_env example_files 1003 []) 255
        ["NoNe", "x", "b", "c", "a"]).1 = ["/home/u/x", "/home/u/b", "/home/u/c"] ∧
    strcasecmp "NoNe" "none" = 0 :=
  ⟨(C19_first_accepting_source (example_env example_files 1003 []) 255
      ["NoNe", "x", "b", "c", "a"]).1.trans (by decide),
   (C19_first_accepting_source (example_env example_files 1003 []) 255
      ["NoNe", "x", "b", "c", "a"]).2.2.1.trans (by decide),
   ((C19_first_accepting_source (example_env example_files 1003 []) 255
      ["NoNe", "x", "b", "c", "a"]).2.2.2 "NoNe").2 (by decide)⟩

/-- The lookup takes no part in the dialog. -/
theorem auth_rsa_key_allowed_log (env : auth_env) (client_n : BIGNUM) (files : List String) :
    ∀ ev ∈ (auth_rsa_key_allowed env client_n files).1, is_dialog_event ev = false := by
  induction files with
  | nil => simp [auth_rsa_key_allowed]
  | cons name names ih =>
    unfold auth_rsa_key_allowed
    by_cases hs : strcasecmp name "none" = 0
    · simp only [hs, if_true]
      exact ih
    · simp only [hs, if_false]
      have hlog := (rsa_key_allowed_in_file_log env (env.expand_authorized_keys name)
        client_n).2
      cases hf : rsa_key_allowed_in_file env (env.expand_authorized_keys name)
          client_n with
      | mk log res =>
        rw [hf] at hlog
        cases res with
        | some k => exact hlog
        | none =>
          intro ev hev
          simp only [List.mem_append] at hev
          cases hev with
          | inl h => exact hlog ev h
          | inr h => exact ih ev h

/-- C20. Rejected options and certificate-authority entries. A line whose option string
is rejected by `auth_parse_options`, or after whose parsing `key_is_cert_authority` is
set, is never the line that the loop of `rsa_key_allowed_in_file` accepts, whatever its
modulus. A key that `auth_rsa_key_allowed` returns comes from a line of an opened file of
the list whose options were accepted and did not mark a certificate authority. And when
`auth_rsa_key_allowed` finds no key, `auth_rsa` returns 0 and no step of the challenge
dialog takes place (no random value drawn, nothing encrypted or sent, no response
read). -/
theorem C20_rejected_options_never_returned (env : auth_env) (client_n : BIGNUM)
    (files : List String) (valid : Bool) :
    (∀ (file : String) (linenum : Nat) (line : List Char),
      ((env.auth_parse_options (line_key_options (skip_blanks line)) file linenum).1 = false ∨
        (env.auth_parse_options (line_key_options (skip_blanks line)) file linenum).2
          = true) →
      ∀ k : sshkey, (rsa_key_line env file linenum client_n line).2 ≠ .allowed k) ∧
    (∀ key : sshkey, (auth_rsa_key_allowed env client_n files).2 = some key →
      ∃ (name : String) (lines : List (List Char)) (i : Nat) (line : List Char),
        name ∈ files ∧
        env.auth_openkeyfile (env.expand_authorized_keys name) = some lines ∧
        lines[i]? = some line ∧
        (∃ bits rest, env.hostfile_read_key (line_key_text (skip_blanks line))
          = some (bits, key, rest)) ∧
        env.auth_parse_options (line_key_options (skip_blanks line))
          (env.expand_authorized_keys name) (i + 1) = (true, false)) ∧
    ((auth_rsa_key_allowed env client_n files).2 = none →
      (auth_rsa env valid files client_n).2 = .ret 0 ∧
      ∀ ev ∈ (auth_rsa env valid files client_n).1, is_dialog_event ev = false) := by
  refine ⟨?_, ?_, ?_⟩
  · intro file linenum line hbad k ha
    have hok := (rsa_key_line_allowed env file linenum client_n line k ha).2.2.2
    rw [hok] at hbad
    cases hbad with
    | inl h => cases h
    | inr h => cases h
  · intro key h
    obtain ⟨name, lines, i, line, hm, _, ho, hl, ha⟩ :=
      auth_rsa_key_allowed_provenance env client_n files key h
    have hacc := rsa_key_line_allowed env _ _ client_n line key ha
    exact ⟨name, lines, i, line, hm, ho, hl, hacc.1, hacc.2.2.2⟩
  · intro hnone
    unfold auth_rsa
    cases valid with
    | false => exact ⟨rfl, by simp⟩
    | true =>
      simp only [Bool.not_true, Bool.false_eq_true, if_false]
      have hlog := auth_rsa_key_allowed_log env client_n files
      cases hk : auth_rsa_key_allowed env client_n files with
      | mk log res =>
        rw [hk] at hnone hlog
        simp only at hnone
        subst hnone
        refine ⟨rfl, ?_⟩
        intro ev hev
        simp only [List.mem_append, List.mem_singleton] at hev
        cases hev with
        | inl h => exact hlog ev h
        | inr h => rw [h]; rfl

/-- C20, at the stand-in key files: in file `a` the lines with the candidate modulus 255
whose options are rejected (line 3) or mark a certificate authority (line 4) are passed
over and the key of line 5 is returned; when the only source is a file whose matching
key is revoked, nothing is found and `auth_rsa` returns 0 without a dialog. -/
theorem C20_rejected_options_never_returned_witness :
    (rsa_key_line (example_env example_files 1003 []) "/home/u/a" 3 255
      "!opt 8 7 255 u@h\n".toList).2 ≠ .allowed { rsa := { n := 255, e := 7 } } ∧
    (rsa_key_line (example_env example_files 1003 []) "/home/u/a" 4 255
      "cert-authority 8 11 255 u@h\n".toList).2 ≠ .allowed { rsa := { n := 255, e := 11 } } ∧
    (auth_rsa_key_allowed (example_env example_files 1003 []) 255 ["a"]).2
      = some { rsa := { n := 255, e := 17 } } ∧
    auth_rsa (example_env example_files 1003 []) true ["b"] 255
      = ([auth_event.auth_openkeyfile "/home/u/b",
          auth_event.matching_key_found "/home/u/b" 1, auth_event.auth_clear_options],
         .ret 0) :=
  ⟨(C20_rejected_options_never_returned (example_env example_files 1003 []) 255 ["a"]
      true).1 "/home/u/a" 3 "!opt 8 7 255 u@h\n".toList (Or.inl (by decide)) _,
   (C20_rejected_options_never_returned (example_env example_files 1003 []) 255 ["a"]
      true).1 "/home/u/a" 4 "cert-authority 8 11 255 u@h\n".toList (Or.inr (by decide)) _,
   by decide,
   by decide⟩

/-! ## The Diffie-Hellman exchange, server side -/

/-- Every `goto out` of lines 95-134 leaves the context as it was, with an error, with
the flags of the locals in agreement with the log, and before any step of the exchange
proper. -/
theorem kexdh_read_init_out (env : kex_env) (k : kex) (s : kexdh_state)
    (h : kexdh_read_init env k = .goto_out s) :
    s.kex = k ∧ s.r ≠ .ok () ∧ locals_match s.locals s.log ∧
    (∀ ev ∈ s.log, is_exchange_step ev = false) := by
  unfold kexdh_read_init at h
  repeat' split at h
  all_goals first
    | (cases h; done)
    | (simp only [kexdh_step.goto_out.injEq] at h
       subst h
       simp [locals_match, is_exchange_step])

/-- Going on past line 134 means that the peer's public value was decoded and passed the
validity check. -/
theorem kexdh_read_init_next (env : kex_env) (k : kex) (pubkey privkey : sshkey)
    (pub : BIGNUM) (h : kexdh_read_init env k = .next (pubkey, privkey, pub)) :
    env.sshpkt_get_bignum2 = .ok pub ∧ env.dh_pub_is_valid k.dh pub = true := by
  unfold kexdh_read_init at h
  repeat' split at h
  all_goals first
    | (cases h; done)
    | (simp only [kexdh_step.next.injEq, Prod.mk.injEq] at h
       obtain ⟨_, _, rfl⟩ := h
       simp_all)

/-- Every `goto out` of lines 136-152 leaves the context as it was, with an error and
with the flags of the locals in agreement with the log. -/
theorem kexdh_shared_secret_out (env : kex_env) (k : kex) (pubkey : sshkey) (pub : BIGNUM)
    (s : kexdh_state) (h : kexdh_shared_secret env k pubkey pub = .goto_out s) :
    s.kex = k ∧ s.r ≠ .ok () ∧ locals_match s.locals s.log := by
  unfold kexdh_shared_secret at h
  repeat' split at h
  all_goals first
    | (cases h; done)
    | (simp only [kexdh_step.goto_out.injEq] at h
       subst h
       simp [locals_match])

/-- Lines 153-175 end the process only when `kex->dh` is NULL. -/
theorem kexdh_session_id_returns (env : kex_env) (k : kex) (blob : List u_char)
    (pub secret : BIGNUM) (hdh : k.dh ≠ none) :
    ∃ st, kexdh_session_id env k blob pub secret = .ret st := by
  unfold kexdh_session_id
  cases hd : k.dh with
  | none => exact absurd hd hdh
  | some dh =>
    simp only []
    repeat' split
    all_goals exact ⟨_, rfl⟩

/-- Every `goto out` of lines 153-175 comes with an error, leaves the session identifier
pointer as it was, changes the context only when it had no session identifier, and leaves
the flags of the locals in agreement with the log. -/
theorem kexdh_session_id_out (env : kex_env) (k : kex) (blob : List u_char)
    (pub secret : BIGNUM) (s : kexdh_state)
    (h : kexdh_session_id env k blob pub secret = .ret (.goto_out s)) :
    s.kex.session_id = k.session_id ∧ (k.session_id ≠ none → s.kex = k) ∧
    s.r ≠ .ok () ∧ locals_match s.locals s.log := by
  unfold kexdh_session_id at h
  repeat' split at h
  all_goals first
    | (cases h; done)
    | (simp only [outcome.ret.injEq, kexdh_step.goto_out.injEq] at h
       subst h
       simp_all [locals_match, kexdh_locals_hash, kexdh_log_hash])

/-- Going on past line 175: `kex->dh` is not NULL, the hash is what `kex_dh_hash` returned
for the arguments of lines 155-162, and the context is unchanged when it had a session
identifier and has the hash as its session identifier otherwise. -/
theorem kexdh_session_id_next (env : kex_env) (k : kex) (blob : List u_char)
    (pub secret : BIGNUM) (dh : DH) (k2 : kex) (hash : List u_char)
    (h : kexdh_session_id env k blob pub secret = .ret (.next (dh, k2, hash))) :
    k.dh = some dh ∧
    env.kex_dh_hash k.client_version_string k.server_version_string (sshbuf_ptr k.peer)
      (sshbuf_ptr k.my) blob pub dh.pub_key secret = .ok hash ∧
    (k.session_id ≠ none → k2 = k) ∧
    (k.session_id = none →
      k2.session_id = some hash ∧ k2.session_id_len = hash.length) ∧
    k2.session_id ≠ none := by
  unfold kexdh_session_id at h
  repeat' split at h
  all_goals first
    | (cases h; done)
    | (simp only [outcome.ret.injEq, kexdh_step.next.injEq, Prod.mk.injEq] at h
       obtain ⟨rfl, rfl, rfl⟩ := h
       simp_all)

/-- What lines 177-195 leave: the context they were given, the hash handed to
`sshkey_sign`, the flags of the locals in agreement with the log, and on success the
keys derived from the same hash. -/
theorem kexdh_sign_and_reply_spec (env : kex_env) (k : kex) (dh : DH) (privkey : sshkey)
    (blob : List u_char) (pub secret : BIGNUM) (hash : List u_char) :
    (kexdh_sign_and_reply env k dh privkey blob pub secret hash).kex = k ∧
    locals_match (kexdh_sign_and_reply env k dh privkey blob pub secret hash).locals
      (kexdh_sign_and_reply env k dh privkey blob pub secret hash).log ∧
    kex_event.sshkey_sign hash
      ∈ (kexdh_sign_and_reply env k dh privkey blob pub secret hash).log ∧
    (∀ data, kex_event.sshkey_sign data
      ∈ (kexdh_sign_and_reply env k dh privkey blob pub secret hash).log → data = hash) ∧
    ((kexdh_sign_and_reply env k dh privkey blob pub secret hash).r = .ok () →
      kex_event.kex_derive_keys hash secret
        ∈ (kexdh_sign_and_reply env k dh privkey blob pub secret hash).log) := by
  have hsent : ∀ sig, ∀ ev ∈ (kexdh_send_reply env blob dh.pub_key sig).1,
      (∀ v, ev ≠ kex_event.created v) ∧ (∀ d, ev ≠ kex_event.sshkey_sign d) := by
    intro sig
    unfold kexdh_send_reply
    repeat' split
    all_goals simp
  unfold kexdh_sign_and_reply
  rw [List.take_length]
  cases hs : env.sshkey_sign privkey hash with
  | error e =>
    simp [locals_match, kexdh_locals_hash, kexdh_log_hash]
  | ok sig =>
    have hsig := hsent sig
    cases hr : kexdh_send_reply env blob dh.pub_key sig with
    | mk sent res =>
      rw [hr] at hsig
      simp only at hsig
      have hc : ∀ v, kex_event.created v ∉ sent := fun v hm => (hsig _ hm).1 v rfl
      have hd : ∀ d, kex_event.sshkey_sign d ∉ sent := fun d hm => (hsig _ hm).2 d rfl
      cases res with
      | some e =>
        simp only [hr]
        simp [locals_match, kexdh_locals_hash, kexdh_log_hash, hc, hd]
      | none =>
        simp only [hr]
        simp [locals_match, kexdh_locals_hash, kexdh_log_hash, hc, hd]

/-- Going on past line 134 means that both key loaders are set and gave the two host
keys. -/
theorem kexdh_read_init_keys (env : kex_env) (k : kex) (pubkey privkey : sshkey)
    (pub : BIGNUM) (h : kexdh_read_init env k = .next (pubkey, privkey, pub)) :
    (∃ f, k.load_host_public_key = some f ∧ f k.hostkey_type = some pubkey) ∧
    (∃ f, k.load_host_private_key = some f ∧ f k.hostkey_type = some privkey) := by
  unfold kexdh_read_init at h
  repeat' split at h
  all_goals first
    | (cases h; done)
    | (simp only [kexdh_step.next.injEq, Prod.mk.injEq] at h
       obtain ⟨rfl, rfl, _⟩ := h
       simp_all)

/-- Going on past line 152: the shared secret is the number made from what
`DH_compute_key` wrote, and the blob is that of the public host key. -/
theorem kexdh_shared_secret_next (env : kex_env) (k : kex) (pubkey : sshkey) (pub : BIGNUM)
    (secret : BIGNUM) (blob : List u_char)
    (h : kexdh_shared_secret env k pubkey pub = .next (secret, blob)) :
    (∃ kbuf, env.DH_compute_key pub k.dh = some kbuf ∧ env.BN_bin2bn kbuf = some secret) ∧
    env.sshkey_to_blob pubkey = .ok blob := by
  unfold kexdh_shared_secret at h
  repeat' split at h
  all_goals first
    | (cases h; done)
    | (simp only [kexdh_step.next.injEq, Prod.mk.injEq] at h
       obtain ⟨rfl, rfl⟩ := h
       simp_all)

/-- The ways in which the body reaches the label `out`: from one of the first three
stretches, or at the end of the fourth. -/
theorem kexdh_body_cases (env : kex_env) (k : kex) (s : kexdh_state)
    (h : kexdh_body env k = .ret s) :
    kexdh_read_init env k = .goto_out s ∨
    ∃ pubkey privkey pub, kexdh_read_init env k = .next (pubkey, privkey, pub) ∧
      (kexdh_shared_secret env k pubkey pub = .goto_out s ∨
       ∃ secret blob, kexdh_shared_secret env k pubkey pub = .next (secret, blob) ∧
         (kexdh_session_id env k blob pub secret = .ret (.goto_out s) ∨
          ∃ dh k2 hash,
            kexdh_session_id env k blob pub secret = .ret (.next (dh, k2, hash)) ∧
            s = kexdh_sign_and_reply env k2 dh privkey blob pub secret hash)) := by
  unfold kexdh_body at h
  cases hA : kexdh_read_init env k with
  | goto_out sA =>
    simp only [hA, outcome.ret.injEq] at h
    exact Or.inl (by rw [h])
  | next a =>
    obtain ⟨pubkey, privkey, pub⟩ := a
    right
    refine ⟨pubkey, privkey, pub, rfl, ?_⟩
    simp only [hA] at h
    cases hB : kexdh_shared_secret env k pubkey pub with
    | goto_out sB =>
      simp only [hB, outcome.ret.injEq] at h
      exact Or.inl (by rw [h])
    | next b =>
      obtain ⟨secret, blob⟩ := b
      right
      refine ⟨secret, blob, rfl, ?_⟩
      simp only [hB] at h
      cases hC : kexdh_session_id env k blob pub secret with
      | fatal => simp [hC] at h
      | ret st =>
        cases st with
        | goto_out sC =>
          simp only [hC, outcome.ret.injEq] at h
          exact Or.inl (by rw [h])
        | next c =>
          obtain ⟨dh, k2, hash⟩ := c
          simp only [hC, outcome.ret.injEq] at h
          exact Or.inr ⟨dh, k2, hash, rfl, h.symm⟩

/-- `input_kex_dh_init` returns whenever `kex->dh` is not NULL. -/
theorem input_kex_dh_init_returns (env : kex_env) (k : kex) (hdh : k.dh ≠ none) :
    ∃ res, input_kex_dh_init env k = .ret res := by
  unfold input_kex_dh_init kexdh_body
  cases kexdh_read_init env k with
  | goto_out sA => exact ⟨_, rfl⟩
  | next a =>
    obtain ⟨pubkey, privkey, pub⟩ := a
    simp only []
    cases kexdh_shared_secret env k pubkey pub with
    | goto_out sB => exact ⟨_, rfl⟩
    | next b =>
      obtain ⟨secret, blob⟩ := b
      simp only []
      obtain ⟨st, hst⟩ := kexdh_session_id_returns env k blob pub secret hdh
      rw [hst]
      cases st with
      | goto_out sC => exact ⟨_, rfl⟩
      | next c => exact ⟨_, rfl⟩

/-- What `input_kex_dh_init` returns is what the code at `out` makes of the state in
which the body reached it. -/
theorem input_kex_dh_init_ret (env : kex_env) (k : kex) (res : kexdh_result)
    (h : input_kex_dh_init env k = .ret res) :
    ∃ s, kexdh_body env k = .ret s ∧ res = kexdh_out s := by
  unfold input_kex_dh_init at h
  cases hb : kexdh_body env k with
  | fatal => simp [hb] at h
  | ret s =>
    simp only [hb, outcome.ret.injEq] at h
    exact ⟨s, rfl, h.symm⟩

/-- When the context has a session identifier, the body leaves the context as it was. -/
theorem kexdh_body_keeps_context (env : kex_env) (k : kex) (s : kexdh_state)
    (h : kexdh_body env k = .ret s) (hsid : k.session_id ≠ none) : s.kex = k := by
  rcases kexdh_body_cases env k s h with hA | ⟨pubkey, privkey, pub, _, hB | ⟨secret, blob, _,
    hC | ⟨dh, k2, hash, hC, hD⟩⟩⟩
  · exact (kexdh_read_init_out env k s hA).1
  · exact (kexdh_shared_secret_out env k pubkey pub s hB).1
  · exact (kexdh_session_id_out env k blob pub secret s hC).2.1 hsid
  · rw [hD, (kexdh_sign_and_reply_spec env k2 dh privkey blob pub secret hash).1]
    exact (kexdh_session_id_next env k blob pub secret dh k2 hash hC).2.2.1 hsid

/-- The flags of the locals agree with the log wherever the body reaches `out`. -/
theorem kexdh_body_locals (env : kex_env) (k : kex) (s : kexdh_state)
    (h : kexdh_body env k = .ret s) : locals_match s.locals s.log := by
  rcases kexdh_body_cases env k s h with hA | ⟨pubkey, privkey, pub, _, hB | ⟨secret, blob, _,
    hC | ⟨dh, k2, hash, hC, hD⟩⟩⟩
  · exact (kexdh_read_init_out env k s hA).2.2.1
  · exact (kexdh_shared_secret_out env k pubkey pub s hB).2.2
  · exact (kexdh_session_id_out env k blob pub secret s hC).2.2.2
  · rw [hD]
    exact (kexdh_sign_and_reply_spec env k2 dh privkey blob pub secret hash).2.1

/-- C13. Session identifier immutability. For every environment and every context whose
session identifier is set: `input_kex_dh_init` returns (whenever `kex->dh` is not NULL),
and however it returns, with success or with any error and whatever hash it computed,
the session identifier and its length are the same after the call as before. -/
theorem C13_session_id_immutable (env : kex_env) (k : kex) (sid : List u_char)
    (hsid : k.session_id = some sid) :
    (k.dh ≠ none → ∃ res, input_kex_dh_init env k = .ret res) ∧
    (∀ res, input_kex_dh_init env k = .ret res →
      res.kex.session_id = some sid ∧ res.kex.session_id_len = k.session_id_len) := by
  refine ⟨input_kex_dh_init_returns env k, ?_⟩
  intro res h
  obtain ⟨s, hb, rfl⟩ := input_kex_dh_init_ret env k res h
  have hk := kexdh_body_keeps_context env k s hb (by rw [hsid]; simp)
  simp only [kexdh_out, hk]
  exact ⟨hsid, trivial⟩

/-- C13, at the stand-in context with the session identifier 1, 2, 3 and a valid public
value: the exchange succeeds and the session identifier is still 1, 2, 3. -/
theorem C13_session_id_immutable_witness :
    ∃ res, input_kex_dh_init (example_kex_env (.ok 19)) (example_kex (some [1, 2, 3]))
        = .ret res ∧
      res.r = .ok () ∧ res.kex.session_id = some [1, 2, 3] ∧ res.kex.session_id_len = 3 :=
  ⟨_, rfl, by decide,
    ((C13_session_id_immutable (example_kex_env (.ok 19)) (example_kex (some [1, 2, 3]))
      [1, 2, 3] rfl).2 _ rfl).1,
    ((C13_session_id_immutable (example_kex_env (.ok 19)) (example_kex (some [1, 2, 3]))
      [1, 2, 3] rfl).2 _ rfl).2⟩

/-- What the code at `out` adds to the log: `DH_free` and the release of the locals that
are set; none of it is a step of the exchange, a signature or the creation of a local. -/
theorem kexdh_out_log (s : kexdh_state) :
    ∃ tail, (kexdh_out s).log = s.log ++ kex_event.DH_free :: tail ∧
      (∀ ev ∈ kex_event.DH_free :: tail, is_exchange_step ev = false ∧
        (∀ d, ev ≠ kex_event.sshkey_sign d) ∧ (∀ v, ev ≠ kex_event.created v)) ∧
      (s.locals.dh_client_pub = true → kex_event.cleared kexdh_var.dh_client_pub ∈ tail) ∧
      (s.locals.kbuf = true → kex_event.cleared kexdh_var.kbuf ∈ tail) ∧
      (s.locals.shared_secret = true → kex_event.cleared kexdh_var.shared_secret ∈ tail) ∧
      (s.locals.server_host_key_blob = true →
        kex_event.freed kexdh_var.server_host_key_blob ∈ tail) ∧
      (s.locals.signature = true → kex_event.freed kexdh_var.signature ∈ tail) := by
  refine ⟨(if s.locals.dh_client_pub then [kex_event.cleared kexdh_var.dh_client_pub] else []) ++
      (if s.locals.kbuf then [kex_event.cleared kexdh_var.kbuf] else []) ++
      (if s.locals.shared_secret then [kex_event.cleared kexdh_var.shared_secret] else []) ++
      (if s.locals.server_host_key_blob then
        [kex_event.freed kexdh_var.server_host_key_blob] else []) ++
      (if s.locals.signature then [kex_event.freed kexdh_var.signature] else []), ?_, ?_, ?_⟩
  · simp [kexdh_out]
  · cases h1 : s.locals.dh_client_pub <;> cases h2 : s.locals.kbuf <;>
      cases h3 : s.locals.shared_secret <;> cases h4 : s.locals.server_host_key_blob <;>
      cases h5 : s.locals.signature <;> simp [is_exchange_step]
  · cases h1 : s.locals.dh_client_pub <;> cases h2 : s.locals.kbuf <;>
      cases h3 : s.locals.shared_secret <;> cases h4 : s.locals.server_host_key_blob <;>
      cases h5 : s.locals.signature <;> simp

/-- Nothing is signed before line 178. -/
theorem kexdh_shared_secret_out_unsigned (env : kex_env) (k : kex) (pubkey : sshkey)
    (pub : BIGNUM) (s : kexdh_state)
    (h : kexdh_shared_secret env k pubkey pub = .goto_out s) :
    ∀ d, kex_event.sshkey_sign d ∉ s.log := by
  unfold kexdh_shared_secret at h
  repeat' split at h
  all_goals first
    | (cases h; done)
    | (simp only [kexdh_step.goto_out.injEq] at h
       subst h
       simp)

theorem kexdh_session_id_out_unsigned (env : kex_env) (k : kex) (blob : List u_char)
    (pub secret : BIGNUM) (s : kexdh_state)
    (h : kexdh_session_id env k blob pub secret = .ret (.goto_out s)) :
    ∀ d, kex_event.sshkey_sign d ∉ s.log := by
  unfold kexdh_session_id at h
  repeat' split at h
  all_goals first
    | (cases h; done)
    | (simp only [outcome.ret.injEq, kexdh_step.goto_out.injEq] at h
       subst h
       simp [kexdh_log_hash])

/-- A run of the body in which something is signed, or which ends with success, has gone
through all four stretches. -/
theorem kexdh_body_signed (env : kex_env) (k : kex) (s : kexdh_state)
    (h : kexdh_body env k = .ret s)
    (hs : (∃ d, kex_event.sshkey_sign d ∈ s.log) ∨ s.r = .ok ()) :
    ∃ pubkey privkey pub secret blob dh k2 hash,
      kexdh_read_init env k = .next (pubkey, privkey, pub) ∧
      kexdh_shared_secret env k pubkey pub = .next (secret, blob) ∧
      kexdh_session_id env k blob pub secret = .ret (.next (dh, k2, hash)) ∧
      s = kexdh_sign_and_reply env k2 dh privkey blob pub secret hash := by
  rcases kexdh_body_cases env k s h with hA | ⟨pubkey, privkey, pub, hA, hB | ⟨secret, blob,
    hB, hC | ⟨dh, k2, hash, hC, hD⟩⟩⟩
  · exfalso
    have hA2 := kexdh_read_init_out env k s hA
    rcases hs with ⟨d, hd⟩ | hok
    · have := hA2.2.2.2 _ hd
      simp [is_exchange_step] at this
    · exact hA2.2.1 hok
  · exfalso
    rcases hs with ⟨d, hd⟩ | hok
    · exact kexdh_shared_secret_out_unsigned env k pubkey pub s hB d hd
    · exact (kexdh_shared_secret_out env k pubkey pub s hB).2.1 hok
  · exfalso
    rcases hs with ⟨d, hd⟩ | hok
    · exact kexdh_session_id_out_unsigned env k blob pub secret s hC d hd
    · exact (kexdh_session_id_out env k blob pub secret s hC).2.2.1 hok
  · exact ⟨pubkey, privkey, pub, secret, blob, dh, k2, hash, hA, hB, hC, hD⟩

/-- C14. First exchange. For every environment and every context with no session
identifier: if `input_kex_dh_init` returns success, then the session identifier
afterwards is the digest that `kex_dh_hash` returned in this call, for the arguments of
lines 155-162 (same bytes, and `session_id_len` is its length); `sshkey_sign` was called
on that digest and on nothing else; and the keys were derived from it. -/
theorem C14_first_exchange_session_id (env : kex_env) (k : kex) (res : kexdh_result)
    (hnone : k.session_id = none) (h : input_kex_dh_init env k = .ret res)
    (hok : res.r = .ok ()) :
    ∃ (hash blob : List u_char) (pub secret : BIGNUM) (dh : DH),
      k.dh = some dh ∧
      env.kex_dh_hash k.client_version_string k.server_version_string (sshbuf_ptr k.peer)
        (sshbuf_ptr k.my) blob pub dh.pub_key secret = .ok hash ∧
      res.kex.session_id = some hash ∧ res.kex.session_id_len = hash.length ∧
      kex_event.sshkey_sign hash ∈ res.log ∧
      (∀ data, kex_event.sshkey_sign data ∈ res.log → data = hash) ∧
      kex_event.kex_derive_keys hash secret ∈ res.log := by
  obtain ⟨s, hb, rfl⟩ := input_kex_dh_init_ret env k res h
  have hok2 : s.r = .ok () := hok
  obtain ⟨pubkey, privkey, pub, secret, blob, dh, k2, hash, _, _, hC, hD⟩ :=
    kexdh_body_signed env k s hb (Or.inr hok2)
  obtain ⟨hdh, hhash, _, hset, _⟩ := kexdh_session_id_next env k blob pub secret dh k2 hash hC
  obtain ⟨hkex, _, hsig, honly, hder⟩ :=
    kexdh_sign_and_reply_spec env k2 dh privkey blob pub secret hash
  rw [← hD] at hkex hsig honly hder
  obtain ⟨tail, hlog, htail, _⟩ := kexdh_out_log s
  refine ⟨hash, blob, pub, secret, dh, hdh, hhash, ?_, ?_, ?_, ?_, ?_⟩
  · simp only [kexdh_out, hkex]
    exact (hset hnone).1
  · simp only [kexdh_out, hkex]
    exact (hset hnone).2
  · rw [hlog]
    exact List.mem_append_left _ hsig
  · intro data hd
    rw [hlog, List.mem_append] at hd
    cases hd with
    | inl hl => exact honly data hl
    | inr hr => exact absurd rfl ((htail _ hr).2.1 data)
  · rw [hlog]
    exact List.mem_append_left _ (hder hok2)

/-- C14, at the stand-in context with no session identifier and a valid public value:
the exchange succeeds, and the session identifier is the 16-byte digest that was
signed. -/
theorem C14_first_exchange_session_id_witness :
    ∃ res, input_kex_dh_init (example_kex_env (.ok 19)) (example_kex none) = .ret res ∧
      res.r = .ok () ∧
      ∃ hash : List u_char, res.kex.session_id = some hash ∧
        res.kex.session_id_len = hash.length ∧ hash.length = 16 ∧
        kex_event.sshkey_sign hash ∈ res.log :=
  ⟨_, rfl, by decide, by
    obtain ⟨hash, _, _, _, _, _, _, h1, h2, h3, _, _⟩ :=
      C14_first_exchange_session_id (example_kex_env (.ok 19)) (example_kex none) _
        rfl rfl (by decide)
    refine ⟨hash, h1, h2, ?_, h3⟩
    have e : some hash = some (toy_digest [67, 49, 83, 49, 20, 3, 4, 20, 1, 2, 17, 12, 161,
        19, 8, 2]) := by
      rw [← h1]
      decide
    rw [Option.some.inj e]
    decide⟩

/-- C15. Invalid public value. For every environment and context: when the public value
decoded from the incoming message fails `dh_pub_is_valid`, `input_kex_dh_init` returns,
with an error; the session identifier and its length are as before; and no step of the
exchange has taken place: no shared secret was created or computed, nothing was signed,
no reply was built or sent, no keys were derived. (Once the host keys are loaded and the
message is read, the error is `SSH_ERR_MESSAGE_INCOMPLETE` and what is sent is the
disconnect message of line 131.) -/
theorem C15_invalid_public_value_rejected (env : kex_env) (k : kex) (pub : BIGNUM)
    (hdec : env.sshpkt_get_bignum2 = .ok pub)
    (hinv : env.dh_pub_is_valid k.dh pub = false) :
    ∃ res, input_kex_dh_init env k = .ret res ∧
      res.r ≠ .ok () ∧
      res.kex.session_id = k.session_id ∧ res.kex.session_id_len = k.session_id_len ∧
      (∀ ev ∈ res.log, is_exchange_step ev = false) ∧
      ((∃ f g pubkey privkey, k.load_host_public_key = some f ∧
          k.load_host_private_key = some g ∧ f k.hostkey_type = some pubkey ∧
          g k.hostkey_type = some privkey) →
        env.BN_new_dh_client_pub = true → env.sshpkt_get_end = none →
        res.r = .error SSH_ERR_MESSAGE_INCOMPLETE ∧
        kex_event.sshpkt_disconnect "bad client public DH value" ∈ res.log) := by
  cases hA : kexdh_read_init env k with
  | next a =>
    obtain ⟨pubkey, privkey, p⟩ := a
    obtain ⟨h1, h2⟩ := kexdh_read_init_next env k pubkey privkey p hA
    rw [hdec] at h1
    simp only [Except.ok.injEq] at h1
    subst h1
    rw [hinv] at h2
    cases h2
  | goto_out s =>
    have hbody : kexdh_body env k = .ret s := by
      unfold kexdh_body
      rw [hA]
    have hres : input_kex_dh_init env k = .ret (kexdh_out s) := by
      unfold input_kex_dh_init
      rw [hbody]
    obtain ⟨hk, hr, _, hsteps⟩ := kexdh_read_init_out env k s hA
    obtain ⟨tail, hlog, htail, _⟩ := kexdh_out_log s
    refine ⟨kexdh_out s, hres, hr, ?_, ?_, ?_, ?_⟩
    · simp only [kexdh_out, hk]
    · simp only [kexdh_out, hk]
    · intro ev hev
      rw [hlog, List.mem_append] at hev
      cases hev with
      | inl hl => exact hsteps ev hl
      | inr hr2 => exact (htail ev hr2).1
    · rintro ⟨f, g, pubkey, privkey, hf, hg, hfp, hgp⟩ hbn hend
      have hs : s =
          { r := .error SSH_ERR_MESSAGE_INCOMPLETE, kex := k,
            locals := { dh_client_pub := true },
            log := [kex_event.created kexdh_var.dh_client_pub,
              kex_event.sshpkt_disconnect "bad client public DH value"] } := by
        unfold kexdh_read_init at hA
        simp only [hf, hg, hfp, hgp, hbn, hdec, hend, hinv, Bool.not_true, Bool.not_false,
          Bool.false_eq_true, if_false, if_true, kexdh_step.goto_out.injEq] at hA
        exact hA.symm
      rw [hlog, hs]
      exact ⟨rfl, by simp⟩

/-- C15, at the stand-in context and the public value 22, which is `p - 1`: the handler
returns `SSH_ERR_MESSAGE_INCOMPLETE`, the session identifier is still unset, and the log
holds nothing but the creation and clearing of `dh_client_pub`, the disconnect message
and `DH_free`. -/
theorem C15_invalid_public_value_rejected_witness :
    (example_kex_env (.ok 22)).dh_pub_is_valid (example_kex none).dh 22 = false ∧
    ∃ res, input_kex_dh_init (example_kex_env (.ok 22)) (example_kex none) = .ret res ∧
      res.r = .error SSH_ERR_MESSAGE_INCOMPLETE ∧ res.kex.session_id = none ∧
      res.log = [kex_event.created kexdh_var.dh_client_pub,
        kex_event.sshpkt_disconnect "bad client public DH value", kex_event.DH_free,
        kex_event.cleared kexdh_var.dh_client_pub] :=
  ⟨by decide, by
    obtain ⟨res, h, _, hs, _, _, _⟩ :=
      C15_invalid_public_value_rejected (example_kex_env (.ok 22)) (example_kex none) 22
        rfl (by decide)
    have h2 : input_kex_dh_init (example_kex_env (.ok 22)) (example_kex none)
        = .ret (kexdh_out
            { r := .error SSH_ERR_MESSAGE_INCOMPLETE, kex := example_kex none,
              locals := { dh_client_pub := true },
              log := [kex_event.created kexdh_var.dh_client_pub,
                kex_event.sshpkt_disconnect "bad client public DH value"] }) := rfl
    rw [h2] at h
    have e := (outcome.ret.inj h).symm
    exact ⟨res, h, by rw [e]; rfl, hs, by rw [e]; rfl⟩⟩

/-- C16. Scratch state. For every environment and context, `input_kex_dh_init` returns
whenever `kex->dh` is not NULL, and on every return, success or any error: `kex->dh` is
NULL afterwards; the log is what the body did, then `DH_free(kex->dh)`, then the release
of the locals; a peer public value, a shared secret or a buffer `kbuf` created in the body
is cleared there (`BN_clear_free`, or `bzero` and `free`), a host key blob or a signature
created in the body is freed there; and nothing is created after `DH_free`. -/
theorem C16_scratch_state_destroyed (env : kex_env) (k : kex) :
    (k.dh ≠ none → ∃ res, input_kex_dh_init env k = .ret res) ∧
    (∀ res, input_kex_dh_init env k = .ret res →
      res.kex.dh = none ∧
      ∃ body tail, res.log = body ++ kex_event.DH_free :: tail ∧
        (kex_event.created kexdh_var.dh_client_pub ∈ body →
          kex_event.cleared kexdh_var.dh_client_pub ∈ tail) ∧
        (kex_event.created kexdh_var.shared_secret ∈ body →
          kex_event.cleared kexdh_var.shared_secret ∈ tail) ∧
        (kex_event.created kexdh_var.kbuf ∈ body →
          kex_event.cleared kexdh_var.kbuf ∈ tail) ∧
        (kex_event.created kexdh_var.server_host_key_blob ∈ body →
          kex_event.freed kexdh_var.server_host_key_blob ∈ tail) ∧
        (kex_event.created kexdh_var.signature ∈ body →
          kex_event.freed kexdh_var.signature ∈ tail) ∧
        (∀ v, kex_event.created v ∉ kex_event.DH_free :: tail)) := by
  refine ⟨input_kex_dh_init_returns env k, ?_⟩
  intro res h
  obtain ⟨s, hb, rfl⟩ := input_kex_dh_init_ret env k res h
  obtain ⟨m1, m2, m3, m4, m5⟩ := kexdh_body_locals env k s hb
  obtain ⟨tail, hlog, htail, t1, t2, t3, t4, t5⟩ := kexdh_out_log s
  refine ⟨rfl, s.log, tail, hlog, ?_, ?_, ?_, ?_, ?_, ?_⟩
  · exact fun hc => t1 (m1.mpr hc)
  · exact fun hc => t3 (m3.mpr hc)
  · exact fun hc => t2 (m2.mpr hc)
  · exact fun hc => t4 (m4.mpr hc)
  · exact fun hc => t5 (m5.mpr hc)
  · exact fun v hv => (htail _ hv).2.2 v rfl

/-- C16, at the stand-in context: after a decode error (only `dh_client_pub` exists) and
after a successful exchange, `kex->dh` is NULL and the log ends with `DH_free` and the
release of what was created. -/
theorem C16_scratch_state_destroyed_witness :
    (∃ res, input_kex_dh_init (example_kex_env (.error SSH_ERR_INVALID_FORMAT))
        (example_kex none) = .ret res ∧
      res.kex.dh = none ∧
      res.log = [kex_event.created kexdh_var.dh_client_pub, kex_event.DH_free,
        kex_event.cleared kexdh_var.dh_client_pub]) ∧
    (∃ res, input_kex_dh_init (example_kex_env (.ok 19)) (example_kex none) = .ret res ∧
      res.kex.dh = none ∧
      res.log.drop 14 = [kex_event.DH_free, kex_event.cleared kexdh_var.dh_client_pub,
        kex_event.cleared kexdh_var.kbuf, kex_event.cleared kexdh_var.shared_secret,
        kex_event.freed kexdh_var.server_host_key_blob,
        kex_event.freed kexdh_var.signature]) :=
  ⟨⟨_, rfl,
    ((C16_scratch_state_destroyed (example_kex_env (.error SSH_ERR_INVALID_FORMAT))
      (example_kex none)).2 _ rfl).1, by decide⟩,
   ⟨_, rfl,
    ((C16_scratch_state_destroyed (example_kex_env (.ok 19)) (example_kex none)).2 _ rfl).1,
    by decide⟩⟩

/-- C17. Order of the transcript. Let `kex_dh_hash` be the function of the specification,
over any hash function `Hash` and any encoding `enc` of numbers. Whenever
`input_kex_dh_init` returns and has called `sshkey_sign` on some data, that data is
`Hash` of the concatenation of, in this order: the client version string, the server
version string, the peer's (client's) proposal blob, its own (the server's) proposal blob,
the blob of the public host key, the peer's public value as decoded from the message, the
server's public value `kex->dh->pub_key`, and the shared secret made from what
`DH_compute_key` gave; when the context had no session identifier the session identifier
is that same data; and on success the keys are derived from it. -/
theorem C17_transcript_order (env : kex_env) (k : kex) (res : kexdh_result)
    (Hash : List u_char → List u_char) (enc : BIGNUM → List u_char) (data : List u_char)
    (hhash : env.kex_dh_hash = kex_dh_hash Hash enc)
    (h : input_kex_dh_init env k = .ret res)
    (hs : kex_event.sshkey_sign data ∈ res.log) :
    ∃ (pubkey : sshkey) (blob kbuf : List u_char) (pub secret : BIGNUM) (dh : DH),
      (∃ f, k.load_host_public_key = some f ∧ f k.hostkey_type = some pubkey) ∧
      env.sshkey_to_blob pubkey = .ok blob ∧
      env.sshpkt_get_bignum2 = .ok pub ∧ k.dh = some dh ∧
      env.DH_compute_key pub k.dh = some kbuf ∧ env.BN_bin2bn kbuf = some secret ∧
      data = Hash (k.client_version_string ++ k.server_version_string ++
        sshbuf_ptr k.peer ++ sshbuf_ptr k.my ++ blob ++
        enc pub ++ enc dh.pub_key ++ enc secret) ∧
      (k.session_id = none → res.kex.session_id = some data) ∧
      (res.r = .ok () → kex_event.kex_derive_keys data secret ∈ res.log) := by
  obtain ⟨s, hb, rfl⟩ := input_kex_dh_init_ret env k res h
  obtain ⟨tail, hlog, htail, _⟩ := kexdh_out_log s
  have hs2 : kex_event.sshkey_sign data ∈ s.log := by
    rw [hlog, List.mem_append] at hs
    cases hs with
    | inl hl => exact hl
    | inr hr => exact absurd rfl ((htail _ hr).2.1 data)
  obtain ⟨pubkey, privkey, pub, secret, blob, dh, k2, hash, hA, hB, hC, hD⟩ :=
    kexdh_body_signed env k s hb (Or.inl ⟨data, hs2⟩)
  obtain ⟨hdec, _⟩ := kexdh_read_init_next env k pubkey privkey pub hA
  obtain ⟨hload, _⟩ := kexdh_read_init_keys env k pubkey privkey pub hA
  obtain ⟨⟨kbuf, hkbuf, hbn⟩, hblob⟩ := kexdh_shared_secret_next env k pubkey pub secret blob hB
  obtain ⟨hdh, hh, _, hset, _⟩ := kexdh_session_id_next env k blob pub secret dh k2 hash hC
  obtain ⟨hkex, _, _, honly, hder⟩ :=
    kexdh_sign_and_reply_spec env k2 dh privkey blob pub secret hash
  rw [← hD] at hkex honly hder
  have hdata : data = hash := honly data hs2
  rw [hhash, kex_dh_hash] at hh
  simp only [Except.ok.injEq] at hh
  refine ⟨pubkey, blob, kbuf, pub, secret, dh, hload, hblob, hdec, hdh, hkbuf, hbn, ?_, ?_, ?_⟩
  · rw [hdata, ← hh]
  · intro hnone
    simp only [kexdh_out, hkex]
    rw [hdata]
    exact (hset hnone).1
  · intro hok
    rw [hlog, hdata]
    exact List.mem_append_left _ (hder hok)

/-- C17, at the stand-in context (version strings `C1` and `S1`, peer proposal 20, 3, 4,
own proposal 20, 1, 2, host key blob 17, 12, 161, public values 19 and 8, shared secret
2): the data signed is the digest of the fields in this order, and it is the session
identifier. -/
theorem C17_transcript_order_witness :
    ∃ res, input_kex_dh_init (example_kex_env (.ok 19)) (example_kex none) = .ret res ∧
      kex_event.sshkey_sign (toy_digest ([67, 49] ++ [83, 49] ++ [20, 3, 4] ++ [20, 1, 2] ++
        [17, 12, 161] ++ BN_bn2bin 19 ++ BN_bn2bin 8 ++ BN_bn2bin 2)) ∈ res.log ∧
      res.kex.session_id = some (toy_digest ([67, 49] ++ [83, 49] ++ [20, 3, 4] ++
        [20, 1, 2] ++ [17, 12, 161] ++ BN_bn2bin 19 ++ BN_bn2bin 8 ++ BN_bn2bin 2)) :=
  ⟨_, rfl, by decide, by
    obtain ⟨_, _, _, _, _, _, _, _, _, _, _, _, _, hsid, _⟩ :=
      C17_transcript_order (example_kex_env (.ok 19)) (example_kex none) _ toy_digest
        BN_bn2bin (toy_digest ([67, 49] ++ [83, 49] ++ [20, 3, 4] ++ [20, 1, 2] ++
          [17, 12, 161] ++ BN_bn2bin 19 ++ BN_bn2bin 8 ++ BN_bn2bin 2))
        rfl rfl (by decide)
    exact hsid rfl⟩

/-! ## The challenge drawn for a key -/

/-- C21. For every key with modulus `n > 0` and every value `v` drawn by the random
source with `0 ≤ v < 2^256`: when the two allocations succeed,
`auth_rsa_generate_challenge` returns, and what it returns is `v` reduced modulo `n`;
whatever the allocations do, a challenge that is returned is `v mod n`, so it is at least
0, below `n` and below `2^256`, and the drawing of `v` is the only effect. -/
theorem C21_challenge_reduced (env : auth_env) (key : sshkey) (v : BIGNUM)
    (hn : 0 < key.rsa.n) (hv : env.BN_rand = some v) (h0 : 0 ≤ v) (h256 : v < 2 ^ 256) :
    (env.BN_new_challenge = true → env.BN_CTX_new = true →
      auth_rsa_generate_challenge env key
        = ([auth_event.BN_rand v], .ret (v % key.rsa.n))) ∧
    (∀ c, (auth_rsa_generate_challenge env key).2 = .ret c →
      c = v % key.rsa.n ∧ 0 ≤ c ∧ c < key.rsa.n ∧ c < 2 ^ 256 ∧
      (auth_rsa_generate_challenge env key).1 = [auth_event.BN_rand v]) := by
  have hne : key.rsa.n ≠ 0 := ne_of_gt hn
  have ht : Int.tmod v key.rsa.n = v % key.rsa.n := Int.tmod_eq_emod h0 (le_of_lt hn)
  have hlo : 0 ≤ v % key.rsa.n := Int.emod_nonneg v hne
  have hhi : v % key.rsa.n < key.rsa.n := Int.emod_lt_of_pos v hn
  have hle : v % key.rsa.n ≤ v := by
    by_cases hlt : v < key.rsa.n
    · rw [Int.emod_eq_of_lt h0 hlt]
    · exact le_of_lt (lt_of_lt_of_le hhi (not_lt.mp hlt))
  constructor
  · intro ha hc
    simp [auth_rsa_generate_challenge, ha, hv, hc, hne, ht]
  · intro c hc
    unfold auth_rsa_generate_challenge at hc ⊢
    rw [hv] at hc ⊢
    by_cases ha : env.BN_new_challenge = true
    · by_cases hx : env.BN_CTX_new = true
      · simp only [ha, hx, hne, ht, Bool.not_true, Bool.false_eq_true, if_false,
          outcome.ret.injEq] at hc ⊢
        subst hc
        exact ⟨rfl, hlo, hhi, lt_of_le_of_lt hle h256, trivial⟩
      · simp [ha, hx] at hc
    · simp [ha] at hc

/-- C21, at the modulus 255 and the drawn value 1003, whose remainder is 238. -/
theorem C21_challenge_reduced_witness :
    auth_rsa_generate_challenge (example_env example_files 1003 (List.replicate 16 0))
        { rsa := { n := 255, e := 7 } }
      = ([auth_event.BN_rand 1003], .ret 238) :=
  (C21_challenge_reduced (example_env example_files 1003 (List.replicate 16 0))
    { rsa := { n := 255, e := 7 } } 1003 (by decide) rfl (by decide)
    (by set_option maxRecDepth 100000 in decide)).1 rfl rfl

/-! ## Failed decodes, internal errors and the two string decoders -/

/-- A buffer holds a whole string or it does not; in the second case the length tests of
the string decoders fail. -/
theorem string_whole_or_short (buf : sshbuf) :
    (4 ≤ sshbuf_len buf ∧ PEEK_U32 (sshbuf_ptr buf) ≤ sshbuf_len buf - 4) ∨
    (sshbuf_len buf < 4 ∨ sshbuf_len buf - 4 < PEEK_U32 (sshbuf_ptr buf)) := by
  omega

/-- What `sshbuf_get_string` returns on a buffer that holds a whole string, for any
allocator and any output pointer. -/
theorem sshbuf_get_string_whole_any (malloc : Nat → Bool) (buf : sshbuf) (valp : Bool)
    (h4 : 4 ≤ sshbuf_len buf) (hL : PEEK_U32 (sshbuf_ptr buf) ≤ sshbuf_len buf - 4) :
    sshbuf_get_string malloc buf valp =
      if valp then
        if malloc (PEEK_U32 (sshbuf_ptr buf) + 1) then
          (.ok (some (((sshbuf_ptr buf).drop 4).take (PEEK_U32 (sshbuf_ptr buf)) ++ [0]),
            PEEK_U32 (sshbuf_ptr buf)),
           { buf with off := buf.off + (PEEK_U32 (sshbuf_ptr buf) + 4) })
        else (.error SSH_ERR_ALLOC_FAIL,
           { buf with off := buf.off + (PEEK_U32 (sshbuf_ptr buf) + 4) })
      else (.ok (none, PEEK_U32 (sshbuf_ptr buf)),
           { buf with off := buf.off + (PEEK_U32 (sshbuf_ptr buf) + 4) }) := by
  simp only [sshbuf_get_string, sshbuf_get_string_direct_whole buf h4 hL, List.take_take,
    Nat.min_self]

/-- C22. Failed decodes are atomic. For every buffer, every allocator and either output
pointer: if `sshbuf_get_u8`, `sshbuf_get_u16`, `sshbuf_get_u32`, `sshbuf_get_u64`,
`sshbuf_get_string_direct`, `sshbuf_get_string` or `sshbuf_get_cstring` returns
`SSH_ERR_MESSAGE_INCOMPLETE` or `SSH_ERR_INVALID_FORMAT`, the buffer after the call is
the buffer before the call, so the offset has not moved and the unread content is the
same, length field included. -/
theorem C22_failed_decode_atomic (malloc : Nat → Bool) (buf : sshbuf) (valp : Bool)
    (e : ssh_err) (he : e = SSH_ERR_MESSAGE_INCOMPLETE ∨ e = SSH_ERR_INVALID_FORMAT) :
    ((sshbuf_get_u8 buf).1 = .error e →
      (sshbuf_get_u8 buf).2 = buf ∧ sshbuf_ptr (sshbuf_get_u8 buf).2 = sshbuf_ptr buf) ∧
    ((sshbuf_get_u16 buf).1 = .error e →
      (sshbuf_get_u16 buf).2 = buf ∧ sshbuf_ptr (sshbuf_get_u16 buf).2 = sshbuf_ptr buf) ∧
    ((sshbuf_get_u32 buf).1 = .error e →
      (sshbuf_get_u32 buf).2 = buf ∧ sshbuf_ptr (sshbuf_get_u32 buf).2 = sshbuf_ptr buf) ∧
    ((sshbuf_get_u64 buf).1 = .error e →
      (sshbuf_get_u64 buf).2 = buf ∧ sshbuf_ptr (sshbuf_get_u64 buf).2 = sshbuf_ptr buf) ∧
    ((sshbuf_get_string_direct buf).1 = .error e →
      (sshbuf_get_string_direct buf).2 = buf ∧
      sshbuf_ptr (sshbuf_get_string_direct buf).2 = sshbuf_ptr buf) ∧
    ((sshbuf_get_string malloc buf valp).1 = .error e →
      (sshbuf_get_string malloc buf valp).2 = buf ∧
      sshbuf_ptr (sshbuf_get_string malloc buf valp).2 = sshbuf_ptr buf) ∧
    ((sshbuf_get_cstring malloc buf valp).1 = .error e →
      (sshbuf_get_cstring malloc buf valp).2 = buf ∧
      sshbuf_ptr (sshbuf_get_cstring malloc buf valp).2 = sshbuf_ptr buf) := by
  have same : ∀ b : sshbuf, b = buf → b = buf ∧ sshbuf_ptr b = sshbuf_ptr buf :=
    fun b hb => ⟨hb, by rw [hb]⟩
  refine ⟨?_, ?_, ?_, ?_, ?_, ?_, ?_⟩
  · intro h
    apply same
    by_cases hs : sshbuf_len buf < 1
    · rw [sshbuf_get_u8_short buf hs]
    · rw [sshbuf_get_u8_enough buf (by omega)] at h
      cases h
  · intro h
    apply same
    by_cases hs : sshbuf_len buf < 2
    · rw [sshbuf_get_u16_short buf hs]
    · rw [sshbuf_get_u16_enough buf (by omega)] at h
      cases h
  · intro h
    apply same
    by_cases hs : sshbuf_len buf < 4
    · rw [sshbuf_get_u32_short buf hs]
    · rw [sshbuf_get_u32_enough buf (by omega)] at h
      cases h
  · intro h
    apply same
    by_cases hs : sshbuf_len buf < 8
    · rw [sshbuf_get_u64_short buf hs]
    · rw [sshbuf_get_u64_enough buf (by omega)] at h
      cases h
  · intro h
    apply same
    rcases string_whole_or_short buf with ⟨h4, hL⟩ | hs
    · rw [sshbuf_get_string_direct_whole buf h4 hL] at h
      cases h
    · rw [sshbuf_get_string_direct_short buf hs]
  · intro h
    apply same
    rcases string_whole_or_short buf with ⟨h4, hL⟩ | hs
    · rw [sshbuf_get_string_whole_any malloc buf valp h4 hL] at h
      split at h
      · split at h
        · cases h
        · simp only [Except.error.injEq] at h
          subst h
          rcases he with he | he <;> cases he
      · cases h
    · rw [sshbuf_get_string_short malloc buf valp hs]
  · intro h
    apply same
    rcases string_whole_or_short buf with ⟨h4, hL⟩ | hs
    · rw [sshbuf_get_cstring_whole malloc buf valp h4 hL] at h ⊢
      split
      · rfl
      · rename_i hz
        rw [if_neg hz] at h
        split at h
        · split at h
          · cases h
          · simp only [Except.error.injEq] at h
            subst h
            rcases he with he | he <;> cases he
        · cases h
    · rw [sshbuf_get_cstring_short malloc buf valp hs]

/-- C22, at a two-byte buffer read as a 32-bit number, at a string whose last byte is
missing, and at a string with a zero byte in the middle: the buffer comes back as it
was. -/
theorem C22_failed_decode_atomic_witness :
    (sshbuf_get_u32 { d := [9, 1, 2], off := 1 }).2 = { d := [9, 1, 2], off := 1 } ∧
    (sshbuf_get_string (fun _ => true) { d := [0, 0, 0, 3, 97, 98], off := 0 } true).2
      = { d := [0, 0, 0, 3, 97, 98], off := 0 } ∧
    sshbuf_ptr (sshbuf_get_cstring (fun _ => true)
        { d := [0, 0, 0, 3, 97, 0, 98], off := 0 } true).2
      = [0, 0, 0, 3, 97, 0, 98] :=
  ⟨((C22_failed_decode_atomic (fun _ => true) { d := [9, 1, 2], off := 1 } true
      SSH_ERR_MESSAGE_INCOMPLETE (Or.inl rfl)).2.2.1 (by decide)).1,
   ((C22_failed_decode_atomic (fun _ => true) { d := [0, 0, 0, 3, 97, 98], off := 0 } true
      SSH_ERR_MESSAGE_INCOMPLETE (Or.inl rfl)).2.2.2.2.2.1 (by decide)).1,
   ((C22_failed_decode_atomic (fun _ => true) { d := [0, 0, 0, 3, 97, 0, 98], off := 0 } true
      SSH_ERR_INVALID_FORMAT (Or.inr rfl)).2.2.2.2.2.2 (by decide)).2⟩

/-- `sshbuf_consume` succeeds when asked for no more than the unread bytes. -/
theorem sshbuf_consume_ok (buf : sshbuf) (n : Nat) (h : n ≤ sshbuf_len buf) :
    sshbuf_consume buf n = (.ok (), { buf with off := buf.off + n }) := by
  unfold sshbuf_consume
  rw [if_neg (by omega)]

/-- C23. The internal-error branches of the string decoders are not reachable. For every
buffer: whenever `sshbuf_peek_string_direct` succeeds with length `L`, the call
`sshbuf_consume(L + 4)` that follows it in `sshbuf_get_string_direct` succeeds, so
neither `sshbuf_get_string_direct` nor `sshbuf_get_string` returns
`SSH_ERR_INTERNAL_ERROR`; and whenever the two length tests of `sshbuf_get_cstring` pass,
its `sshbuf_consume(4 + L)` succeeds, so `sshbuf_get_cstring` returns no bare number, in
particular not -1. -/
theorem C23_internal_error_unreachable (malloc : Nat → Bool) (buf : sshbuf) (valp : Bool) :
    (∀ p L b, sshbuf_peek_string_direct buf = (.ok (p, L), b) →
      (sshbuf_consume b (size_t (L + 4))).1 = .ok ()) ∧
    (sshbuf_get_string_direct buf).1 ≠ .error SSH_ERR_INTERNAL_ERROR ∧
    (sshbuf_get_string malloc buf valp).1 ≠ .error SSH_ERR_INTERNAL_ERROR ∧
    (¬ sshbuf_len buf < 4 → ¬ sshbuf_len buf < size_t (PEEK_U32 (sshbuf_ptr buf) + 4) →
      (sshbuf_consume buf (size_t (4 + PEEK_U32 (sshbuf_ptr buf)))).1 = .ok ()) ∧
    (∀ code, (sshbuf_get_cstring malloc buf valp).1 ≠ .error (literal code)) := by
  refine ⟨?_, ?_, ?_, ?_, ?_⟩
  · intro p L b h
    rcases string_whole_or_short buf with ⟨h4, hL⟩ | hs
    · rw [sshbuf_peek_string_direct_whole buf h4 hL] at h
      simp only [Prod.mk.injEq, Except.ok.injEq] at h
      obtain ⟨⟨_, hLe⟩, hb⟩ := h
      subst hb
      subst hLe
      have hle : size_t (PEEK_U32 (sshbuf_ptr buf) + 4) ≤ sshbuf_len buf := by
        have := Nat.mod_le (PEEK_U32 (sshbuf_ptr buf) + 4) (2 ^ SIZE_T_BITS)
        unfold size_t
        omega
      rw [sshbuf_consume_ok buf _ hle]
    · rw [sshbuf_peek_string_direct_short buf hs] at h
      cases h
  · rcases string_whole_or_short buf with ⟨h4, hL⟩ | hs
    · rw [sshbuf_get_string_direct_whole buf h4 hL]
      exact fun h => by cases h
    · rw [sshbuf_get_string_direct_short buf hs]
      exact fun h => by cases h
  · rcases string_whole_or_short buf with ⟨h4, hL⟩ | hs
    · rw [sshbuf_get_string_whole_any malloc buf valp h4 hL]
      intro h
      split at h
      · split at h <;> cases h
      · cases h
    · rw [sshbuf_get_string_short malloc buf valp hs]
      exact fun h => by cases h
  · intro _ hL
    have hle : size_t (4 + PEEK_U32 (sshbuf_ptr buf)) ≤ sshbuf_len buf := by
      rw [Nat.add_comm]
      omega
    rw [sshbuf_consume_ok buf _ hle]
  · intro code
    rcases string_whole_or_short buf with ⟨h4, hL⟩ | hs
    · rw [sshbuf_get_cstring_whole malloc buf valp h4 hL]
      intro h
      split at h
      · cases h
      · split at h
        · split at h <;> cases h
        · cases h
    · rw [sshbuf_get_cstring_short malloc buf valp hs]
      exact fun h => by cases h

/-- C23, at the buffer holding the string "ab" and one more byte: the peek gives length
2, consuming 6 bytes succeeds, and neither decoder ends in its internal-error branch. -/
theorem C23_internal_error_unreachable_witness :
    (sshbuf_consume { d := [0, 0, 0, 2, 97, 98, 5], off := 0 } (size_t (2 + 4))).1 = .ok () ∧
    (sshbuf_get_string_direct { d := [0, 0, 0, 2, 97, 98, 5], off := 0 }).1
      ≠ .error SSH_ERR_INTERNAL_ERROR ∧
    (sshbuf_get_cstring (fun _ => true) { d := [0, 0, 0, 2, 97, 98, 5], off := 0 } true).1
      ≠ .error (literal (-1)) :=
  ⟨(C23_internal_error_unreachable (fun _ => true)
      { d := [0, 0, 0, 2, 97, 98, 5], off := 0 } true).1 [97, 98] 2 _ (by decide),
   (C23_internal_error_unreachable (fun _ => true)
      { d := [0, 0, 0, 2, 97, 98, 5], off := 0 } true).2.1,
   (C23_internal_error_unreachable (fun _ => true)
      { d := [0, 0, 0, 2, 97, 98, 5], off := 0 } true).2.2.2.2 (-1)⟩

/-- The test of line 176 of `sshbuf_get_cstring`, made on the address that `memchr`
returns, says that the payload has a zero byte before its last byte. -/
theorem memchr_test_eq_embedded_terminator (s : List u_char) (L : Nat)
    (hL : L ≤ s.length) :
    (memchr s 0 L).any (fun i => decide (4 + i < 4 + L - 1))
      = embedded_terminator (s.take L) := by
  have hd : (s.take L).dropLast = s.take (L - 1) := by
    rw [List.dropLast_eq_take, List.take_take, List.length_take, Nat.min_eq_left hL,
      Nat.min_eq_left (Nat.sub_le L 1)]
  unfold embedded_terminator
  rw [hd, Bool.eq_iff_iff]
  constructor
  · intro h
    cases hm : memchr s 0 L with
    | none => rw [hm] at h; cases h
    | some j =>
      rw [hm] at h
      have hj : j < L - 1 := by
        have := of_decide_eq_true h
        omega
      obtain ⟨_, hz⟩ := memchr_sound s 0 L j hm
      have hjs : j < s.length := by
        rcases Nat.lt_or_ge j s.length with h1 | h1
        · exact h1
        · rw [List.getElem?_eq_none h1] at hz
          cases hz
      rw [List.contains_iff_exists_mem_beq]
      have hjt : j < (s.take (L - 1)).length := by
        rw [List.length_take]
        omega
      have e : (s.take (L - 1))[j] = 0 := by
        rw [List.getElem_take]
        rw [List.getElem?_eq_getElem hjs] at hz
        exact Option.some.inj hz
      exact ⟨_, List.getElem_mem hjt, by rw [e]; rfl⟩
  · intro h
    rw [List.contains_iff_exists_mem_beq] at h
    obtain ⟨a, ha, hb⟩ := h
    have ha0 : a = 0 := (beq_iff_eq.mp hb).symm
    subst ha0
    obtain ⟨i, hi, hz⟩ := List.getElem_of_mem ha
    have hi2 : i < L - 1 := by
      rw [List.length_take] at hi
      omega
    have his : i < s.length := by omega
    have hz2 : s[i]? = some 0 := by
      rw [List.getElem?_eq_getElem his]
      rw [List.getElem_take] at hz
      rw [hz]
    obtain ⟨j, hj, hm⟩ := memchr_finds s 0 L i (by omega) hz2
    rw [hm]
    exact decide_eq_true (by omega)

/-- With a `size_t` of 33 bits or more, on a buffer too small to hold a string of
`2^32 - 1` bytes (so that the sum `len + 1` of line 183 does not wrap),
`sshbuf_get_cstring` is `sshbuf_get_string` restricted by the terminator rule: it does
what the specification's wording of it does; it succeeds exactly when `sshbuf_get_string`
succeeds and the payload has no zero byte before its last byte; when both succeed they
return the same bytes and the same length and leave the same buffer; it returns
`SSH_ERR_MESSAGE_INCOMPLETE` exactly when `sshbuf_get_string` does; and once four bytes
are there its bound test agrees with the one of `sshbuf_peek_string_direct`. -/
theorem sshbuf_get_cstring_bits_refines (bits : Nat) (malloc : Nat → Bool) (buf : sshbuf)
    (valp : Bool) (hb : 33 ≤ bits) (hsz : sshbuf_len buf < 2 ^ 32 + 3) :
    sshbuf_get_cstring_bits bits malloc buf valp = sshbuf_get_cstring_spec malloc buf valp ∧
    ((∃ v, (sshbuf_get_cstring_bits bits malloc buf valp).1 = .ok v) ↔
      ((∃ v, (sshbuf_get_string malloc buf valp).1 = .ok v) ∧
        embedded_terminator (string_payload buf) = false)) ∧
    (∀ v w, (sshbuf_get_cstring_bits bits malloc buf valp).1 = .ok v →
      (sshbuf_get_string malloc buf valp).1 = .ok w →
      v = w ∧
      (sshbuf_get_cstring_bits bits malloc buf valp).2
        = (sshbuf_get_string malloc buf valp).2 ∧
      sshbuf_ptr (sshbuf_get_cstring_bits bits malloc buf valp).2
        = sshbuf_ptr (sshbuf_get_string malloc buf valp).2) ∧
    ((sshbuf_get_cstring_bits bits malloc buf valp).1 = .error SSH_ERR_MESSAGE_INCOMPLETE ↔
      (sshbuf_get_string malloc buf valp).1 = .error SSH_ERR_MESSAGE_INCOMPLETE) ∧
    (¬ sshbuf_len buf < 4 →
      (sshbuf_len buf < (PEEK_U32 (sshbuf_ptr buf) + 4) % 2 ^ bits ↔
        sshbuf_len buf - 4 < PEEK_U32 (sshbuf_ptr buf))) := by
  have hlt := PEEK_U32_lt (sshbuf_ptr buf)
  have hbound : ¬ sshbuf_len buf < 4 →
      (sshbuf_len buf < (PEEK_U32 (sshbuf_ptr buf) + 4) % 2 ^ bits ↔
        sshbuf_len buf - 4 < PEEK_U32 (sshbuf_ptr buf)) := by
    intro h4
    have hp : 2 ^ 33 ≤ 2 ^ bits := Nat.pow_le_pow_right (by decide) hb
    rw [Nat.mod_eq_of_lt (by omega)]
    omega
  rcases string_whole_or_short buf with ⟨h4, hL⟩ | hshort
  · have hc := sshbuf_get_cstring_bits_whole bits hb malloc buf valp h4 hL
    have hg := sshbuf_get_string_whole_any malloc buf valp h4 hL
    have hp := sshbuf_peek_string_direct_whole buf h4 hL
    have hreq : u_int32_t (PEEK_U32 (sshbuf_ptr buf) + 1) = PEEK_U32 (sshbuf_ptr buf) + 1 := by
      unfold u_int32_t
      exact Nat.mod_eq_of_lt (by omega)
    have hlen : PEEK_U32 (sshbuf_ptr buf) ≤ ((sshbuf_ptr buf).drop 4).length := by
      rw [List.length_drop, sshbuf_ptr_length]
      exact hL
    have ht := memchr_test_eq_embedded_terminator ((sshbuf_ptr buf).drop 4)
      (PEEK_U32 (sshbuf_ptr buf)) hlen
    rw [ht, hreq] at hc
    have hoff : buf.off + (4 + PEEK_U32 (sshbuf_ptr buf))
        = buf.off + (PEEK_U32 (sshbuf_ptr buf) + 4) := by omega
    rw [hoff] at hc
    have hspec : sshbuf_get_cstring_spec malloc buf valp =
        if embedded_terminator (string_payload buf) then (.error SSH_ERR_INVALID_FORMAT, buf)
        else sshbuf_get_string malloc buf valp := by
      simp only [sshbuf_get_cstring_spec, hp, string_payload]
    change sshbuf_get_cstring_bits bits malloc buf valp =
      if embedded_terminator (string_payload buf) = true then _ else _ at hc
    rw [hspec, hc, hg]
    refine ⟨?_, ?_, ?_, ?_, hbound⟩ <;>
      cases he : embedded_terminator (string_payload buf) <;> cases valp <;>
      cases hm : malloc (PEEK_U32 (sshbuf_ptr buf) + 1) <;> simp
  · have hc := sshbuf_get_cstring_bits_short bits hb malloc buf valp hshort
    have hg := sshbuf_get_string_short malloc buf valp hshort
    have hp := sshbuf_peek_string_direct_short buf hshort
    have hspec : sshbuf_get_cstring_spec malloc buf valp
        = (.error SSH_ERR_MESSAGE_INCOMPLETE, buf) := by
      simp only [sshbuf_get_cstring_spec, hp]
    rw [hspec, hc, hg]
    refine ⟨?_, ?_, ?_, ?_, hbound⟩ <;> simp

/-- C24. The claim fails on a target whose `size_t` has 32 bits, through the sum
`(size_t)len + 4` of line 171. On the eight unread bytes `FF FF FF FC 01 02 03 04`
(declared length `0xFFFFFFFC`, four payload bytes present) the sum wraps to 0 and the
bound test passes, so `sshbuf_get_cstring` does not return `SSH_ERR_MESSAGE_INCOMPLETE`,
whatever the allocator and the output pointer; `memchr` is asked to search `0xFFFFFFFC`
bytes where four are unread, finds no zero byte among them, `sshbuf_consume` is asked for
`4 + 0xFFFFFFFC`, which wraps to 0 bytes, and with a null `valp` the call returns
success with length `0xFFFFFFFC`, the buffer as it was. `sshbuf_get_string` returns
`SSH_ERR_MESSAGE_INCOMPLETE` on this buffer, through the test `unread - 4 < L` of line
148, which has no sum and is the same at every width. With a `size_t` of 33 bits or more,
and a buffer too small to hold a string of `2^32 - 1` bytes, the claim holds in full. -/
theorem C24_cstring_bound_wraps_at_32_bits :
    ¬ (sshbuf_len { d := [255, 255, 255, 252, 1, 2, 3, 4], off := 0 }
        < (PEEK_U32 (sshbuf_ptr { d := [255, 255, 255, 252, 1, 2, 3, 4], off := 0 }) + 4)
            % 2 ^ 32) ∧
    sshbuf_len { d := [255, 255, 255, 252, 1, 2, 3, 4], off := 0 } - 4
      < PEEK_U32 (sshbuf_ptr { d := [255, 255, 255, 252, 1, 2, 3, 4], off := 0 }) ∧
    (∀ (malloc : Nat → Bool) (valp : Bool),
      (sshbuf_get_cstring_bits 32 malloc
        { d := [255, 255, 255, 252, 1, 2, 3, 4], off := 0 } valp).1
        ≠ .error SSH_ERR_MESSAGE_INCOMPLETE) ∧
    sshbuf_get_cstring_bits 32 (fun _ => true)
        { d := [255, 255, 255, 252, 1, 2, 3, 4], off := 0 } false
      = (.ok (none, 0xFFFFFFFC), { d := [255, 255, 255, 252, 1, 2, 3, 4], off := 0 }) ∧
    (∀ (malloc : Nat → Bool) (valp : Bool),
      sshbuf_get_string malloc { d := [255, 255, 255, 252, 1, 2, 3, 4], off := 0 } valp
        = (.error SSH_ERR_MESSAGE_INCOMPLETE,
            { d := [255, 255, 255, 252, 1, 2, 3, 4], off := 0 })) ∧
    (∀ (bits : Nat) (malloc : Nat → Bool) (buf : sshbuf) (valp : Bool),
      33 ≤ bits → sshbuf_len buf < 2 ^ 32 + 3 →
      sshbuf_get_cstring_bits bits malloc buf valp
        = sshbuf_get_cstring_spec malloc buf valp ∧
      ((∃ v, (sshbuf_get_cstring_bits bits malloc buf valp).1 = .ok v) ↔
        ((∃ v, (sshbuf_get_string malloc buf valp).1 = .ok v) ∧
          embedded_terminator (string_payload buf) = false)) ∧
      (∀ v w, (sshbuf_get_cstring_bits bits malloc buf valp).1 = .ok v →
        (sshbuf_get_string malloc buf valp).1 = .ok w →
        v = w ∧
        (sshbuf_get_cstring_bits bits malloc buf valp).2
          = (sshbuf_get_string malloc buf valp).2 ∧
        sshbuf_ptr (sshbuf_get_cstring_bits bits malloc buf valp).2
          = sshbuf_ptr (sshbuf_get_string malloc buf valp).2) ∧
      ((sshbuf_get_cstring_bits bits malloc buf valp).1
          = .error SSH_ERR_MESSAGE_INCOMPLETE ↔
        (sshbuf_get_string malloc buf valp).1 = .error SSH_ERR_MESSAGE_INCOMPLETE) ∧
      (¬ sshbuf_len buf < 4 →
        (sshbuf_len buf < (PEEK_U32 (sshbuf_ptr buf) + 4) % 2 ^ bits ↔
          sshbuf_len buf - 4 < PEEK_U32 (sshbuf_ptr buf)))) := by
  have hev : ∀ (malloc : Nat → Bool) (valp : Bool),
      sshbuf_get_cstring_bits 32 malloc { d := [255, 255, 255, 252, 1, 2, 3, 4], off := 0 } valp
        = if valp then
            if malloc 0xFFFFFFFD then
              (.ok (some [1, 2, 3, 4, 0], 0xFFFFFFFC),
                { d := [255, 255, 255, 252, 1, 2, 3, 4], off := 0 })
            else (.error SSH_ERR_ALLOC_FAIL,
                { d := [255, 255, 255, 252, 1, 2, 3, 4], off := 0 })
          else (.ok (none, 0xFFFFFFFC),
                { d := [255, 255, 255, 252, 1, 2, 3, 4], off := 0 }) := by
    intro malloc valp
    rfl
  refine ⟨by decide, by decide, ?_, by decide, ?_, ?_⟩
  · intro malloc valp
    rw [hev]
    cases valp
    · exact fun h => by cases h
    · cases hm : malloc 0xFFFFFFFD <;> exact fun h => by simp at h
  · intro malloc valp
    exact sshbuf_get_string_short malloc _ valp (Or.inr (by decide))
  · intro bits malloc buf valp hb hsz
    exact sshbuf_get_cstring_bits_refines bits malloc buf valp hb hsz

/-! ## The challenge length guard -/

/-- Only the challenge 0 needs no byte. -/
theorem BN_num_bytes_eq_zero_iff (c : BIGNUM) : BN_num_bytes c = 0 ↔ c = 0 := by
  have h := (num_bits_aux_spec c.natAbs c.natAbs (Nat.le_refl _)).1
  constructor
  · intro hb
    have hz : num_bits_aux c.natAbs c.natAbs = 0 := by
      unfold BN_num_bytes BN_num_bits at hb
      omega
    rw [hz] at h
    exact Int.natAbs_eq_zero.mp (by omega)
  · intro hc
    subst hc
    decide

/-- The challenges that need more than 32 bytes are those of magnitude `2^256` or more. -/
theorem BN_num_bytes_gt_32_iff (c : BIGNUM) : 32 < BN_num_bytes c ↔ 2 ^ 256 ≤ c.natAbs := by
  obtain ⟨h1, h2⟩ := num_bits_aux_spec c.natAbs c.natAbs (Nat.le_refl _)
  constructor
  · intro hb
    have hbits : 257 ≤ num_bits_aux c.natAbs c.natAbs := by
      unfold BN_num_bytes BN_num_bits at hb
      omega
    have hne : c.natAbs ≠ 0 := by
      intro hz
      rw [hz] at hbits
      simp [num_bits_aux] at hbits
    have hp := Nat.pow_le_pow_right (show 0 < 2 by decide)
      (show 256 ≤ num_bits_aux c.natAbs c.natAbs - 1 by omega)
    exact Nat.le_trans hp (h2 hne)
  · intro hc
    have hbits : 256 < num_bits_aux c.natAbs c.natAbs := by
      by_contra hn
      have hp := Nat.pow_le_pow_right (show 0 < 2 by decide) (not_lt.mp hn)
      omega
    unfold BN_num_bytes BN_num_bits
    omega


/-- A value below the magnitude of the modulus is its own remainder. -/
theorem tmod_of_lt_natAbs (v n : Int) (h0 : 0 ≤ v) (h : v < n.natAbs) : Int.tmod v n = v := by
  rcases Int.natAbs_eq n with hn | hn
  · rw [hn]
    exact Int.tmod_eq_of_lt h0 h
  · rw [hn, Int.tmod_neg]
    exact Int.tmod_eq_of_lt h0 h

/-- A modulus of 257 bits or more has magnitude `2^256` or more. -/
theorem pow_256_le_of_num_bits (n : BIGNUM) (h : 257 ≤ BN_num_bits n) :
    (2 : Int) ^ 256 ≤ n.natAbs := by
  obtain ⟨_, h2⟩ := num_bits_aux_spec n.natAbs n.natAbs (Nat.le_refl _)
  have hne : n.natAbs ≠ 0 := by
    intro hz
    unfold BN_num_bits at h
    rw [hz] at h
    simp [num_bits_aux] at h
  have hp := Nat.pow_le_pow_right (show 0 < 2 by decide)
    (show 256 ≤ num_bits_aux n.natAbs n.natAbs - 1 by
      unfold BN_num_bits at h
      omega)
  have hle : 2 ^ 256 ≤ n.natAbs := Nat.le_trans hp (h2 hne)
  exact_mod_cast hle

/-- C25. For every key whose modulus has at least the minimum bit length,
`auth_rsa_verify_response` ends in `fatal` exactly when the challenge is 0 or needs more
than 32 bytes, that is, has magnitude `2^256` or more; on every challenge from 1 to
`2^256 - 1` it returns 1 (accepted) or 0 (rejected). The value that
`BN_rand(challenge, 256, 0, 0)` of line 76 draws has 256 bits with the top one set
(`top = 0`), so `2^255 ≤ v < 2^256`; the minimum size being more than 256 bits (768 in
ssh.h), such a value is below the modulus, `auth_rsa_generate_challenge` returns it
unchanged when its allocations succeed, and on every challenge it can return
`auth_rsa_verify_response` does not reach `fatal`: it returns accepted or rejected. -/
theorem C25_fatal_unreachable_for_generated (minbits : Nat)
    (MD5 : List u_char → List u_char) (S : List u_char) (key : sshkey) (r : List u_char)
    (hk : minbits ≤ BN_num_bits key.rsa.n) :
    (∀ c, auth_rsa_verify_response minbits MD5 S key c r = .fatal ↔
      (c = 0 ∨ 32 < BN_num_bytes c)) ∧
    (∀ c : BIGNUM, 32 < BN_num_bytes c ↔ 2 ^ 256 ≤ c.natAbs) ∧
    (∀ c, 0 < c → c < 2 ^ 256 →
      auth_rsa_verify_response minbits MD5 S key c r = .ret 1 ∨
      auth_rsa_verify_response minbits MD5 S key c r = .ret 0) ∧
    (∀ (env : auth_env) (v : BIGNUM), 257 ≤ minbits → env.BN_rand = some v →
      2 ^ 255 ≤ v → v < 2 ^ 256 →
      (env.BN_new_challenge = true → env.BN_CTX_new = true →
        auth_rsa_generate_challenge env key = ([auth_event.BN_rand v], .ret v)) ∧
      ∀ c, (auth_rsa_generate_challenge env key).2 = .ret c →
        c = v ∧
        auth_rsa_verify_response minbits MD5 S key c r ≠ .fatal ∧
        (auth_rsa_verify_response minbits MD5 S key c r = .ret 1 ∨
          auth_rsa_verify_response minbits MD5 S key c r = .ret 0)) := by
  have a : ¬ (BN_num_bits key.rsa.n < minbits) := by omega
  have hfatal : ∀ c, auth_rsa_verify_response minbits MD5 S key c r = .fatal ↔
      (c = 0 ∨ 32 < BN_num_bytes c) := by
    intro c
    rw [← BN_num_bytes_eq_zero_iff c]
    unfold auth_rsa_verify_response
    rw [if_neg a]
    by_cases hb : BN_num_bytes c ≤ 0 ∨ BN_num_bytes c > 32
    · simp only [hb, if_true, true_iff]
      omega
    · simp only [hb, if_false]
      constructor
      · intro h
        split at h <;> cases h
      · intro h
        omega
  have hret : ∀ c, 0 < c → c < 2 ^ 256 →
      auth_rsa_verify_response minbits MD5 S key c r = .ret 1 ∨
      auth_rsa_verify_response minbits MD5 S key c r = .ret 0 := by
    intro c h0 h256
    obtain ⟨h1, h32⟩ := BN_num_bytes_range c h0 h256
    have b : ¬ (BN_num_bytes c ≤ 0 ∨ BN_num_bytes c > 32) := by omega
    unfold auth_rsa_verify_response
    rw [if_neg a]
    simp only [b, if_false]
    split
    · exact Or.inr rfl
    · exact Or.inl rfl
  refine ⟨hfatal, BN_num_bytes_gt_32_iff, hret, ?_⟩
  intro env v hmin hv h255 h256
  have hpos : (0 : Int) < v := lt_of_lt_of_le (by positivity) h255
  have hbig : (2 : Int) ^ 256 ≤ key.rsa.n.natAbs :=
    pow_256_le_of_num_bits key.rsa.n (by omega)
  have hne : key.rsa.n ≠ 0 := by
    intro hz
    rw [hz, Int.natAbs_zero, Nat.cast_zero] at hbig
    exact absurd hbig (not_le.mpr (by positivity))
  have ht : Int.tmod v key.rsa.n = v :=
    tmod_of_lt_natAbs v key.rsa.n (le_of_lt hpos) (lt_of_lt_of_le h256 hbig)
  constructor
  · intro ha hc
    simp [auth_rsa_generate_challenge, ha, hv, hc, hne, ht]
  · intro c hc
    have hcv : c = v := by
      unfold auth_rsa_generate_challenge at hc
      rw [hv] at hc
      by_cases ha : env.BN_new_challenge = true
      · by_cases hx : env.BN_CTX_new = true
        · simp only [ha, hx, hne, ht, Bool.not_true, Bool.false_eq_true, if_false,
            outcome.ret.injEq] at hc
          exact hc.symm
        · simp [ha, hx] at hc
      · simp [ha] at hc
    subst hcv
    have h := hret c hpos h256
    refine ⟨rfl, ?_, h⟩
    rcases h with h | h <;> rw [h] <;> exact fun h2 => by cases h2

/-- C25, at the 768-bit modulus 2^767 with minimum size 768 and the drawn value
`2^255 + 5`: the challenge returned is the drawn value, and on the response of sixteen
zero bytes the check returns accepted or rejected. -/
theorem C25_fatal_unreachable_for_generated_witness :
    auth_rsa_generate_challenge
        (example_env example_files (2 ^ 255 + 5) (List.replicate 16 0))
        { rsa := { n := 2 ^ 767, e := 5 } }
      = ([auth_event.BN_rand (2 ^ 255 + 5)], .ret (2 ^ 255 + 5)) ∧
    (auth_rsa_verify_response 768 toy_digest (List.replicate 16 7)
        { rsa := { n := 2 ^ 767, e := 5 } } (2 ^ 255 + 5) (List.replicate 16 0) = .ret 1 ∨
      auth_rsa_verify_response 768 toy_digest (List.replicate 16 7)
        { rsa := { n := 2 ^ 767, e := 5 } } (2 ^ 255 + 5) (List.replicate 16 0) = .ret 0) :=
  ⟨((C25_fatal_unreachable_for_generated 768 toy_digest (List.replicate 16 7)
      { rsa := { n := 2 ^ 767, e := 5 } } (List.replicate 16 0)
      (by set_option maxRecDepth 100000 in decide)).2.2.2
      (example_env example_files (2 ^ 255 + 5) (List.replicate 16 0)) (2 ^ 255 + 5)
      (by decide) rfl (by set_option maxRecDepth 100000 in decide)
      (by set_option maxRecDepth 100000 in decide)).1 rfl rfl,
   (C25_fatal_unreachable_for_generated 768 toy_digest (List.replicate 16 7)
      { rsa := { n := 2 ^ 767, e := 5 } } (List.replicate 16 0)
      (by set_option maxRecDepth 100000 in decide)).2.2.1 (2 ^ 255 + 5)
      (by set_option maxRecDepth 100000 in decide)
      (by set_option maxRecDepth 100000 in decide)⟩
end OpenSSH
